import Mathlib

/-!
# picosvg: geometry and tree-rewrite engine, shallowly embedded

A shallow embedding of the parts of picosvg that the frozen claims touch:

* `picosvg/geometric_types.py` — `Point`, `Vector`, `Rect`, `almost_equal`;
* `picosvg/svg_transform.py`   — `Affine2D` and its operations;
* `picosvg/svg_meta.py`        — command tables, `ntos`, `path_segment`;
* `picosvg/svg_path_iter.py`   — `parse_svg_path` and its number lexer;
* `picosvg/svg_types.py`       — the path `walk` machinery, the rewrite passes
  (`absolute`/`relative`/`explicit_lines`/`expand_shorthand`), `SVGRect`;
* `picosvg/arc_to_cubic.py`    — elliptical arc to cubic Bezier conversion;
* `picosvg/svg_reuse.py`       — `affine_between` and its helpers;
* `picosvg/svg.py`             — the `_unnest_svg` transform computation.

Python floats are modelled as exact numbers: the purely rational parts of the
code are embedded over `ℚ` (computable, so concrete runs can be checked with
`decide`), and the parts that use trigonometry (`rotate`, the arc converter,
the shape-reuse matcher) over `ℝ`.  Python exceptions are modelled with
`Except String`; `None` returns with `Option`.  Fields and function names keep
the Python names wherever Lean allows.
-/

namespace Picosvg

/-! ## geometric_types.py -/

/-- `geometric_types.DEFAULT_ALMOST_EQUAL_TOLERANCE = 1e-9`, at any field. -/
def defaultTolerance (α : Type) [LinearOrderedField α] : α := 1 / 1000000000

variable {α : Type} [LinearOrderedField α]

/-- `geometric_types.almost_equal(c1, c2, tolerance)`. -/
def almost_equal (c1 c2 tolerance : α) : Prop := |c1 - c2| ≤ tolerance

instance (c1 c2 tolerance : α) : Decidable (almost_equal c1 c2 tolerance) := by
  unfold almost_equal; infer_instance

/-- `geometric_types.Point` (a NamedTuple of two floats). -/
structure Point (α : Type) where
  x : α
  y : α
  deriving DecidableEq, Repr

/-- `geometric_types.Vector` (a NamedTuple of two floats). -/
structure Vector (α : Type) where
  x : α
  y : α
  deriving DecidableEq, Repr

/-- `Point.__sub__` on a Point operand: the Vector from `other` to `self`. -/
def Point.subPt (p q : Point α) : Vector α := ⟨p.x - q.x, p.y - q.y⟩

/-- `Point.__add__`: the Point translated by a Vector. -/
def Point.addVec (p : Point α) (v : Vector α) : Point α := ⟨p.x + v.x, p.y + v.y⟩

/-- `Point.almost_equals(other, tolerance)`. -/
def Point.almost_equals (p q : Point α) (tolerance : α) : Prop :=
  almost_equal p.x q.x tolerance ∧ almost_equal p.y q.y tolerance

instance (p q : Point α) (tolerance : α) :
    Decidable (Point.almost_equals p q tolerance) := by
  unfold Point.almost_equals; infer_instance

/-- `Vector.__mul__` by a scalar. -/
def Vector.smul (v : Vector α) (s : α) : Vector α := ⟨v.x * s, v.y * s⟩

/-- `Vector.__add__`. -/
def Vector.add (v w : Vector α) : Vector α := ⟨v.x + w.x, v.y + w.y⟩

/-- `Vector.dot`. -/
def Vector.dot (v w : Vector α) : α := v.x * w.x + v.y * w.y

/-- `geometric_types.Rect` (a NamedTuple of four floats). -/
structure Rect (α : Type) where
  x : α
  y : α
  w : α
  h : α
  deriving DecidableEq, Repr

/-- `Rect.empty()`: width or height is 0. -/
def Rect.empty (r : Rect α) : Prop := r.w = 0 ∨ r.h = 0

instance (r : Rect α) : Decidable r.empty := by unfold Rect.empty; infer_instance

/-- The inner `_overlap` helper of `Rect.intersection`. -/
def Rect.overlap (start1 end1 start2 end2 : α) : α × α :=
  let start := max start1 start2
  let stop := min end1 end2
  if start ≥ stop then (0, 0) else (start, stop)

/-- The tail of `Rect.intersection`, applied to the two `_overlap` results. -/
def Rect.intersectionAux (xo yo : α × α) : Option (Rect α) :=
  if xo.1 ≠ xo.2 ∧ yo.1 ≠ yo.2 then
    some ⟨xo.1, yo.1, xo.2 - xo.1, yo.2 - yo.1⟩
  else
    none

/-- `Rect.intersection(other)`: `None` when the ranges do not overlap on
either axis. -/
def Rect.intersection (r other : Rect α) : Option (Rect α) :=
  Rect.intersectionAux
    (Rect.overlap r.x (r.x + r.w) other.x (other.x + other.w))
    (Rect.overlap r.y (r.y + r.h) other.y (other.y + other.h))

/-! ## svg_transform.py: Affine2D -/

/-- `svg_transform.Affine2D`: 2D affine transform as six scalars, viewed as
the matrix rows `a c e / b d f` acting on row vectors `[x y 1]`. -/
structure Affine2D (α : Type) where
  a : α
  b : α
  c : α
  d : α
  e : α
  f : α
  deriving DecidableEq, Repr

namespace Affine2D

/-- `Affine2D.identity()`. -/
def identity : Affine2D α := ⟨1, 0, 0, 1, 0, 0⟩

/-- `Affine2D.degenerate()`: the all-zero sentinel matrix. -/
def degenerate : Affine2D α := ⟨0, 0, 0, 0, 0, 0⟩

/-- `Affine2D.product(first, second)`: apply `first`, then `second`
(row-vector convention). -/
def product (first second : Affine2D α) : Affine2D α :=
  ⟨first.a * second.a + first.b * second.c,
   first.a * second.b + first.b * second.d,
   first.c * second.a + first.d * second.c,
   first.c * second.b + first.d * second.d,
   second.a * first.e + second.c * first.f + second.e,
   second.b * first.e + second.d * first.f + second.f⟩

/-- `Affine2D.matrix(a, b, c, d, e, f)`. -/
def matrix (m : Affine2D α) (a b c d e f : α) : Affine2D α :=
  product ⟨a, b, c, d, e, f⟩ m

/-- `Affine2D.translate(tx, ty)`, with the source's `(0, 0)` early return. -/
def translate (m : Affine2D α) (tx ty : α) : Affine2D α :=
  if tx = 0 ∧ ty = 0 then m else m.matrix 1 0 0 1 tx ty

/-- `Affine2D.scale(sx, sy)` (the Python `sy=None` default means `sy = sx`;
callers here always pass both). -/
def scale (m : Affine2D α) (sx sy : α) : Affine2D α :=
  m.matrix sx 0 0 sy 0 0

/-- `Affine2D.determinant()`. -/
def determinant (m : Affine2D α) : α := m.a * m.d - m.b * m.c

/-- `sys.float_info.epsilon = 2.220446049250313e-16`, which is exactly
`2 ** (-52)`. -/
def floatEpsilon (α : Type) [LinearOrderedField α] : α := 1 / 4503599627370496

/-- `Affine2D.is_degenerate()`: `abs(determinant) <= sys.float_info.epsilon`. -/
def is_degenerate (m : Affine2D α) : Prop := |m.determinant| ≤ floatEpsilon α

instance (m : Affine2D α) : Decidable m.is_degenerate := by
  unfold is_degenerate; infer_instance

/-- `Affine2D.inverse()`, exactly as written in the source.  Note that the
Python body rebinds `e` before computing `f`, so `f` is computed from the
already-inverted `e` rather than from the original one. -/
def inverse (m : Affine2D α) : Affine2D α :=
  if m = identity then m
  else if m.is_degenerate then degenerate
  else
    let det := m.determinant
    let a := m.d / det
    let b := -m.b / det
    let c := -m.c / det
    let d := m.a / det
    let e := -a * m.e - c * m.f
    let f := -b * e - d * m.f
    ⟨a, b, c, d, e, f⟩

/-- `Affine2D.map_point(pt)`. -/
def map_point (m : Affine2D α) (pt : Point α) : Point α :=
  ⟨m.a * pt.x + m.c * pt.y + m.e, m.b * pt.x + m.d * pt.y + m.f⟩

/-- `Affine2D.map_vector(vec)`: translation ignored. -/
def map_vector (m : Affine2D α) (vec : Vector α) : Vector α :=
  ⟨m.a * vec.x + m.c * vec.y, m.b * vec.x + m.d * vec.y⟩

/-- `Affine2D.compose_ltr(affines)`: fold the reversed list with
`acc, a -> product(a, acc)` starting from the identity. -/
def compose_ltr (affines : List (Affine2D α)) : Affine2D α :=
  affines.reverse.foldl (fun acc m => product m acc) identity

/-- `Affine2D.rect_to_rect(src, dst)`: scale and translate `src` onto `dst`. -/
def rect_to_rect (src dst : Rect α) : Affine2D α :=
  if src.empty then identity
  else if dst.empty then ⟨0, 0, 0, 0, 0, 0⟩
  else
    let sx := dst.w / src.w
    let sy := dst.h / src.h
    ⟨sx, 0, 0, sy, dst.x - src.x * sx, dst.y - src.y * sy⟩

/-- `Affine2D.almost_equals(other, tolerance)`. -/
def almost_equals (m n : Affine2D α) (tolerance : α) : Prop :=
  almost_equal m.a n.a tolerance ∧ almost_equal m.b n.b tolerance ∧
  almost_equal m.c n.c tolerance ∧ almost_equal m.d n.d tolerance ∧
  almost_equal m.e n.e tolerance ∧ almost_equal m.f n.f tolerance

end Affine2D

/-! Basic algebra of `product` and `map_point`, shared by several claims. -/

theorem map_point_product (first second : Affine2D α) (p : Point α) :
    (Affine2D.product first second).map_point p =
      second.map_point (first.map_point p) := by
  simp only [Affine2D.product, Affine2D.map_point, Point.mk.injEq]
  constructor <;> ring

theorem product_identity_right (m : Affine2D α) :
    Affine2D.product m Affine2D.identity = m := by
  simp only [Affine2D.product, Affine2D.identity]
  cases m
  simp only [Affine2D.mk.injEq]
  refine ⟨by ring, by ring, by ring, by ring, by ring, by ring⟩

theorem product_identity_left (m : Affine2D α) :
    Affine2D.product Affine2D.identity m = m := by
  simp only [Affine2D.product, Affine2D.identity]
  cases m
  simp only [Affine2D.mk.injEq]
  refine ⟨by ring, by ring, by ring, by ring, by ring, by ring⟩

/-! ### Claim C7: compose_ltr applies the leftmost transform to points first -/

/-- C7.  For all `Affine2D` matrices `A`, `B` and every point `P`,
`compose_ltr([A, B]).map_point(P)` equals `B.map_point(A.map_point(P))`:
`compose_ltr` folds a left-to-right transform list so that the leftmost
transform is applied to points first.  The equality is exact, hence it holds
within every nonnegative tolerance. -/
theorem compose_ltr_two_applies_left_first
    (A B : Affine2D α) (P : Point α) :
    (Affine2D.compose_ltr [A, B]).map_point P =
      B.map_point (A.map_point P) := by
  have h : Affine2D.compose_ltr [A, B] = Affine2D.product A B := by
    simp only [Affine2D.compose_ltr, List.reverse_cons, List.reverse_nil,
      List.nil_append, List.cons_append, List.foldl_cons, List.foldl_nil]
    rw [product_identity_right]
  rw [h, map_point_product]

/-! ### Claim C1: the inverse round-trip, and the aliasing slip in `inverse` -/

/-- The mathematically correct inverse of the affine `m` (row-vector
convention), used to state what `Affine2D.inverse` was documented to return. -/
def trueInverse (m : Affine2D α) : Affine2D α :=
  let det := m.determinant
  let a := m.d / det
  let b := -m.b / det
  let c := -m.c / det
  let d := m.a / det
  ⟨a, b, c, d, -a * m.e - c * m.f, -b * m.e - d * m.f⟩

theorem trueInverse_map_point (m : Affine2D α) (hdet : m.determinant ≠ 0)
    (p : Point α) : (trueInverse m).map_point (m.map_point p) = p := by
  simp only [trueInverse, Affine2D.map_point, Affine2D.determinant] at *
  have h : m.a * m.d - m.b * m.c ≠ 0 := hdet
  cases p
  simp only [Point.mk.injEq]
  constructor <;> field_simp <;> ring

/-- C1 (the code at the failing input).  `Affine2D.inverse` computes the
translation row from the already-overwritten `e` (`f = -b*e - d*f` runs after
`e` was rebound), so for the non-degenerate rotation-plus-translation
`A = (0, 1, -1, 0, 1, 0)` the round trip
`A.inverse().map_point(A.map_point((0, 0)))` lands at `(0, -1)`, a full unit
away from `(0, 0)` — far outside the default tolerance `1e-9` — while the
correct inverse would return exactly `(0, 0)`. -/
theorem inverse_round_trip_fails :
    ¬ (Affine2D.mk (0 : ℚ) 1 (-1) 0 1 0).is_degenerate ∧
    (Affine2D.mk (0 : ℚ) 1 (-1) 0 1 0).inverse.map_point
        ((Affine2D.mk (0 : ℚ) 1 (-1) 0 1 0).map_point ⟨0, 0⟩) = ⟨0, -1⟩ ∧
    ¬ Point.almost_equals
        ((Affine2D.mk (0 : ℚ) 1 (-1) 0 1 0).inverse.map_point
          ((Affine2D.mk (0 : ℚ) 1 (-1) 0 1 0).map_point ⟨0, 0⟩))
        ⟨0, 0⟩ (defaultTolerance ℚ) ∧
    (trueInverse (Affine2D.mk (0 : ℚ) 1 (-1) 0 1 0)).map_point
        ((Affine2D.mk (0 : ℚ) 1 (-1) 0 1 0).map_point ⟨0, 0⟩) = ⟨0, 0⟩ := by
  have hne : Affine2D.mk (0 : ℚ) 1 (-1) 0 1 0 ≠ Affine2D.identity := by
    simp [Affine2D.identity]
  have hdeg : ¬ (Affine2D.mk (0 : ℚ) 1 (-1) 0 1 0).is_degenerate := by
    norm_num [Affine2D.is_degenerate, Affine2D.determinant, Affine2D.floatEpsilon]
  have hinv : (Affine2D.mk (0 : ℚ) 1 (-1) 0 1 0).inverse =
      Affine2D.mk (0 : ℚ) (-1) 1 0 0 0 := by
    rw [Affine2D.inverse, if_neg hne, if_neg hdeg]
    norm_num [Affine2D.determinant]
  refine ⟨hdeg, ?_, ?_, ?_⟩
  · rw [hinv]; norm_num [Affine2D.map_point]
  · rw [hinv]
    norm_num [Affine2D.map_point, Point.almost_equals, almost_equal,
      defaultTolerance]
  · norm_num [trueInverse, Affine2D.map_point, Affine2D.determinant]

/-! ### Claim C10: a returned intersection Rect is never empty -/

/-- C10.  Whenever `Rect.intersection` returns a rectangle rather than `None`,
that rectangle has strictly positive width and height; and two rectangles
whose ranges overlap with zero (or negative) extent on some axis — merely
touching along an edge or at a corner — yield `None`.  So `intersection`
never returns an empty `Rect`. -/
theorem intersection_result_positive :
    (∀ r1 r2 r : Rect ℚ, r1.intersection r2 = some r → 0 < r.w ∧ 0 < r.h) ∧
    (∀ r1 r2 : Rect ℚ,
      (min (r1.x + r1.w) (r2.x + r2.w) ≤ max r1.x r2.x ∨
       min (r1.y + r1.h) (r2.y + r2.h) ≤ max r1.y r2.y) →
      r1.intersection r2 = none) := by
  have hov : ∀ s1 e1 s2 e2 : ℚ,
      Rect.overlap s1 e1 s2 e2 = (0, 0) ∨
      ((Rect.overlap s1 e1 s2 e2).1 < (Rect.overlap s1 e1 s2 e2).2) := by
    intro s1 e1 s2 e2
    unfold Rect.overlap
    by_cases h : max s1 s2 ≥ min e1 e2
    · left; simp [h]
    · right; simp only [h, if_false]; exact lt_of_not_ge h
  constructor
  · intro r1 r2 r h
    unfold Rect.intersection at h
    rcases hov r1.x (r1.x + r1.w) r2.x (r2.x + r2.w) with hx0 | hxlt
    · rw [hx0] at h
      simp [Rect.intersectionAux] at h
    · rcases hov r1.y (r1.y + r1.h) r2.y (r2.y + r2.h) with hy0 | hylt
      · rw [hy0] at h
        simp [Rect.intersectionAux] at h
      · rw [Rect.intersectionAux, if_pos ⟨ne_of_lt hxlt, ne_of_lt hylt⟩] at h
        injection h with h
        subst h
        exact ⟨sub_pos.mpr hxlt, sub_pos.mpr hylt⟩
  · intro r1 r2 h
    unfold Rect.intersection
    rcases h with h | h
    · have h0 : Rect.overlap r1.x (r1.x + r1.w) r2.x (r2.x + r2.w) = (0, 0) := by
        unfold Rect.overlap
        simp [ge_iff_le, h]
      rw [h0]
      simp [Rect.intersectionAux]
    · have h0 : Rect.overlap r1.y (r1.y + r1.h) r2.y (r2.y + r2.h) = (0, 0) := by
        unfold Rect.overlap
        simp [ge_iff_le, h]
      rw [h0]
      simp [Rect.intersectionAux]

/-- Witness for C10 at concrete rectangles: `(0,0,2,2) ∩ (1,1,2,2)` is the
unit square at `(1,1)` (positive extents), while `(0,0,2,2)` and `(2,0,2,2)`
touch along an edge and intersect to `None`. -/
theorem intersection_result_positive_witness :
    (Rect.intersection (⟨0, 0, 2, 2⟩ : Rect ℚ) ⟨1, 1, 2, 2⟩ =
      some ⟨1, 1, 1, 1⟩) ∧
    (0 < (1 : ℚ) ∧ 0 < (1 : ℚ)) ∧
    Rect.intersection (⟨0, 0, 2, 2⟩ : Rect ℚ) ⟨2, 0, 2, 2⟩ = none := by
  have h1 : Rect.intersection (⟨0, 0, 2, 2⟩ : Rect ℚ) ⟨1, 1, 2, 2⟩ =
      some ⟨1, 1, 1, 1⟩ := by
    norm_num [Rect.intersection, Rect.overlap, Rect.intersectionAux]
  obtain ⟨hpos, hnone⟩ := intersection_result_positive
  refine ⟨h1, ?_, ?_⟩
  · exact hpos ⟨0, 0, 2, 2⟩ ⟨1, 1, 2, 2⟩ ⟨1, 1, 1, 1⟩ h1
  · exact hnone ⟨0, 0, 2, 2⟩ ⟨2, 0, 2, 2⟩ (by norm_num)

/-! ## svg_types.py: SVGRect (claim C9) -/

/-- One parsed SVG path command: the command letter and its numeric
arguments, as `parse_svg_path` yields them. -/
def SvgCmd (α : Type) := Char × List α

instance : DecidableEq (SvgCmd ℚ) := by unfold SvgCmd; infer_instance

/-- The geometric fields of `svg_types.SVGRect` (presentation attributes are
not modelled; they play no role in the claims). -/
structure SVGRect (α : Type) where
  x : α
  y : α
  width : α
  height : α
  rx : α
  ry : α
  deriving DecidableEq, Repr

/-- `SVGRect.__post_init__`: if only one of `rx`/`ry` is given the other one
copies it (Python truthiness: `not self.rx` is `rx == 0`), then both radii
are clamped to half the width/height.  `SVGRect(...)` always runs this, so a
constructed rect carries the adjusted radii. -/
def SVGRect.create (x y width height rx ry : α) : SVGRect α :=
  let rx1 := if rx = 0 then ry else rx
  let ry1 := if ry = 0 then rx1 else ry
  ⟨x, y, width, height, min rx1 (width / 2), min ry1 (height / 2)⟩

/-- `SVGRect.as_path()`, as the command sequence the generated `d` string
parses to.  An `A` emitted through `SVGPath._arc` carries the argument tuple
`(rx, ry, 0, large_arc, 1, x, y)` with `large_arc = 0` here. -/
def SVGRect.as_path (r : SVGRect α) : List (SvgCmd α) :=
  [('M', [r.x + r.rx, r.y]), ('H', [r.x + r.width - r.rx])] ++
  (if r.rx > 0 then [('A', [r.rx, r.ry, 0, 0, 1, r.x + r.width, r.y + r.ry])]
   else []) ++
  [('V', [r.y + r.height - r.ry])] ++
  (if r.rx > 0 then
    [('A', [r.rx, r.ry, 0, 0, 1, r.x + r.width - r.rx, r.y + r.height])]
   else []) ++
  [('H', [r.x + r.rx])] ++
  (if r.rx > 0 then
    [('A', [r.rx, r.ry, 0, 0, 1, r.x, r.y + r.height - r.ry])]
   else []) ++
  [('V', [r.y + r.ry])] ++
  (if r.rx > 0 then [('A', [r.rx, r.ry, 0, 0, 1, r.x + r.rx, r.y])] else []) ++
  [('Z', [])]

/-! ### Claim C9: the corner-radius invariant of SVGRect -/

/-- C9.  Constructing an `SVGRect` establishes the corner-radius invariant:
when exactly one of `rx`, `ry` is given (the other zero) the missing one is
set equal to the given one and both are then clamped to `width/2` resp.
`height/2`; the clamps hold for every constructed rect, and `as_path` reads
its radii only from the adjusted fields (every `A` command it emits carries
`(r.rx, r.ry)` as its first two arguments). -/
theorem svgrect_radius_invariant (x y width height rx ry : ℚ) :
    (rx = 0 → ry ≠ 0 →
      (SVGRect.create x y width height rx ry).rx = min ry (width / 2) ∧
      (SVGRect.create x y width height rx ry).ry = min ry (height / 2)) ∧
    (ry = 0 → rx ≠ 0 →
      (SVGRect.create x y width height rx ry).rx = min rx (width / 2) ∧
      (SVGRect.create x y width height rx ry).ry = min rx (height / 2)) ∧
    (SVGRect.create x y width height rx ry).rx ≤ width / 2 ∧
    (SVGRect.create x y width height rx ry).ry ≤ height / 2 ∧
    (∀ cmd ∈ (SVGRect.create x y width height rx ry).as_path, cmd.1 = 'A' →
      cmd.2.take 2 = [(SVGRect.create x y width height rx ry).rx,
                      (SVGRect.create x y width height rx ry).ry]) := by
  refine ⟨?_, ?_, ?_, ?_, ?_⟩
  · intro hrx hry
    simp [SVGRect.create, hrx, hry]
  · intro hry hrx
    simp [SVGRect.create, hrx, hry]
  · simp [SVGRect.create]
  · simp [SVGRect.create]
  · intro cmd hmem hA
    set r := SVGRect.create x y width height rx ry with hr
    unfold SVGRect.as_path at hmem
    by_cases harc : r.rx > 0
    · simp only [harc, if_true, List.append_assoc, List.cons_append,
        List.nil_append, List.mem_cons, List.not_mem_nil, or_false,
        or_assoc] at hmem
      rcases hmem with rfl | rfl | rfl | rfl | rfl | rfl | rfl | rfl | rfl | rfl <;>
        first | rfl | simp at hA
    · simp only [harc, if_false, List.append_assoc, List.cons_append,
        List.nil_append, List.mem_cons, List.not_mem_nil, or_false,
        or_assoc] at hmem
      rcases hmem with rfl | rfl | rfl | rfl | rfl | rfl <;>
        first | rfl | simp at hA

/-- Witness for C9 at the spec's concrete scenario
`SVGRect(x=9, y=9, width=11, height=7, rx=2)`: the missing `ry` copies
`rx = 2`, the clamps keep both radii at 2, and the generated path is exactly
`M11,9 H18 A2 2 0 0 1 20,11 V14 A2 2 0 0 1 18,16 H11 A2 2 0 0 1 9,14 V11
A2 2 0 0 1 11,9 Z`. -/
theorem svgrect_radius_invariant_witness :
    ((2 : ℚ) = 0 → False) ∧
    (SVGRect.create (9 : ℚ) 9 11 7 2 0).rx = min 2 (11 / 2) ∧
    (SVGRect.create (9 : ℚ) 9 11 7 2 0).ry = min 2 (7 / 2) ∧
    (SVGRect.create (9 : ℚ) 9 11 7 2 0).as_path =
      [('M', [11, 9]), ('H', [18]), ('A', [2, 2, 0, 0, 1, 20, 11]),
       ('V', [14]), ('A', [2, 2, 0, 0, 1, 18, 16]), ('H', [11]),
       ('A', [2, 2, 0, 0, 1, 9, 14]), ('V', [11]),
       ('A', [2, 2, 0, 0, 1, 11, 9]), ('Z', [])] := by
  have h := (svgrect_radius_invariant (9 : ℚ) 9 11 7 2 0).2.1 rfl (by norm_num)
  refine ⟨by norm_num, h.1, h.2, ?_⟩
  norm_num [SVGRect.create, SVGRect.as_path]

/-! ## svg.py: the nested-svg transform (claim C3) -/

/-- The attributes of a nested `<svg>` element that `SVG._unnest_svg` reads,
with `float()` conversion and the `x`/`y`/`width`/`height` defaults already
applied (`width`/`height` default to the parent viewBox size). -/
structure NestedSvgAttrs (α : Type) where
  x : α
  y : α
  width : α
  height : α
  viewBox : Option (Rect α)
  transform : Option (Affine2D α)
  overflow : String

/-- The transform / clip computation of `SVG._unnest_svg` for one nested
`<svg>` element (the recursion over further nested elements and the `lxml`
group construction around it are tree plumbing and are not modelled).
Returns the transform put on the wrapping `<g>` and the clip rect when
`overflow` demands one.

When the viewport differs from the viewBox the source runs
`Affine2D.rect_to_rect(viewbox, viewport, preserve_aspect_ratio)` — but
`Affine2D.rect_to_rect` accepts exactly two arguments (`src`, `dst`), so this
call raises `TypeError` before any tree is produced; it is embedded as the
error branch. -/
def unnestSvg (el : NestedSvgAttrs α) : Except String (Affine2D α × Option (Rect α)) := do
  let viewport : Rect α := ⟨el.x, el.y, el.width, el.height⟩
  let viewbox := el.viewBox.getD viewport
  let transform ←
    if viewport ≠ viewbox then
      Except.error
        "TypeError: rect_to_rect() takes 3 positional arguments but 4 were given"
    else
      Except.ok (Affine2D.identity.translate el.x el.y)
  let transform :=
    match el.transform with
    | some t => Affine2D.compose_ltr [transform, t]
    | none => transform
  if el.overflow = "visible" then
    Except.ok (transform, none)
  else if el.overflow ≠ "hidden" then
    Except.error "NotImplementedError: overflow is not supported"
  else
    Except.ok (transform,
      some ⟨el.x, el.y,
        (SVGRect.create el.x el.y el.width el.height 0 0).width,
        (SVGRect.create el.x el.y el.width el.height 0 0).height⟩)

/-! ### Claim C3: resolving a nested svg whose viewport differs from its
viewBox -/

/-- C3 (the code at the failing input).  For a nested `<svg x=0 y=0
width=100 height=50 viewBox="0 0 1000 500">` the claim promises a group
carrying `rect_to_rect(viewBox, viewport)`; the code instead raises
`TypeError` because `_unnest_svg` passes `preserve_aspect_ratio` as a third
argument to the two-argument `Affine2D.rect_to_rect`.  Only when viewport
and viewBox agree does a tree come back (second conjunct), so the transform
path promised by the claim is unreachable. -/
theorem unnest_svg_viewbox_raises :
    unnestSvg (α := ℚ)
        ⟨0, 0, 100, 50, some ⟨0, 0, 1000, 500⟩, none, "hidden"⟩ =
      Except.error
        "TypeError: rect_to_rect() takes 3 positional arguments but 4 were given" ∧
    unnestSvg (α := ℚ) ⟨0, 0, 100, 50, none, none, "hidden"⟩ =
      Except.ok (Affine2D.identity, some ⟨0, 0, 100, 50⟩) ∧
    Affine2D.rect_to_rect (⟨0, 0, 1000, 500⟩ : Rect ℚ) ⟨0, 0, 100, 50⟩ =
      ⟨1 / 10, 0, 0, 1 / 10, 0, 0⟩ := by
  refine ⟨?_, ?_, ?_⟩
  · norm_num [unnestSvg, bind, Except.bind]
  · norm_num [unnestSvg, SVGRect.create, Affine2D.translate, bind, Except.bind]
    exact fun h => absurd h (by decide)
  · norm_num [Affine2D.rect_to_rect, Rect.empty]

/-! ## svg_meta.py: command tables -/

/-- `svg_meta._CMD_ARGS` (`num_args`): `none` for an invalid command letter
(Python raises `ValueError`). -/
def num_args (c : Char) : Option ℕ :=
  if c = 'm' ∨ c = 'M' then some 2
  else if c = 'z' ∨ c = 'Z' then some 0
  else if c = 'l' ∨ c = 'L' then some 2
  else if c = 'h' ∨ c = 'H' then some 1
  else if c = 'v' ∨ c = 'V' then some 1
  else if c = 'c' ∨ c = 'C' then some 6
  else if c = 's' ∨ c = 'S' then some 4
  else if c = 'q' ∨ c = 'Q' then some 4
  else if c = 't' ∨ c = 'T' then some 2
  else if c = 'a' ∨ c = 'A' then some 7
  else none

/-- A valid SVG path command letter (the `_CMD_RE` character class). -/
def isCmdChar (c : Char) : Bool := (num_args c).isSome

/-- `svg_meta._CMD_COORDS` (`cmd_coords`): per command, the x-coordinate and
y-coordinate argument indices.  For an invalid letter the source raises
`ValueError`; every call site here is reached only after `check_cmd`
validated the letter, so the invalid case returns empty index lists. -/
def cmd_coords (c : Char) : List ℕ × List ℕ :=
  if c = 'm' ∨ c = 'M' then ([0], [1])
  else if c = 'l' ∨ c = 'L' then ([0], [1])
  else if c = 'h' ∨ c = 'H' then ([0], [])
  else if c = 'v' ∨ c = 'V' then ([], [0])
  else if c = 'c' ∨ c = 'C' then ([0, 2, 4], [1, 3, 5])
  else if c = 's' ∨ c = 'S' then ([0, 2], [1, 3])
  else if c = 'q' ∨ c = 'Q' then ([0, 2], [1, 3])
  else if c = 't' ∨ c = 'T' then ([0], [1])
  else if c = 'a' ∨ c = 'A' then ([5], [6])
  else ([], [])

/-- `svg_meta.check_cmd(cmd, args)`: raises for an unknown command, for a
`z`/`Z` with arguments, and for an argument count that is not a multiple of
the command's arity; otherwise returns the arity. -/
def check_cmd (c : Char) (nargs : ℕ) : Except String ℕ :=
  match num_args c with
  | none => Except.error "ValueError: invalid svg command"
  | some 0 =>
    if nargs = 0 then Except.ok 0
    else Except.error "ValueError: z has no args"
  | some k =>
    if nargs % k = 0 then Except.ok k
    else Except.error "ValueError: invalid number of args"

/-- `svg_path_iter._IMPLICIT_REPEAT_CMD`: `m -> l`, `M -> L`. -/
def implicitRepeatCmd (c : Char) : Char :=
  if c = 'm' then 'l' else if c = 'M' then 'L' else c

/-! ## svg_types.py: the path walk machinery -/

/-- `svg_path_iter._explode_cmd(args_per_cmd, cmd, args)`: one logical
command per argument group (`args[i*n : (i+1)*n]` for `i` in
`range(len(args) // n)`), the implicit-repeat table applied to all but the
first group. -/
def explodeOneCmd (argsPerCmd : ℕ) (c : Char) (args : List α) :
    List (SvgCmd α) :=
  (List.range (args.length / argsPerCmd)).map fun i =>
    (if i > 0 then implicitRepeatCmd c else c,
     (args.drop (i * argsPerCmd)).take argsPerCmd)

/-- The `exploded=True` view of a command list, as `SVGPath.__iter__`
produces for `walk`: each command is checked and split into
one-argument-group commands (`check_cmd` failures propagate). -/
def explodeCmds (cmds : List (SvgCmd α)) : Except String (List (SvgCmd α)) := do
  let groups ← cmds.mapM fun cmd => do
    let n ← check_cmd cmd.1 cmd.2.length
    if n = 0 then pure [cmd] else pure (explodeOneCmd n cmd.1 cmd.2)
  pure groups.flatten

/-- `svg_types._next_pos(curr_pos, cmd, cmd_args)`.  Argument indexing out of
range raises `IndexError` in Python; `walk` only passes argument tuples of
the command's exact arity, for which every table index is in range, so the
embedding reads a default `0` there. -/
def next_pos (curr : Point α) (c : Char) (args : List α) : Point α :=
  let xs := (cmd_coords c).1
  let ys := (cmd_coords c).2
  let nx0 := if c.isUpper ∧ xs ≠ [] then 0 else curr.x
  let ny0 := if c.isUpper ∧ ys ≠ [] then 0 else curr.y
  let nx := match xs.getLast? with
    | some i => nx0 + args.getD i 0
    | none => nx0
  let ny := match ys.getLast? with
    | some i => ny0 + args.getD i 0
    | none => ny0
  ⟨nx, ny⟩

/-- The body of `svg_types._explicit_lines_callback` (it always returns a
single replacement command). -/
def explicitLinesCore (curr : Point α) (c : Char) (args : List α) :
    SvgCmd α :=
  if c = 'v' then ('l', [0, args.getD 0 0])
  else if c = 'V' then ('L', [curr.x, args.getD 0 0])
  else if c = 'h' then ('l', [args.getD 0 0, 0])
  else if c = 'H' then ('L', [args.getD 0 0, curr.y])
  else (c, args)

/-- `svg_types._rewrite_coords(cmd_converter, coord_converter, curr_pos, cmd,
args)`: when the converted command letter differs, offset every coordinate
argument by the converted current position. -/
def rewrite_coords (cmdConverter : Char → Char) (coordConverter : α → α)
    (curr : Point α) (c : Char) (args : List α) : SvgCmd α :=
  let desired := cmdConverter c
  if c ≠ desired then
    let args1 := (cmd_coords c).1.foldl
      (fun l i => l.set i (l.getD i 0 + coordConverter curr.x)) args
    let args2 := (cmd_coords c).2.foldl
      (fun l i => l.set i (l.getD i 0 + coordConverter curr.y)) args1
    (desired, args2)
  else
    (c, args)

/-- `svg_types._relative_to_absolute`. -/
def relative_to_absolute (curr : Point α) (c : Char) (args : List α) :
    SvgCmd α :=
  rewrite_coords Char.toUpper (fun v => v) curr c args

/-- `svg_types._absolute_to_relative`. -/
def absolute_to_relative (curr : Point α) (c : Char) (args : List α) :
    SvgCmd α :=
  rewrite_coords Char.toLower (fun v => -v) curr c args

/-- `svg_types._move_endpoint(curr_pos, cmd, cmd_args, new_endpoint)`. -/
def move_endpoint (curr : Point α) (c : Char) (args : List α)
    (newEndpoint : Point α) : SvgCmd α :=
  let ca := explicitLinesCore curr c args
  let xs := (cmd_coords ca.1).1
  let ys := (cmd_coords ca.1).2
  if xs ≠ [] ∨ ys ≠ [] then
    let nx := if ca.1.isLower then newEndpoint.x - curr.x else newEndpoint.x
    let ny := if ca.1.isLower then newEndpoint.y - curr.y else newEndpoint.y
    match xs.getLast?, ys.getLast? with
    | some xi, some yi => (ca.1, (ca.2.set xi nx).set yi ny)
    | _, _ => ca
  else
    ca

/-- The running state of `SVGPath.walk`: current position, subpath start,
the previously emitted command (`new_cmds[-1]` with its `prev_pos`), and the
emitted commands so far in reverse order. -/
structure WalkState (α : Type) where
  curr : Point α
  subpathStart : Point α
  prev : Option (Point α × Char × List α)
  accRev : List (SvgCmd α)

/-- The initial `walk` state: positions at the origin, nothing emitted. -/
def WalkState.init : WalkState α := ⟨⟨0, 0⟩, ⟨0, 0⟩, none, []⟩

/-- A `walk` callback:
`callback(subpath_start, curr_pos, cmd, args, prev_pos, prev_cmd, prev_args)`
returning the replacement commands (`Except` carries Python exceptions such
as the assertion in `_affine_callback`). -/
def WalkCallback (α : Type) : Type :=
  Point α → Point α → Char → List α → Option (Point α × Char × List α) →
    Except String (List (SvgCmd α))

/-- Appending one callback-emitted command to the walk state: position
bookkeeping (a `z` returns to the subpath start, an `M`/`m` begins a new
subpath) exactly as in the body of `SVGPath.walk`'s inner loop. -/
def emitStep (st : WalkState α) (cmd : SvgCmd α) : WalkState α :=
  let nextPos :=
    if cmd.1.toLower ≠ 'z' then next_pos st.curr cmd.1 cmd.2
    else st.subpathStart
  let newSubpath := if cmd.1.toUpper = 'M' then nextPos else st.subpathStart
  ⟨nextPos, newSubpath, some (st.curr, cmd.1, cmd.2), cmd :: st.accRev⟩

/-- One iteration of `SVGPath.walk`'s loop over the exploded commands:
re-check the command, promote a leading `m` to `M`, run the callback and fold
its emissions into the state. -/
def walkStep (callback : WalkCallback α) (st : WalkState α) (first : Bool)
    (cmd : SvgCmd α) : Except String (WalkState α) := do
  let _ ← check_cmd cmd.1 cmd.2.length
  let c := if first ∧ cmd.1 = 'm' then 'M' else cmd.1
  let emitted ← callback st.subpathStart st.curr c cmd.2 st.prev
  pure (emitted.foldl emitStep st)

/-- The loop of `SVGPath.walk` over the exploded commands. -/
def walkGo (callback : WalkCallback α) (st : WalkState α) (first : Bool) :
    List (SvgCmd α) → Except String (List (SvgCmd α))
  | [] => Except.ok st.accRev.reverse
  | cmd :: rest => do
    let st' ← walkStep callback st first cmd
    walkGo callback st' false rest

/-- `SVGPath.walk(callback)`: explode, then fold the callback over the
commands.  (The source rebuilds the `d` string from the emitted commands;
Python's float-to-string round trip is exact, so the command list itself is
the result.) -/
def walk (cmds : List (SvgCmd α)) (callback : WalkCallback α) :
    Except String (List (SvgCmd α)) := do
  let ex ← explodeCmds cmds
  walkGo callback WalkState.init true ex

/-- The callback of `SVGPath._rewrite_path`: apply `rewrite_fn`, then snap an
endpoint that lands within the default tolerance of (but not exactly on) the
subpath start. -/
def rewritePathCallback (rewriteFn : Point α → Char → List α → SvgCmd α) :
    WalkCallback α :=
  fun subpathStart curr c args _prev =>
    let nc := rewriteFn curr c args
    let nextPos := next_pos curr nc.1 nc.2
    if nextPos ≠ subpathStart ∧
        nextPos.almost_equals subpathStart (defaultTolerance α) then
      Except.ok [move_endpoint curr nc.1 nc.2 subpathStart]
    else
      Except.ok [nc]

/-- `SVGPath.absolute()`: all commands absolute. -/
def SVGPath.absolute (cmds : List (SvgCmd α)) :
    Except String (List (SvgCmd α)) :=
  walk cmds (rewritePathCallback relative_to_absolute)

/-- `SVGPath.relative()`: all commands relative. -/
def SVGPath.relative (cmds : List (SvgCmd α)) :
    Except String (List (SvgCmd α)) :=
  walk cmds (rewritePathCallback absolute_to_relative)

/-- `SVGPath.explicit_lines()`: `h/H/v/V` to `l/L`. -/
def SVGPath.explicit_lines (cmds : List (SvgCmd α)) :
    Except String (List (SvgCmd α)) :=
  walk cmds (fun _sp curr c args _prev => Except.ok [explicitLinesCore curr c args])

/-- `{"S": "C", "T": "Q"}` lookup. -/
def shortToLong (c : Char) : Char :=
  if c = 'S' then 'C' else if c = 'T' then 'Q' else c

/-- The `expand_shorthand_callback` inside `SVGPath.expand_shorthand`: an
`S`/`T` (or `s`/`t`, first made absolute) becomes a `C`/`Q` whose first
control point reflects the previous command's last control point through the
current position whenever the previous emitted command, made absolute, is a
`C` or a `Q` (the source tests `prev_cmd in short_to_long.values()`, i.e.
either curve family); otherwise the control point is the current position. -/
def expandShorthandCallback : WalkCallback α :=
  fun _sp curr c args prev =>
    if ¬(c.toUpper = 'S' ∨ c.toUpper = 'T') then Except.ok [(c, args)]
    else
      let ca := if c.isLower then relative_to_absolute curr c args else (c, args)
      let newCp : α × α :=
        match prev with
        | none => (curr.x, curr.y)
        | some (prevPos, prevCmd, prevArgs) =>
          let pa :=
            if prevCmd.isLower then relative_to_absolute prevPos prevCmd prevArgs
            else (prevCmd, prevArgs)
          if pa.1 = 'C' ∨ pa.1 = 'Q' then
            (2 * curr.x - pa.2.getD (pa.2.length - 4) 0,
             2 * curr.y - pa.2.getD (pa.2.length - 3) 0)
          else
            (curr.x, curr.y)
      Except.ok [(shortToLong ca.1, newCp.1 :: newCp.2 :: ca.2)]

/-- `SVGPath.expand_shorthand()`. -/
def SVGPath.expand_shorthand (cmds : List (SvgCmd α)) :
    Except String (List (SvgCmd α)) :=
  walk cmds expandShorthandCallback

/-! ### Claim C2: what expand_shorthand reflects -/

/-- An `S`/`T`/`s`/`t` command made absolute, as the shorthand callback does
before expanding. -/
def absCmd (curr : Point α) (c : Char) (args : List α) : SvgCmd α :=
  if c.isLower then relative_to_absolute curr c args else (c, args)

/-- The previously emitted walk command, made absolute, as the shorthand
callback sees it. -/
def prevAbsolutized (prev : Option (Point α × Char × List α)) :
    Option (SvgCmd α) :=
  prev.map fun p =>
    if p.2.1.isLower then relative_to_absolute p.1 p.2.1 p.2.2
    else (p.2.1, p.2.2)

/-- Unfolding lemma: one successful `walkStep` advances `walkGo`. -/
theorem walkGo_cons (cb : WalkCallback α) (st st2 : WalkState α)
    (first : Bool) (cmd : SvgCmd α) (rest : List (SvgCmd α))
    (h : walkStep cb st first cmd = Except.ok st2) :
    walkGo cb st first (cmd :: rest) = walkGo cb st2 false rest := by
  rw [walkGo, h]
  rfl

/-- `walkGo` on an empty list returns the accumulated commands. -/
theorem walkGo_nil (cb : WalkCallback α) (st : WalkState α) (first : Bool) :
    walkGo cb st first [] = Except.ok st.accRev.reverse := rfl

/-- C2, counterexample to the claim as stated.  In
`M16,12 C20,14 16,16 18,18 T30,10` the shorthand `T` (quadratic family)
follows a `C` (cubic family): the claim says the new control point must then
coincide with the current point `(18, 18)`, but `expand_shorthand` reflects
the `C`'s last control point `(16, 16)` through `(18, 18)` and emits
`Q20,20 30,10` — the source tests `prev_cmd in short_to_long.values()`,
which accepts either curve family. -/
theorem expand_shorthand_family_counterexample :
    SVGPath.expand_shorthand
        [('M', [(16 : ℚ), 12]), ('C', [20, 14, 16, 16, 18, 18]),
         ('T', [30, 10])] =
      Except.ok
        [('M', [16, 12]), ('C', [20, 14, 16, 16, 18, 18]),
         ('Q', [20, 20, 30, 10])] ∧
    SVGPath.expand_shorthand
        [('M', [(16 : ℚ), 12]), ('C', [20, 14, 16, 16, 18, 18]),
         ('T', [30, 10])] ≠
      Except.ok
        [('M', [16, 12]), ('C', [20, 14, 16, 16, 18, 18]),
         ('Q', [18, 18, 30, 10])] := by
  have hexp : explodeCmds
      [('M', [(16 : ℚ), 12]), ('C', [20, 14, 16, 16, 18, 18]),
       ('T', [30, 10])] =
      Except.ok
        [('M', [16, 12]), ('C', [20, 14, 16, 16, 18, 18]), ('T', [30, 10])] := by
    simp [explodeCmds, explodeOneCmd, check_cmd, num_args,
      implicitRepeatCmd, bind, Except.bind, pure, Except.pure, List.mapM,
      List.mapM.loop, List.range_succ]
  have hstep1 : walkStep expandShorthandCallback
      (WalkState.init : WalkState ℚ) true ('M', [16, 12]) =
      Except.ok ⟨⟨16, 12⟩, ⟨16, 12⟩, some (⟨0, 0⟩, 'M', [16, 12]),
        [('M', [16, 12])]⟩ := by
    simp [walkStep, WalkState.init, check_cmd, num_args,
      expandShorthandCallback, emitStep, next_pos, cmd_coords, bind,
      Except.bind, pure, Except.pure]
  have hstep2 : walkStep expandShorthandCallback
      (⟨⟨16, 12⟩, ⟨16, 12⟩, some (⟨0, 0⟩, 'M', [16, 12]),
        [('M', [16, 12])]⟩ : WalkState ℚ) false
      ('C', [20, 14, 16, 16, 18, 18]) =
      Except.ok ⟨⟨18, 18⟩, ⟨16, 12⟩,
        some (⟨16, 12⟩, 'C', [20, 14, 16, 16, 18, 18]),
        [('C', [20, 14, 16, 16, 18, 18]), ('M', [16, 12])]⟩ := by
    simp [walkStep, check_cmd, num_args, expandShorthandCallback,
      emitStep, next_pos, cmd_coords, bind, Except.bind, pure, Except.pure]
  have hstep3 : walkStep expandShorthandCallback
      (⟨⟨18, 18⟩, ⟨16, 12⟩,
        some (⟨16, 12⟩, 'C', [20, 14, 16, 16, 18, 18]),
        [('C', [20, 14, 16, 16, 18, 18]), ('M', [16, 12])]⟩ : WalkState ℚ)
      false ('T', [30, 10]) =
      Except.ok ⟨⟨30, 10⟩, ⟨16, 12⟩,
        some (⟨18, 18⟩, 'Q', [20, 20, 30, 10]),
        [('Q', [20, 20, 30, 10]), ('C', [20, 14, 16, 16, 18, 18]),
         ('M', [16, 12])]⟩ := by
    simp [walkStep, check_cmd, num_args, expandShorthandCallback,
      emitStep, next_pos, cmd_coords, shortToLong, relative_to_absolute,
      rewrite_coords, bind, Except.bind, pure, Except.pure]
    norm_num
  have h : SVGPath.expand_shorthand
      [('M', [(16 : ℚ), 12]), ('C', [20, 14, 16, 16, 18, 18]),
       ('T', [30, 10])] =
      Except.ok
        [('M', [16, 12]), ('C', [20, 14, 16, 16, 18, 18]),
         ('Q', [20, 20, 30, 10])] := by
    unfold SVGPath.expand_shorthand walk
    rw [hexp]
    dsimp only [bind, Except.bind]
    rw [walkGo_cons _ _ _ _ _ _ hstep1, walkGo_cons _ _ _ _ _ _ hstep2,
      walkGo_cons _ _ _ _ _ _ hstep3, walkGo_nil]
    rfl
  refine ⟨h, ?_⟩
  rw [h]
  intro hcontra
  injection hcontra with hcontra
  simp at hcontra

/-- The control point `expand_shorthand_callback` computes: reflect the
previous (absolutized) command's second-to-last argument pair through the
current point when that command is a `C` or a `Q`, else the current point. -/
def reflectedControlPoint (curr : Point α)
    (prev : Option (Point α × Char × List α)) : α × α :=
  match prevAbsolutized prev with
  | some pa =>
    if pa.1 = 'C' ∨ pa.1 = 'Q' then
      (2 * curr.x - pa.2.getD (pa.2.length - 4) 0,
       2 * curr.y - pa.2.getD (pa.2.length - 3) 0)
    else (curr.x, curr.y)
  | none => (curr.x, curr.y)

/-- C2 (amended).  One `walk` step of `expand_shorthand` on a shorthand
command `S`/`T`/`s`/`t` (with its exact argument count, as the exploded
iteration supplies) emits exactly one replacement command: the long form
`C`/`Q` of the absolutized command with a control point pair prepended, where
the control point is the reflection of the previously emitted command's last
control point through the current point whenever that previous command, made
absolute, is a `C` **or** a `Q` — either curve family — and coincides with
the current point when there is no previous command or it is not a `C`/`Q`. -/
theorem expand_shorthand_control_point
    (st : WalkState ℚ) (first : Bool) (c : Char) (args : List ℚ)
    (hc : c = 'S' ∨ c = 'T' ∨ c = 's' ∨ c = 't')
    (hlen : args.length = (num_args c).getD 0) :
    ∃ cp : ℚ × ℚ,
      walkStep expandShorthandCallback st first (c, args) = Except.ok
        (emitStep st (shortToLong (absCmd st.curr c args).1,
                      cp.1 :: cp.2 :: (absCmd st.curr c args).2)) ∧
      (∀ pa, prevAbsolutized st.prev = some pa →
        (pa.1 = 'C' ∨ pa.1 = 'Q') →
        cp = (2 * st.curr.x - pa.2.getD (pa.2.length - 4) 0,
              2 * st.curr.y - pa.2.getD (pa.2.length - 3) 0)) ∧
      ((st.prev = none ∨
        ∀ pa, prevAbsolutized st.prev = some pa →
          pa.1 ≠ 'C' ∧ pa.1 ≠ 'Q') →
        cp = (st.curr.x, st.curr.y)) := by
  classical
  have hcheck : check_cmd c args.length = Except.ok ((num_args c).getD 0) := by
    rcases hc with rfl | rfl | rfl | rfl <;>
      simp [check_cmd, num_args] at hlen ⊢ <;> simp [hlen]
  have hnotm : ¬(first ∧ c = 'm') := by
    rcases hc with rfl | rfl | rfl | rfl <;> simp
  refine ⟨reflectedControlPoint st.curr st.prev, ?_, ?_, ?_⟩
  · have hcb : expandShorthandCallback st.subpathStart st.curr c args st.prev =
        Except.ok [(shortToLong (absCmd st.curr c args).1,
          (reflectedControlPoint st.curr st.prev).1 ::
          (reflectedControlPoint st.curr st.prev).2 ::
          (absCmd st.curr c args).2)] := by
      unfold expandShorthandCallback
      have hst : c.toUpper = 'S' ∨ c.toUpper = 'T' := by
        rcases hc with rfl | rfl | rfl | rfl <;>
          first | (left; decide) | (right; decide)
      rw [if_neg (not_not_intro hst)]
      rcases hprev : st.prev with _ | ⟨ppos, pcmd, pargs0⟩
      · simp [reflectedControlPoint, prevAbsolutized, absCmd]
      · simp only [reflectedControlPoint, prevAbsolutized, hprev,
          Option.map_some]
        rfl
    unfold walkStep
    rw [hcheck]
    dsimp only [bind, Except.bind]
    rw [if_neg hnotm, hcb]
    dsimp only [pure, Except.pure, List.foldl]
  · intro pa hpa hCQ
    rw [reflectedControlPoint, hpa]
    simp [hCQ]
  · intro hnone
    rcases hnone with hnone | hnot
    · simp [reflectedControlPoint, prevAbsolutized, hnone]
    · rcases hpa : prevAbsolutized st.prev with _ | pa
      · simp [reflectedControlPoint, hpa]
      · have hne := hnot pa hpa
        rw [reflectedControlPoint, hpa]
        simp [hne.1, hne.2]

/-- Witness for C2 at the counterexample's walk state: current point
`(18, 18)`, previous emitted command `C20,14 16,16 18,18`, shorthand
`T30,10`; the theorem applies and its reflection case fires. -/
theorem expand_shorthand_control_point_witness :
    (('T' : Char) = 'S' ∨ ('T' : Char) = 'T' ∨ ('T' : Char) = 's' ∨
      ('T' : Char) = 't') ∧
    ([(30 : ℚ), 10].length = (num_args 'T').getD 0) ∧
    ∃ cp : ℚ × ℚ,
      walkStep expandShorthandCallback
          (⟨⟨18, 18⟩, ⟨16, 12⟩,
            some (⟨16, 12⟩, 'C', [20, 14, 16, 16, 18, 18]),
            [('C', [20, 14, 16, 16, 18, 18]), ('M', [16, 12])]⟩ : WalkState ℚ)
          false ('T', [30, 10]) = Except.ok
        (emitStep
          (⟨⟨18, 18⟩, ⟨16, 12⟩,
            some (⟨16, 12⟩, 'C', [20, 14, 16, 16, 18, 18]),
            [('C', [20, 14, 16, 16, 18, 18]), ('M', [16, 12])]⟩ : WalkState ℚ)
          (shortToLong (absCmd (⟨18, 18⟩ : Point ℚ) 'T' [30, 10]).1,
            cp.1 :: cp.2 :: (absCmd (⟨18, 18⟩ : Point ℚ) 'T' [30, 10]).2)) ∧
      (∀ pa,
        prevAbsolutized
            (some ((⟨16, 12⟩ : Point ℚ), 'C', [20, 14, 16, 16, 18, 18])) =
          some pa →
        (pa.1 = 'C' ∨ pa.1 = 'Q') →
        cp = (2 * 18 - pa.2.getD (pa.2.length - 4) 0,
              2 * 18 - pa.2.getD (pa.2.length - 3) 0)) := by
  refine ⟨by decide, by decide, ?_⟩
  obtain ⟨cp, h1, h2, h3⟩ := expand_shorthand_control_point
    (⟨⟨18, 18⟩, ⟨16, 12⟩, some (⟨16, 12⟩, 'C', [20, 14, 16, 16, 18, 18]),
      [('C', [20, 14, 16, 16, 18, 18]), ('M', [16, 12])]⟩ : WalkState ℚ)
    false 'T' [30, 10] (by decide) (by decide)
  exact ⟨cp, h1, h2⟩

/-! ## svg_path_iter.py: the path-data lexer and parser (claim C8)

The parser works on `List Char`.  Numbers parse to exact rationals: this is
the value semantics of Python floats with rounding abstracted away (every
accepted literal is `n / 10^k`). -/

/-- Python `str.strip()` whitespace. -/
def isPySpace (c : Char) : Bool :=
  c = ' ' ∨ c = '\t' ∨ c = '\n' ∨ c = '\r' ∨ c = Char.ofNat 11 ∨
    c = Char.ofNat 12

/-- `str.strip()`. -/
def pyStrip (l : List Char) : List Char :=
  ((l.dropWhile isPySpace).reverse.dropWhile isPySpace).reverse

/-- A separator character of `_SEPARATOR_RE = "[, ]+"`. -/
def isSepChar (c : Char) : Bool := c = ',' ∨ c = ' '

/-- `re.split("[, ]+", s)` with the empty strings filtered out (the
`if s` in `_parse_args`): the maximal separator-free runs. -/
def splitSeps : List Char → List (List Char)
  | [] => []
  | c :: rest =>
    if isSepChar c then splitSeps rest
    else
      (c :: rest.takeWhile (fun x => ! isSepChar x)) ::
        splitSeps (rest.dropWhile (fun x => ! isSepChar x))
termination_by l => l.length
decreasing_by
  · simp only [List.length_cons]
    omega
  · have := (@List.dropWhile_sublist _ rest (fun x => ! isSepChar x)).length_le
    simp only [List.length_cons]
    omega

/-- `_CMD_RE.split(svg_path)[1:]` paired up: text before the first command
letter is dropped, and each command letter is paired with the text up to the
next one. -/
def splitCmds : List Char → List (Char × List Char)
  | [] => []
  | c :: rest =>
    if isCmdChar c then
      (c, rest.takeWhile (fun x => ! isCmdChar x)) ::
        splitCmds (rest.dropWhile (fun x => ! isCmdChar x))
    else
      splitCmds rest
termination_by l => l.length
decreasing_by
  · have := (@List.dropWhile_sublist _ rest (fun x => ! isCmdChar x)).length_le
    simp only [List.length_cons]
    omega
  · simp only [List.length_cons]
    omega

/-- The numeric value of a big-endian digit string. -/
def natVal (l : List Char) : ℕ :=
  l.foldl (fun a c => 10 * a + (c.toNat - 48)) 0

/-- The `(?:0|[1-9][0-9]*)` alternative of `_FLOAT_RE` (ordered: a leading
`0` matches alone, so `0123` lexes as `0` then `123`). -/
def readIntPart : List Char → Option (ℕ × List Char)
  | [] => none
  | c :: r =>
    if c = '0' then some (0, r)
    else if c.isDigit then
      some (natVal (c :: r.takeWhile Char.isDigit), r.dropWhile Char.isDigit)
    else none

/-- The optional `(?:\.[0-9]+)?` of `_FLOAT_RE`: fraction value, number of
fraction digits, rest (the dot is not consumed when no digit follows). -/
def readFracPart : List Char → ℕ × ℕ × List Char
  | [] => (0, 0, [])
  | c :: r =>
    if c = '.' ∧ r.takeWhile Char.isDigit ≠ [] then
      (natVal (r.takeWhile Char.isDigit), (r.takeWhile Char.isDigit).length,
        r.dropWhile Char.isDigit)
    else (0, 0, c :: r)

/-- The `[-+]?[0-9]+` tail of the exponent group: `none` when there is no
digit after the optional sign. -/
def readSignedDigits : List Char → Option (ℤ × List Char)
  | [] => none
  | c :: r =>
    if c = '+' then
      if r.takeWhile Char.isDigit = [] then none
      else some ((natVal (r.takeWhile Char.isDigit) : ℤ),
        r.dropWhile Char.isDigit)
    else if c = '-' then
      if r.takeWhile Char.isDigit = [] then none
      else some (-(natVal (r.takeWhile Char.isDigit) : ℤ),
        r.dropWhile Char.isDigit)
    else
      if (c :: r).takeWhile Char.isDigit = [] then none
      else some ((natVal ((c :: r).takeWhile Char.isDigit) : ℤ),
        (c :: r).dropWhile Char.isDigit)

/-- The optional `(?:[eE][-+]?[0-9]+)?` of `_FLOAT_RE`: exponent and rest
(nothing is consumed when no digit follows the `e` and optional sign). -/
def readExpPart : List Char → ℤ × List Char
  | [] => (0, [])
  | c :: r =>
    if c = 'e' ∨ c = 'E' then
      match readSignedDigits r with
      | some (ev, rest) => (ev, rest)
      | none => (0, c :: r)
    else (0, c :: r)

/-- The optional `[-+]?` sign of `_FLOAT_RE`. -/
def signRead : List Char → ℚ × List Char
  | [] => (1, [])
  | c :: r =>
    if c = '+' then (1, r) else if c = '-' then (-1, r) else (1, c :: r)

/-- `_FLOAT_RE.match` followed by `float()` of the matched text: the parsed
value and the unconsumed rest, or `none` when the regex does not match at
the start of the token. -/
def floatRead (l : List Char) : Option (ℚ × List Char) :=
  match readIntPart (signRead l).2 with
  | some (iv, r1) =>
    match readFracPart r1 with
    | (fv, fl, r2) =>
      match readExpPart r2 with
      | (ev, r3) =>
        some ((signRead l).1 * ((iv : ℚ) + (fv : ℚ) / 10 ^ fl) * 10 ^ ev, r3)
  | none =>
    match (signRead l).2 with
    | c :: r =>
      if c = '.' ∧ r.takeWhile Char.isDigit ≠ [] then
        match readExpPart (r.dropWhile Char.isDigit) with
        | (ev, r3) =>
          some ((signRead l).1 * ((natVal (r.takeWhile Char.isDigit) : ℚ) /
            10 ^ (r.takeWhile Char.isDigit).length) * 10 ^ ev, r3)
      else none
    | [] => none

/-- `_BOOL_RE.match` (`^[01]`, one character) followed by `int()`. -/
def boolRead : List Char → Option (ℚ × List Char)
  | [] => none
  | c :: r =>
    if c = '0' then some (0, r) else if c = '1' then some (1, r) else none

/-- Whether argument position `i` of a command is an arc flag
(`_ARC_ARGUMENT_TYPES` positions 3 and 4, cycling modulo 7). -/
def isBoolPos (isArc : Bool) (i : ℕ) : Bool :=
  isArc ∧ (i % 7 = 3 ∨ i % 7 = 4)

/-- One argument read of `_parse_args`'s loop, by position type. -/
def readArg (isArc : Bool) (i : ℕ) (t : List Char) : Option (ℚ × List Char) :=
  if isBoolPos isArc i then boolRead t else floatRead t

theorem dropWhile_length_le (p : Char → Bool) (xs : List Char) :
    (xs.dropWhile p).length ≤ xs.length :=
  (List.dropWhile_sublist p).length_le

theorem readSignedDigits_le (xs : List Char) (v : ℤ) (r : List Char)
    (h : readSignedDigits xs = some (v, r)) : r.length ≤ xs.length := by
  match xs with
  | [] => simp [readSignedDigits] at h
  | c :: r0 =>
    simp only [readSignedDigits] at h
    have h1 := dropWhile_length_le Char.isDigit r0
    have h2 := dropWhile_length_le Char.isDigit (c :: r0)
    split_ifs at h <;> first
      | (cases h; simp only [List.length_cons]; omega)
      | (cases h; omega)

theorem readExpPart_le (xs : List Char) :
    (readExpPart xs).2.length ≤ xs.length := by
  match xs with
  | [] => simp [readExpPart]
  | c :: r =>
    simp only [readExpPart]
    by_cases hce : c = 'e' ∨ c = 'E'
    · rw [if_pos hce]
      rcases hsd : readSignedDigits r with _ | ⟨ev, rest⟩
      · simp
      · have := readSignedDigits_le r ev rest hsd
        simp only [List.length_cons]
        omega
    · rw [if_neg hce]

theorem readFracPart_le (xs : List Char) :
    (readFracPart xs).2.2.length ≤ xs.length := by
  match xs with
  | [] => simp [readFracPart]
  | c :: r =>
    simp only [readFracPart]
    have h1 := dropWhile_length_le Char.isDigit r
    split_ifs
    · simp only [List.length_cons]
      omega
    · simp

theorem readIntPart_lt (xs : List Char) (v : ℕ) (r : List Char)
    (h : readIntPart xs = some (v, r)) : r.length < xs.length := by
  match xs with
  | [] => simp [readIntPart] at h
  | c :: r0 =>
    simp only [readIntPart] at h
    have h1 := dropWhile_length_le Char.isDigit r0
    split_ifs at h <;> cases h <;> simp only [List.length_cons] <;> omega

theorem signRead_le (l : List Char) : (signRead l).2.length ≤ l.length := by
  match l with
  | [] => simp [signRead]
  | c :: r =>
    simp only [signRead]
    split_ifs <;> simp

theorem floatRead_consumes (l : List Char) (v : ℚ) (r : List Char)
    (h : floatRead l = some (v, r)) : r.length < l.length := by
  unfold floatRead at h
  have hs := signRead_le l
  rcases hip : readIntPart (signRead l).2 with _ | ⟨iv, r1⟩
  · simp only [hip] at h
    rcases hsl : (signRead l).2 with _ | ⟨c, r0⟩
    · simp only [hsl] at h
      cases h
    · simp only [hsl] at h
      rw [hsl] at hs
      split_ifs at h with hcond
      · rcases hre : readExpPart (r0.dropWhile Char.isDigit) with ⟨ev, r3⟩
        simp only [hre] at h
        injection h with h
        injection h with h1 h2
        subst h2
        have h1 := readExpPart_le (r0.dropWhile Char.isDigit)
        rw [hre] at h1
        have h2 := dropWhile_length_le Char.isDigit r0
        simp only [List.length_cons] at hs
        simp at h1
        omega
  · simp only [hip] at h
    rcases hfp : readFracPart r1 with ⟨fv, fl, r2⟩
    simp only [hfp] at h
    rcases hre : readExpPart r2 with ⟨ev, r3⟩
    simp only [hre] at h
    injection h with h
    injection h with h1 h2
    subst h2
    have h1 := readIntPart_lt _ _ _ hip
    have h2 := readFracPart_le r1
    rw [hfp] at h2
    have h3 := readExpPart_le r2
    rw [hre] at h3
    simp at h2 h3
    omega

theorem boolRead_consumes (l : List Char) (v : ℚ) (r : List Char)
    (h : boolRead l = some (v, r)) : r.length < l.length := by
  match l with
  | [] => simp [boolRead] at h
  | c :: r0 =>
    simp only [boolRead] at h
    split_ifs at h <;> cases h <;> simp

theorem readArg_consumes (isArc : Bool) (i : ℕ) (t : List Char) (v : ℚ)
    (r : List Char) (h : readArg isArc i t = some (v, r)) :
    r.length < t.length := by
  unfold readArg at h
  split_ifs at h
  · exact boolRead_consumes t v r h
  · exact floatRead_consumes t v r h

/-- The loop of `_parse_args`: walk the tokens, reading one number per step
with the type selected by the running argument index (`i % n`); a residue
left in the current token is processed next (`raw_args[j] = arg[end:]`), a
failed match raises `ValueError`. -/
def parseArgsGo (isArc : Bool) (i : ℕ) (toks : List (List Char))
    (acc : List ℚ) : Except String (List ℚ) :=
  match toks with
  | [] => Except.ok acc.reverse
  | t :: rest =>
    match hr : readArg isArc i t with
    | none => Except.error "ValueError: invalid argument"
    | some (v, residue) =>
      if residue = [] then parseArgsGo isArc (i + 1) rest (v :: acc)
      else parseArgsGo isArc (i + 1) (residue :: rest) (v :: acc)
termination_by (toks.map List.length).sum + toks.length
decreasing_by
  · have := readArg_consumes isArc i t v residue hr
    simp only [List.map_cons, List.sum_cons, List.length_cons]
    omega
  · have := readArg_consumes isArc i t v residue hr
    simp only [List.map_cons, List.sum_cons, List.length_cons]
    omega

/-- `svg_path_iter._parse_args(cmd, args)` applied to the pre-split
separator-free tokens. -/
def parseArgs (c : Char) (raw : List (List Char)) : Except String (List ℚ) :=
  parseArgsGo (c = 'a' ∨ c = 'A') 0 raw []

/-- The per-command-group body of `parse_svg_path`'s loop: parse the
argument text, check the count, and emit the (possibly exploded)
commands. -/
def parseGroup (exploded : Bool) (p : Char × List Char) :
    Except String (List (SvgCmd ℚ)) := do
  let args ← parseArgs p.1 (splitSeps (pyStrip p.2))
  let n ← check_cmd p.1 args.length
  if n = 0 ∨ exploded = false then pure [(p.1, args)]
  else pure (explodeOneCmd n p.1 args)

/-- `svg_path_iter.parse_svg_path(svg_path, exploded)`. -/
def parse_svg_path (d : List Char) (exploded : Bool) :
    Except String (List (SvgCmd ℚ)) := do
  let groups ← (splitCmds d).mapM (parseGroup exploded)
  pure groups.flatten

/-! ## svg_meta.py: ntos and path_segment (the canonical serializer) -/

/-- One decimal digit as a character. -/
def digitChar (d : ℕ) : Char :=
  match d with
  | 0 => '0' | 1 => '1' | 2 => '2' | 3 => '3' | 4 => '4'
  | 5 => '5' | 6 => '6' | 7 => '7' | 8 => '8' | 9 => '9'
  | _ => '*'

/-- The big-endian decimal digit string of a natural number (Python
`str(n)` for `n >= 0`). -/
def natToDigits (n : ℕ) : List Char :=
  if n = 0 then ['0'] else ((Nat.digits 10 n).map digitChar).reverse

/-- Python `str(int(i))`. -/
def intChars (i : ℤ) : List Char :=
  if i < 0 then '-' :: natToDigits i.natAbs else natToDigits i.natAbs

/-- The smallest decimal exponent `k` with `q * 10^k` integral, when one
exists within `q.den` steps (it always does for the values Python floats
hold, which are all `n / 2^j`, hence `n' / 10^j`). -/
def decExp (q : ℚ) : Option ℕ :=
  (List.range (q.den + 1)).find? (fun k => (q * 10 ^ k).den = 1)

/-- `svg_meta.ntos(n)` under the exact-value model of floats: an integral
value prints as `str(int(n))` (stripping the superfluous `.0`), anything
else as its exact decimal expansion — the value-faithful counterpart of
Python's shortest-round-trip `str(float)`.  A value with no decimal
expansion cannot come out of the path parser; that branch prints `0`. -/
def ntos (q : ℚ) : List Char :=
  if q.den = 1 then intChars q.num
  else
    match decExp q with
    | some k =>
      let m := (q * 10 ^ k).num
      let s := natToDigits m.natAbs
      let s2 := if s.length ≤ k then List.replicate (k + 1 - s.length) '0' ++ s
        else s
      (if m < 0 then ['-'] else []) ++
        s2.take (s2.length - k) ++ '.' :: s2.drop (s2.length - k)
    | none => ['0']

/-- `set(zip(*_CMD_COORDS[cmd]))`: the (x, y) coordinate index pairs. -/
def xyPairs (c : Char) : List (ℕ × ℕ) :=
  (cmd_coords c).1.zip (cmd_coords c).2

/-- The inner token builder of `svg_meta.path_segment`: walk one argument
group, joining an `(i, i+1)` coordinate pair with a comma, everything else
standing alone.  (The `[a]` fallback models the out-of-range slot Python
would raise on; the command tables never produce it.) -/
def combineArgs (xy : List (ℕ × ℕ)) : ℕ → List (List Char) → List (List Char)
  | _, [] => []
  | i, a :: rest =>
    if (i, i + 1) ∈ xy then
      match rest with
      | b :: rest2 => (a ++ ',' :: b) :: combineArgs xy (i + 2) rest2
      | [] => [a]
    else a :: combineArgs xy (i + 1) rest

/-- `" ".join(tokens)`. -/
def joinSp : List (List Char) → List Char
  | [] => []
  | [t] => t
  | t :: ts => t ++ ' ' :: joinSp ts

/-- `svg_meta.path_segment(cmd, *args)`: the command letter immediately
followed by the space-joined tokens, commas inside coordinate pairs. -/
def path_segment (c : Char) (args : List ℚ) : Except String (List Char) := do
  let n ← check_cmd c args.length
  let argStrs := args.map ntos
  let combined :=
    if n = 0 then []
    else (List.range (args.length / n)).flatMap fun g =>
      combineArgs (xyPairs c) 0 ((argStrs.drop (g * n)).take n)
  pure (c :: joinSp combined)

/-- The canonical serialization of a command list: `path_segment` per
command, segments joined with single spaces (`SVGPath._add_cmd`). -/
def serializePath (cmds : List (SvgCmd ℚ)) : Except String (List Char) := do
  let segs ← cmds.mapM fun cmd => path_segment cmd.1 cmd.2
  pure (joinSp segs)

/-! ### Digit strings -/

/-- A value the exact-float model can hold: an integer over a power of ten
(every IEEE float is one, `n / 2^j = n * 5^j / 10^j`). -/
def IsDecimal (q : ℚ) : Prop := ∃ (n : ℤ) (k : ℕ), q = (n : ℚ) / 10 ^ k

theorem digitChar_isDigit (d : ℕ) (hd : d < 10) : (digitChar d).isDigit := by
  interval_cases d <;> decide

theorem digitChar_toNat (d : ℕ) (hd : d < 10) :
    (digitChar d).toNat - 48 = d := by
  interval_cases d <;> decide

theorem natVal_append (a b : List Char) :
    natVal (a ++ b) = natVal a * 10 ^ b.length + natVal b := by
  induction b using List.reverseRecOn with
  | nil => simp [natVal]
  | append_singleton b c ih =>
    have h1 : natVal ((a ++ b) ++ [c]) = 10 * natVal (a ++ b) +
        (c.toNat - 48) := by
      simp [natVal, List.foldl_append]
    have h2 : natVal (b ++ [c]) = 10 * natVal b + (c.toNat - 48) := by
      simp [natVal, List.foldl_append]
    rw [← List.append_assoc, h1, h2, ih]
    simp [List.length_append, pow_succ]
    ring

theorem natVal_natToDigits (n : ℕ) : natVal (natToDigits n) = n := by
  by_cases h0 : n = 0
  · subst h0
    decide
  · have hd : ∀ dl : List ℕ, (∀ d ∈ dl, d < 10) →
        natVal ((dl.map digitChar).reverse) = Nat.ofDigits 10 dl := by
      intro dl
      induction dl with
      | nil => intro _; simp [natVal, Nat.ofDigits]
      | cons d dl ih =>
        intro hall
        have hd := hall d (by simp)
        have hrest : ∀ x ∈ dl, x < 10 := fun x hx => hall x (by simp [hx])
        simp only [List.map_cons, List.reverse_cons]
        rw [natVal_append, ih hrest, Nat.ofDigits_cons]
        simp [natVal, digitChar_toNat d hd]
        ring
    unfold natToDigits
    rw [if_neg h0, hd _ (fun d hdm => Nat.digits_lt_base (by norm_num) hdm)]
    exact Nat.ofDigits_digits 10 n

theorem natToDigits_ne_nil (n : ℕ) : natToDigits n ≠ [] := by
  unfold natToDigits
  split_ifs with h
  · simp
  · simp [Nat.digits_ne_nil_iff_ne_zero.mpr h]

theorem natToDigits_isDigit (n : ℕ) : ∀ c ∈ natToDigits n, c.isDigit := by
  unfold natToDigits
  split_ifs with h
  · intro c hc
    simp at hc
    subst hc
    decide
  · intro c hc
    simp only [List.mem_reverse, List.mem_map] at hc
    obtain ⟨d, hdm, rfl⟩ := hc
    exact digitChar_isDigit d (Nat.digits_lt_base (by norm_num) hdm)

theorem natToDigits_head_ne_zero (n : ℕ) (hn : n ≠ 0) (c : Char)
    (rest : List Char) (h : natToDigits n = c :: rest) : c ≠ '0' := by
  unfold natToDigits at h
  rw [if_neg hn] at h
  have hne : Nat.digits 10 n ≠ [] := Nat.digits_ne_nil_iff_ne_zero.mpr hn
  have hlast := Nat.getLast_digit_ne_zero 10 hn
  intro hc
  subst hc
  have hhead : ((Nat.digits 10 n).map digitChar).reverse.head? = some '0' := by
    rw [h]; rfl
  rw [List.head?_reverse] at hhead
  have hlast2 : ((Nat.digits 10 n).map digitChar).getLast? =
      some (digitChar ((Nat.digits 10 n).getLast hne)) := by
    rw [List.getLast?_eq_getLast _ (by simpa using hne)]
    rw [List.getLast_map]
  rw [hlast2] at hhead
  injection hhead with hhead
  have hlt : (Nat.digits 10 n).getLast hne < 10 :=
    Nat.digits_lt_base (by norm_num) (List.getLast_mem hne)
  set d := (Nat.digits 10 n).getLast hne with hdd
  interval_cases d <;> simp_all [digitChar]

/-! ### Character classes of serialized text -/

/-- The characters a serialized number consists of. -/
def isAtomChar (c : Char) : Bool := c.isDigit ∨ c = '-' ∨ c = '.'

set_option maxHeartbeats 1600000 in
theorem isCmdChar_mem (c : Char) (h : isCmdChar c = true) :
    c ∈ ['m', 'M', 'z', 'Z', 'l', 'L', 'h', 'H', 'v', 'V', 'c', 'C', 's',
      'S', 'q', 'Q', 't', 'T', 'a', 'A'] := by
  simp only [isCmdChar, num_args] at h
  split_ifs at h with h1 h2 h3 h4 h5 h6 h7 h8 h9 h10
  · rcases h1 with rfl | rfl <;> decide
  · rcases h2 with rfl | rfl <;> decide
  · rcases h3 with rfl | rfl <;> decide
  · rcases h4 with rfl | rfl <;> decide
  · rcases h5 with rfl | rfl <;> decide
  · rcases h6 with rfl | rfl <;> decide
  · rcases h7 with rfl | rfl <;> decide
  · rcases h8 with rfl | rfl <;> decide
  · rcases h9 with rfl | rfl <;> decide
  · rcases h10 with rfl | rfl <;> decide
  · simp at h

theorem atom_not_cmd (c : Char) (h : isAtomChar c = true) :
    isCmdChar c = false := by
  by_contra hc
  have hm := isCmdChar_mem c (by revert hc; cases isCmdChar c <;> simp)
  fin_cases hm <;> simp_all [isAtomChar]

theorem sep_cases (c : Char) (h : isSepChar c = true) : c = ',' ∨ c = ' ' := by
  simpa [isSepChar] using h

theorem sep_not_cmd (c : Char) (h : isSepChar c = true) :
    isCmdChar c = false := by
  rcases sep_cases c h with rfl | rfl <;> decide

theorem atom_not_sep (c : Char) (h : isAtomChar c = true) :
    isSepChar c = false := by
  by_contra hc
  have : isSepChar c = true := by revert hc; cases isSepChar c <;> simp
  rcases sep_cases c this with rfl | rfl <;> simp_all [isAtomChar]

theorem pySpace_cases (c : Char) (h : isPySpace c = true) :
    c = ' ' ∨ c = '\t' ∨ c = '\n' ∨ c = '\r' ∨ c = Char.ofNat 11 ∨
      c = Char.ofNat 12 := by
  simpa [isPySpace] using h

theorem atom_not_pySpace (c : Char) (h : isAtomChar c = true) :
    isPySpace c = false := by
  by_contra hc
  have : isPySpace c = true := by revert hc; cases isPySpace c <;> simp
  rcases pySpace_cases c this with rfl | rfl | rfl | rfl | rfl | rfl <;>
    simp_all [isAtomChar]

/-! ### takeWhile / dropWhile over concatenations -/

theorem takeWhile_append_head {α : Type} (p : α → Bool) (A B : List α)
    (hB : B = [] ∨ ∃ b B', B = b :: B' ∧ p b = false) :
    (A ++ B).takeWhile p = A.takeWhile p ∧
      (A ++ B).dropWhile p = A.dropWhile p ++ B := by
  induction A with
  | nil =>
    rcases hB with rfl | ⟨b, B', rfl, hb⟩
    · simp
    · simp [List.takeWhile_cons, List.dropWhile_cons, hb]
  | cons a A ih =>
    by_cases ha : p a
    · simp [List.takeWhile_cons, List.dropWhile_cons, ha, ih.1, ih.2]
    · simp [List.takeWhile_cons, List.dropWhile_cons, ha]

theorem takeWhile_all_true {α : Type} (p : α → Bool) (A : List α)
    (h : ∀ a ∈ A, p a = true) : A.takeWhile p = A ∧ A.dropWhile p = [] := by
  induction A with
  | nil => simp
  | cons a A ih =>
    have ha := h a (by simp)
    have hr := ih fun x hx => h x (by simp [hx])
    simp [List.takeWhile_cons, List.dropWhile_cons, ha, hr.1, hr.2]

/-! ### splitSeps structure -/

/-- The suffixes that `splitSeps` treats transparently after a token:
nothing, or separator-first text. -/
def SepSuffix (Z : List Char) : Prop :=
  Z = [] ∨ ∃ z Z', Z = z :: Z' ∧ isSepChar z = true

theorem splitSeps_nil : splitSeps [] = [] := by simp [splitSeps]

theorem splitSeps_cons_sep (s : Char) (hs : isSepChar s = true)
    (ys : List Char) : splitSeps (s :: ys) = splitSeps ys := by
  simp only [splitSeps]
  rw [if_pos hs]

theorem splitSeps_all_seps (S : List Char)
    (h : ∀ c ∈ S, isSepChar c = true) : splitSeps S = [] := by
  induction S with
  | nil => exact splitSeps_nil
  | cons c S ih =>
    rw [splitSeps_cons_sep c (h c (by simp)) S]
    exact ih fun x hx => h x (by simp [hx])

theorem splitSeps_atom_append (a : List Char) (ha : a ≠ [])
    (hall : ∀ c ∈ a, isSepChar c = false) (Z : List Char) (hZ : SepSuffix Z) :
    splitSeps (a ++ Z) = a :: splitSeps Z := by
  match a, ha with
  | c :: a', _ =>
    have hc : isSepChar c = false := hall c (by simp)
    have hB : Z = [] ∨ ∃ b B', Z = b :: B' ∧
        (fun x => ! isSepChar x) b = false := by
      rcases hZ with rfl | ⟨z, Z', rfl, hz⟩
      · exact Or.inl rfl
      · exact Or.inr ⟨z, Z', rfl, by simp [hz]⟩
    have hta := takeWhile_all_true (fun x => ! isSepChar x) a'
      (fun x hx => by simp [hall x (by simp [hx])])
    have ht := takeWhile_append_head (fun x => ! isSepChar x) a' Z hB
    simp only [List.cons_append, splitSeps]
    rw [if_neg (by simp [hc]), ht.1, ht.2, hta.1, hta.2]
    simp only [List.nil_append]

theorem splitSeps_atom (a : List Char) (ha : a ≠ [])
    (hall : ∀ c ∈ a, isSepChar c = false) : splitSeps a = [a] := by
  have := splitSeps_atom_append a ha hall [] (Or.inl rfl)
  simpa [splitSeps_nil] using this

/-! ### splitCmds structure -/

theorem splitCmds_nil : splitCmds [] = [] := by simp [splitCmds]

theorem splitCmds_cons (c : Char) (hc : isCmdChar c = true)
    (body rest : List Char) (hbody : ∀ x ∈ body, isCmdChar x = false)
    (hrest : rest = [] ∨ ∃ c2 r2, rest = c2 :: r2 ∧ isCmdChar c2 = true) :
    splitCmds (c :: (body ++ rest)) = (c, body) :: splitCmds rest := by
  have hB : rest = [] ∨ ∃ b B', rest = b :: B' ∧
      (fun x => ! isCmdChar x) b = false := by
    rcases hrest with rfl | ⟨c2, r2, rfl, h2⟩
    · exact Or.inl rfl
    · exact Or.inr ⟨c2, r2, rfl, by simp [h2]⟩
  have hta := takeWhile_all_true (fun x => ! isCmdChar x) body
    (fun x hx => by simp [hbody x hx])
  have ht := takeWhile_append_head (fun x => ! isCmdChar x) body rest hB
  simp only [splitCmds]
  rw [if_pos hc, ht.1, ht.2, hta.1, hta.2]
  simp

/-! ### joinSp structure -/

theorem joinSp_cons (t : List Char) (ts : List (List Char)) (h : ts ≠ []) :
    joinSp (t :: ts) = t ++ ' ' :: joinSp ts := by
  match ts, h with
  | t2 :: ts', _ => rfl

theorem joinSp_append (A B : List (List Char)) (hA : A ≠ []) (hB : B ≠ []) :
    joinSp (A ++ B) = joinSp A ++ ' ' :: joinSp B := by
  induction A with
  | nil => exact absurd rfl hA
  | cons t A ih =>
    by_cases hA' : A = []
    · subst hA'
      rw [List.singleton_append, joinSp_cons t B hB]
      rfl
    · rw [List.cons_append, joinSp_cons t (A ++ B) (by simp [hA']),
        joinSp_cons t A hA', ih hA']
      simp

theorem joinSp_chars (P : Char → Prop) (ts : List (List Char))
    (h : ∀ t ∈ ts, ∀ c ∈ t, P c) (hsp : P ' ') :
    ∀ c ∈ joinSp ts, P c := by
  induction ts with
  | nil => simp [joinSp]
  | cons t ts ih =>
    by_cases hts : ts = []
    · subst hts
      simpa [joinSp] using h t (by simp)
    · rw [joinSp_cons t ts hts]
      intro c hc
      rcases List.mem_append.mp hc with hc | hc
      · exact h t (by simp) c hc
      · rcases List.mem_cons.mp hc with rfl | hc
        · exact hsp
        · exact ih (fun t' ht' => h t' (by simp [ht'])) c hc

/-! ### combineArgs over atoms -/

theorem combineArgs_cons_notmem (xy : List (ℕ × ℕ)) (i : ℕ) (a : List Char)
    (rest : List (List Char)) (hmem : (i, i + 1) ∉ xy) :
    combineArgs xy i (a :: rest) = a :: combineArgs xy (i + 1) rest := by
  rw [combineArgs.eq_def]
  simp only []
  rw [if_neg hmem]

theorem combineArgs_ne_nil (xy : List (ℕ × ℕ)) (i : ℕ)
    (strs : List (List Char)) (h : strs ≠ []) :
    combineArgs xy i strs ≠ [] := by
  match strs, h with
  | a :: rest, _ =>
    by_cases hmem : (i, i + 1) ∈ xy
    · match rest with
      | [] => simp [combineArgs, hmem]
      | b :: rest2 => simp [combineArgs, hmem]
    · rw [combineArgs_cons_notmem xy i a rest hmem]
      simp

theorem combineArgs_splitSeps (xy : List (ℕ × ℕ)) (i : ℕ)
    (strs : List (List Char)) :
    ∀ Z : List Char,
      (∀ s ∈ strs, s ≠ [] ∧ ∀ c ∈ s, isAtomChar c = true) → SepSuffix Z →
      splitSeps (joinSp (combineArgs xy i strs) ++ Z) =
        strs ++ splitSeps Z := by
  induction i, strs using combineArgs.induct xy with
  | case1 i =>
    intro Z h hZ
    simp [combineArgs, joinSp]
  | case2 i a hmem b rest2 ih =>
    intro Z h hZ
    have ha := h a (by simp)
    have hb := h b (by simp)
    have hsepa : ∀ c ∈ a, isSepChar c = false :=
      fun c hc => atom_not_sep c (ha.2 c hc)
    have hsepb : ∀ c ∈ b, isSepChar c = false :=
      fun c hc => atom_not_sep c (hb.2 c hc)
    simp only [combineArgs, if_pos hmem]
    by_cases hrest : rest2 = []
    · subst hrest
      simp only [combineArgs, joinSp]
      rw [List.append_assoc, List.cons_append,
        splitSeps_atom_append a ha.1 hsepa _
          (Or.inr ⟨',', b ++ Z, rfl, by decide⟩),
        splitSeps_cons_sep ',' (by decide),
        splitSeps_atom_append b hb.1 hsepb Z hZ]
      rfl
    · have hT : combineArgs xy (i + 2) rest2 ≠ [] :=
        combineArgs_ne_nil xy (i + 2) rest2 hrest
      rw [joinSp_cons _ _ hT, List.append_assoc, List.append_assoc,
        List.cons_append, List.cons_append,
        splitSeps_atom_append a ha.1 hsepa _
          (Or.inr ⟨',', _, rfl, by decide⟩),
        splitSeps_cons_sep ',' (by decide),
        splitSeps_atom_append b hb.1 hsepb _
          (Or.inr ⟨' ', _, rfl, by decide⟩),
        splitSeps_cons_sep ' ' (by decide),
        ih _ (fun s hs => h s (by simp [hs])) hZ]
      rfl
  | case3 i a hmem =>
    intro Z h hZ
    have ha := h a (by simp)
    have hsepa : ∀ c ∈ a, isSepChar c = false :=
      fun c hc => atom_not_sep c (ha.2 c hc)
    simp only [combineArgs, if_pos hmem, joinSp]
    rw [splitSeps_atom_append a ha.1 hsepa Z hZ]
    rfl
  | case4 i a rest hmem ih =>
    intro Z h hZ
    have ha := h a (by simp)
    have hsepa : ∀ c ∈ a, isSepChar c = false :=
      fun c hc => atom_not_sep c (ha.2 c hc)
    rw [combineArgs_cons_notmem xy i a rest hmem]
    by_cases hrest : rest = []
    · subst hrest
      simp only [combineArgs, joinSp]
      rw [splitSeps_atom_append a ha.1 hsepa Z hZ]
      rfl
    · have hT : combineArgs xy (i + 1) rest ≠ [] :=
        combineArgs_ne_nil xy (i + 1) rest hrest
      rw [joinSp_cons _ _ hT, List.append_assoc, List.cons_append,
        splitSeps_atom_append a ha.1 hsepa _
          (Or.inr ⟨' ', _, rfl, by decide⟩),
        splitSeps_cons_sep ' ' (by decide),
        ih Z (fun s hs => h s (by simp [hs])) hZ]
      rfl

theorem combineArgs_token_chars (xy : List (ℕ × ℕ)) (i : ℕ)
    (strs : List (List Char))
    (h : ∀ s ∈ strs, ∀ c ∈ s, isAtomChar c = true) :
    ∀ t ∈ combineArgs xy i strs, ∀ c ∈ t,
      isAtomChar c = true ∨ isSepChar c = true := by
  induction i, strs using combineArgs.induct xy with
  | case1 i => simp [combineArgs]
  | case2 i a hmem b rest2 ih =>
    simp only [combineArgs, if_pos hmem]
    intro t ht c hc
    rcases List.mem_cons.mp ht with rfl | ht
    · rcases List.mem_append.mp hc with hc | hc
      · exact Or.inl (h a (by simp) c hc)
      · rcases List.mem_cons.mp hc with rfl | hc
        · exact Or.inr (by decide)
        · exact Or.inl (h b (by simp) c hc)
    · exact ih (fun s hs => h s (by simp [hs])) t ht c hc
  | case3 i a hmem =>
    simp only [combineArgs, if_pos hmem]
    intro t ht c hc
    rcases List.mem_singleton.mp ht with rfl
    exact Or.inl (h t (by simp) c hc)
  | case4 i a rest hmem ih =>
    rw [combineArgs_cons_notmem xy i a rest hmem]
    intro t ht c hc
    rcases List.mem_cons.mp ht with rfl | ht
    · exact Or.inl (h t (by simp) c hc)
    · exact ih (fun s hs => h s (by simp [hs])) t ht c hc

/-! ### Recovering a list from its argument-group slices -/

theorem chunks_flatten_aux {α : Type} (n : ℕ) :
    ∀ (k : ℕ) (L : List α), L.length = n * k →
      (List.range k).flatMap (fun g => (L.drop (g * n)).take n) = L := by
  intro k
  induction k with
  | zero =>
    intro L hL
    have : L = [] := List.length_eq_zero.mp (by simpa using hL)
    subst this
    simp
  | succ k ihk =>
    intro L hL
    have hlen2 : (L.drop n).length = n * k := by
      simp only [List.length_drop, hL]
      rw [Nat.mul_succ]
      omega
    have hrec := ihk (L.drop n) hlen2
    rw [List.range_succ_eq_map, List.flatMap_cons]
    have hfun : ∀ g,
        (L.drop (Nat.succ g * n)).take n =
          ((L.drop n).drop (g * n)).take n := by
      intro g
      rw [List.drop_drop]
      congr 2
      rw [Nat.succ_mul]
      omega
    have hmapped :
        (List.map Nat.succ (List.range k)).flatMap
            (fun g => (L.drop (g * n)).take n) =
          (List.range k).flatMap
            (fun g => ((L.drop n).drop (g * n)).take n) := by
      rw [List.flatMap_map]
      exact List.flatMap_congr fun g _ => hfun g
    rw [hmapped, hrec]
    simp [List.take_append_drop]

theorem chunks_flatten {α : Type} (n : ℕ) (hn : 0 < n) (L : List α)
    (hmod : L.length % n = 0) :
    (List.range (L.length / n)).flatMap (fun g => (L.drop (g * n)).take n) =
      L :=
  chunks_flatten_aux n (L.length / n) L
    (Nat.mul_div_cancel' (Nat.dvd_of_mod_eq_zero hmod)).symm

/-! ### pyStrip is transparent to splitSeps on separator/atom text -/

theorem splitSeps_dropWhile_pySpace (W : List Char)
    (h : ∀ c ∈ W, isAtomChar c = true ∨ isSepChar c = true) :
    splitSeps (W.dropWhile isPySpace) = splitSeps W := by
  induction W with
  | nil => simp
  | cons c W ih =>
    by_cases hc : isPySpace c = true
    · have hsep : isSepChar c = true := by
        rcases h c (by simp) with hat | hs
        · exact absurd hc (by simp [atom_not_pySpace c hat])
        · exact hs
      rw [List.dropWhile_cons, if_pos hc, splitSeps_cons_sep c hsep]
      exact ih fun x hx => h x (by simp [hx])
    · rw [List.dropWhile_cons, if_neg hc]

theorem splitSeps_append_seps (S : List Char)
    (hS : ∀ c ∈ S, isSepChar c = true) (U : List Char) :
    splitSeps (U ++ S) = splitSeps U := by
  suffices H : ∀ (len : ℕ) (U : List Char), U.length = len →
      splitSeps (U ++ S) = splitSeps U from H U.length U rfl
  intro len
  induction len using Nat.strong_induction_on with
  | _ len ih =>
    intro U hU
    subst hU
    match U with
    | [] =>
      rw [List.nil_append, splitSeps_nil]
      exact splitSeps_all_seps S hS
    | c :: U' =>
      by_cases hc : isSepChar c = true
      · rw [List.cons_append, splitSeps_cons_sep c hc,
          splitSeps_cons_sep c hc]
        exact ih U'.length (by simp) U' rfl
      · by_cases hSnil : S = []
        · subst hSnil
          rw [List.append_nil]
        · have hB : S = [] ∨ ∃ b B', S = b :: B' ∧
              (fun x => ! isSepChar x) b = false := by
            match S, hSnil with
            | s :: S', _ => exact Or.inr ⟨s, S', rfl, by simp [hS s (by simp)]⟩
          have ht := takeWhile_append_head (fun x => ! isSepChar x) U' S hB
          rw [List.cons_append]
          simp only [splitSeps]
          rw [if_neg hc, if_neg hc, ht.1, ht.2]
          congr 1
          exact ih (U'.dropWhile (fun x => ! isSepChar x)).length
            (by have := dropWhile_length_le (fun x => ! isSepChar x) U'; simp; omega)
            _ rfl

theorem splitSeps_pyStrip (W : List Char)
    (h : ∀ c ∈ W, isAtomChar c = true ∨ isSepChar c = true) :
    splitSeps (pyStrip W) = splitSeps W := by
  unfold pyStrip
  have hsub : ∀ c ∈ W.dropWhile isPySpace,
      isAtomChar c = true ∨ isSepChar c = true := by
    intro c hc
    exact h c ((List.dropWhile_sublist isPySpace).subset hc)
  set W1 := W.dropWhile isPySpace with hW1
  set R := W1.reverse with hR
  have hsplit : R.takeWhile isPySpace ++ R.dropWhile isPySpace = R :=
    List.takeWhile_append_dropWhile isPySpace R
  have hW1eq : W1 = (R.dropWhile isPySpace).reverse ++
      (R.takeWhile isPySpace).reverse := by
    have h1 : W1 = R.reverse := by rw [hR, List.reverse_reverse]
    have h2 := congrArg List.reverse hsplit.symm
    rw [List.reverse_append] at h2
    exact h1.trans h2
  have htakesep : ∀ c ∈ (R.takeWhile isPySpace).reverse,
      isSepChar c = true := by
    intro c hc
    rw [List.mem_reverse] at hc
    have hsp : isPySpace c = true := List.mem_takeWhile_imp hc
    have hmem : c ∈ W1 := by
      have : c ∈ R := (List.takeWhile_sublist isPySpace).subset hc
      rwa [hR, List.mem_reverse] at this
    rcases hsub c hmem with hat | hs
    · exact absurd hsp (by simp [atom_not_pySpace c hat])
    · exact hs
  calc splitSeps (R.dropWhile isPySpace).reverse
      = splitSeps ((R.dropWhile isPySpace).reverse ++
          (R.takeWhile isPySpace).reverse) :=
        (splitSeps_append_seps _ htakesep _).symm
    _ = splitSeps W1 := by rw [← hW1eq]
    _ = splitSeps W := splitSeps_dropWhile_pySpace W h

/-! ### The decimal exponent search of ntos always succeeds on decimals -/

theorem dvd_ten_pow_self (j : ℕ) : ∀ d : ℕ, d ∣ 10 ^ j → d ∣ 10 ^ d := by
  intro d
  induction d using Nat.strong_induction_on with
  | _ d ih =>
    intro h
    rcases Nat.lt_or_ge d 2 with hd2 | hd2
    · interval_cases d
      · exact absurd (Nat.eq_zero_of_zero_dvd h) (pow_ne_zero j (by norm_num))
      · simp
    · have hp : (d.minFac).Prime := Nat.minFac_prime (by omega)
      have hpd : d.minFac ∣ d := Nat.minFac_dvd d
      have hp10 : d.minFac ∣ 10 := hp.dvd_of_dvd_pow (hpd.trans h)
      have hmul : d.minFac * (d / d.minFac) = d := Nat.mul_div_cancel' hpd
      have hd2dvd : d / d.minFac ∣ d :=
        ⟨d.minFac, (Nat.div_mul_cancel hpd).symm⟩
      have hd2lt : d / d.minFac < d := Nat.div_lt_self (by omega) hp.two_le
      have hd2pow : d / d.minFac ∣ 10 ^ (d / d.minFac) :=
        ih (d / d.minFac) hd2lt (hd2dvd.trans h)
      have hprod : d.minFac * (d / d.minFac) ∣ 10 * 10 ^ (d / d.minFac) :=
        mul_dvd_mul hp10 hd2pow
      rw [hmul] at hprod
      refine hprod.trans ?_
      rw [← pow_succ']
      exact pow_dvd_pow 10 (by omega)

theorem den_mul_pow_eq_one (q : ℚ) (k : ℕ) (h : q.den ∣ 10 ^ k) :
    (q * 10 ^ k).den = 1 := by
  obtain ⟨c, hc⟩ := h
  have hval : q * 10 ^ k = ((q.num * c : ℤ) : ℚ) := by
    have h10 : (10 : ℚ) ^ k = (q.den : ℚ) * (c : ℚ) := by
      have := congrArg (fun x : ℕ => (x : ℚ)) hc
      push_cast at this
      simpa using this
    rw [h10]
    have hq := Rat.mul_den_eq_num q
    push_cast
    calc q * ((q.den : ℚ) * (c : ℚ)) = q * (q.den : ℚ) * (c : ℚ) := by ring
      _ = (q.num : ℚ) * (c : ℚ) := by rw [hq]
  rw [hval, Rat.den_intCast]

theorem den_dvd_of_isDecimal (q : ℚ) (h : IsDecimal q) :
    ∃ j : ℕ, q.den ∣ 10 ^ j := by
  obtain ⟨n, j, hq⟩ := h
  refine ⟨j, ?_⟩
  have hdvd : ((q.den : ℤ)) ∣ (10 : ℤ) ^ j := by
    have h2 : q = Rat.divInt n ((10 : ℤ) ^ j) := by
      rw [Rat.divInt_eq_div, hq]; push_cast; ring
    have := Rat.den_dvd n ((10 : ℤ) ^ j)
    rw [← h2] at this
    exact this
  have h3 : ((q.den : ℤ)) ∣ ((10 ^ j : ℕ) : ℤ) := by
    push_cast
    exact hdvd
  exact_mod_cast h3

theorem decExp_spec (q : ℚ) (h : IsDecimal q) :
    ∃ k, decExp q = some k ∧ (q * 10 ^ k).den = 1 := by
  obtain ⟨j, hj⟩ := den_dvd_of_isDecimal q h
  have hdvd : q.den ∣ 10 ^ q.den := dvd_ten_pow_self j q.den hj
  have hsat : (q * 10 ^ q.den).den = 1 := den_mul_pow_eq_one q q.den hdvd
  have hmem : q.den ∈ List.range (q.den + 1) := by simp
  have hsome : (decExp q).isSome := by
    unfold decExp
    rw [List.find?_isSome]
    exact ⟨q.den, hmem, by simpa using hsat⟩
  obtain ⟨k, hk⟩ := Option.isSome_iff_exists.mp hsome
  refine ⟨k, hk, ?_⟩
  have := List.find?_some hk
  simpa using this

/-! ### floatRead reads back a serialized number -/

theorem isDigit_ne (c : Char) (h : c.isDigit = true) :
    c ≠ '+' ∧ c ≠ '-' ∧ c ≠ '.' := by
  refine ⟨fun he => ?_, fun he => ?_, fun he => ?_⟩ <;>
    (rw [he] at h; exact absurd h (by decide))

theorem signRead_neg (r : List Char) : signRead ('-' :: r) = (-1, r) := by
  simp [signRead]

theorem signRead_nonsign (c : Char) (r : List Char) (h1 : c ≠ '+')
    (h2 : c ≠ '-') : signRead (c :: r) = (1, c :: r) := by
  simp [signRead, h1, h2]

theorem readIntPart_zero (r : List Char) :
    readIntPart ('0' :: r) = some (0, r) := by
  simp [readIntPart]

theorem readIntPart_run (c : Char) (ds' : List Char) (hc : c.isDigit = true)
    (hc0 : c ≠ '0') (hds : ∀ x ∈ ds', x.isDigit = true) (rest : List Char)
    (hrest : rest = [] ∨ ∃ r rs, rest = r :: rs ∧ r.isDigit = false) :
    readIntPart (c :: (ds' ++ rest)) = some (natVal (c :: ds'), rest) := by
  have ht := takeWhile_append_head Char.isDigit ds' rest hrest
  have hta := takeWhile_all_true Char.isDigit ds' hds
  simp only [readIntPart]
  rw [if_neg hc0, if_pos hc, ht.1, ht.2, hta.1, hta.2]
  simp

theorem readFracPart_digits (fracDs : List Char) (hne : fracDs ≠ [])
    (hds : ∀ x ∈ fracDs, x.isDigit = true) :
    readFracPart ('.' :: fracDs) = (natVal fracDs, fracDs.length, []) := by
  have hta := takeWhile_all_true Char.isDigit fracDs hds
  simp only [readFracPart]
  rw [hta.1, hta.2, if_pos ⟨trivial, hne⟩]

theorem floatRead_parts (l : List Char) (s : ℚ) (intDs fracDs : List Char)
    (hsign : signRead l = (s, intDs ++ '.' :: fracDs))
    (hint : readIntPart (intDs ++ '.' :: fracDs) =
      some (natVal intDs, '.' :: fracDs))
    (hfrac : fracDs ≠ []) (hfdig : ∀ x ∈ fracDs, x.isDigit = true) :
    floatRead l = some (s * ((natVal intDs : ℚ) +
      (natVal fracDs : ℚ) / 10 ^ fracDs.length), []) := by
  unfold floatRead
  rw [hsign]
  simp only [hint, readFracPart_digits fracDs hfrac hfdig, readExpPart]
  norm_num

theorem floatRead_int_core (l : List Char) (s : ℚ) (ds : List Char)
    (v : ℕ) (hsign : signRead l = (s, ds))
    (hint : readIntPart ds = some (v, [])) :
    floatRead l = some (s * (v : ℚ), []) := by
  unfold floatRead
  rw [hsign]
  simp only [hint, readFracPart, readExpPart]
  norm_num

theorem readIntPart_natToDigits (n : ℕ) (rest : List Char)
    (hrest : rest = [] ∨ ∃ r rs, rest = r :: rs ∧ r.isDigit = false) :
    readIntPart (natToDigits n ++ rest) = some (n, rest) := by
  by_cases hn : n = 0
  · subst hn
    have : natToDigits 0 = ['0'] := rfl
    rw [this]
    exact readIntPart_zero rest
  · match hnd : natToDigits n with
    | [] => exact absurd hnd (natToDigits_ne_nil n)
    | c :: ds' =>
      have hdig : ∀ x ∈ natToDigits n, x.isDigit = true := natToDigits_isDigit n
      have hc : c.isDigit = true := hdig c (by rw [hnd]; simp)
      have hc0 : c ≠ '0' := natToDigits_head_ne_zero n hn c ds' hnd
      have hds : ∀ x ∈ ds', x.isDigit = true := by
        intro x hx
        exact hdig x (by rw [hnd]; simp [hx])
      have := readIntPart_run c ds' hc hc0 hds rest hrest
      rw [List.cons_append, this, ← hnd, natVal_natToDigits]

theorem floatRead_intChars (m : ℤ) :
    floatRead (intChars m) = some ((m : ℚ), []) := by
  by_cases hm : m < 0
  · unfold intChars
    rw [if_pos hm]
    have hsign : signRead ('-' :: natToDigits m.natAbs) =
        (-1, natToDigits m.natAbs) := signRead_neg _
    have hint : readIntPart (natToDigits m.natAbs) = some (m.natAbs, []) := by
      have := readIntPart_natToDigits m.natAbs [] (Or.inl rfl)
      simpa using this
    rw [floatRead_int_core _ (-1) _ m.natAbs hsign hint]
    have h1 : ((m.natAbs : ℕ) : ℚ) = -(m : ℚ) := by
      rw [Int.cast_natAbs, abs_of_neg hm]
      push_cast
      ring
    rw [h1]
    norm_num
  · unfold intChars
    rw [if_neg hm]
    match hnd : natToDigits m.natAbs with
    | [] => exact absurd hnd (natToDigits_ne_nil m.natAbs)
    | c :: ds' =>
      have hdig : ∀ x ∈ natToDigits m.natAbs, x.isDigit = true :=
        natToDigits_isDigit m.natAbs
      have hc : c.isDigit = true := hdig c (by rw [hnd]; simp)
      have hsign : signRead (natToDigits m.natAbs) =
          (1, natToDigits m.natAbs) := by
        rw [hnd]
        exact signRead_nonsign c ds' (isDigit_ne c hc).1 (isDigit_ne c hc).2.1
      have hint : readIntPart (natToDigits m.natAbs) = some (m.natAbs, []) := by
        have := readIntPart_natToDigits m.natAbs [] (Or.inl rfl)
        simpa using this
      rw [← hnd, floatRead_int_core _ 1 _ m.natAbs hsign hint]
      have h1 : ((m.natAbs : ℕ) : ℚ) = (m : ℚ) := by
        rw [Int.cast_natAbs, abs_of_nonneg (not_lt.mp hm)]
      rw [h1]
      norm_num

/-- The digit string of the scaled numerator in the decimal branch of
`ntos` (its `let s`). -/
def ntosS (q : ℚ) (k : ℕ) : List Char := natToDigits (q * 10 ^ k).num.natAbs

/-- The zero-padded digit string of the decimal branch of `ntos` (its
`let s2`). -/
def ntosS2 (q : ℚ) (k : ℕ) : List Char :=
  if (ntosS q k).length ≤ k then
    List.replicate (k + 1 - (ntosS q k).length) '0' ++ ntosS q k
  else ntosS q k

theorem ntos_decimal (q : ℚ) (hden : ¬ q.den = 1) (k : ℕ)
    (hk : decExp q = some k) :
    ntos q = (if (q * 10 ^ k).num < 0 then ['-'] else []) ++
      ((ntosS2 q k).take ((ntosS2 q k).length - k) ++
        '.' :: (ntosS2 q k).drop ((ntosS2 q k).length - k)) := by
  unfold ntos
  rw [if_neg hden, hk]
  dsimp only
  unfold ntosS2 ntosS
  rw [List.append_assoc]

theorem natVal_replicate_zero (z : ℕ) (s : List Char) :
    natVal (List.replicate z '0' ++ s) = natVal s := by
  induction z with
  | zero => simp
  | succ z ih =>
    rw [List.replicate_succ, List.cons_append]
    have hstep : natVal ('0' :: (List.replicate z '0' ++ s)) =
        natVal (List.replicate z '0' ++ s) := by
      simp [natVal]
    rw [hstep, ih]

theorem ntosS2_facts (q : ℚ) (k : ℕ) :
    (∀ c ∈ ntosS2 q k, c.isDigit = true) ∧
    natVal (ntosS2 q k) = (q * 10 ^ k).num.natAbs ∧
    k + 1 ≤ (ntosS2 q k).length := by
  have hslen : 1 ≤ (ntosS q k).length :=
    List.length_pos.mpr (natToDigits_ne_nil _)
  refine ⟨?_, ?_, ?_⟩
  · intro c hc
    unfold ntosS2 at hc
    split_ifs at hc with hpad
    · rcases List.mem_append.mp hc with hc | hc
      · rw [List.eq_of_mem_replicate hc]
        decide
      · exact natToDigits_isDigit _ c hc
    · exact natToDigits_isDigit _ c hc
  · unfold ntosS2 ntosS
    split_ifs with hpad
    · rw [natVal_replicate_zero]
      exact natVal_natToDigits _
    · exact natVal_natToDigits _
  · unfold ntosS2
    split_ifs with hpad
    · rw [List.length_append, List.length_replicate]
      omega
    · omega

set_option maxHeartbeats 800000 in
theorem floatRead_ntos (q : ℚ) (h : IsDecimal q) :
    floatRead (ntos q) = some (q, []) := by
  by_cases hden : q.den = 1
  · have hq : ((q.num : ℤ) : ℚ) = q := by
      have h2 := Rat.num_div_den q
      rw [hden] at h2
      simpa using h2
    unfold ntos
    rw [if_pos hden, floatRead_intChars q.num, hq]
  · obtain ⟨k, hk, hkden⟩ := decExp_spec q h
    have hknz : k ≠ 0 := by
      intro h0
      rw [h0] at hkden
      simp at hkden
      exact hden hkden
    have hm1 : (((q * 10 ^ k).num : ℤ) : ℚ) = q * 10 ^ k := by
      have h2 := Rat.num_div_den (q * 10 ^ k)
      rw [hkden] at h2
      simpa using h2
    have hq0 : q ≠ 0 := fun h0 => hden (by rw [h0]; rfl)
    have h10 : (10 : ℚ) ^ k ≠ 0 := pow_ne_zero k (by norm_num)
    have hmne : (q * 10 ^ k).num ≠ 0 := by
      intro h0
      have h2 : q * 10 ^ k = 0 := by rw [← hm1, h0]; simp
      rcases mul_eq_zero.mp h2 with h3 | h3
      · exact hq0 h3
      · exact h10 h3
    obtain ⟨hs2dig, hs2val, hs2len⟩ := ntosS2_facts q k
    set s2 := ntosS2 q k with hs2
    set L := s2.length with hL
    set j := L - k with hj
    have hj1 : 1 ≤ j := by omega
    set intDs := s2.take j with hintDs
    set fracDs := s2.drop j with hfracDs
    have hsplit : intDs ++ fracDs = s2 := List.take_append_drop j s2
    have hflen : fracDs.length = k := by
      rw [hfracDs, List.length_drop]
      omega
    have hfne : fracDs ≠ [] := by
      intro h0
      rw [h0] at hflen
      simp at hflen
      omega
    have hfdig : ∀ x ∈ fracDs, x.isDigit = true := fun x hx =>
      hs2dig x (List.drop_subset j s2 hx)
    have hilen : intDs.length = j := by
      rw [hintDs, List.length_take]
      omega
    have hint : readIntPart (intDs ++ '.' :: fracDs) =
        some (natVal intDs, '.' :: fracDs) := by
      by_cases hpad : (ntosS q k).length ≤ k
      · have hs2eq : s2 = List.replicate (k + 1 - (ntosS q k).length) '0' ++
            ntosS q k := by
          rw [hs2]
          unfold ntosS2
          rw [if_pos hpad]
        have hslen1 : 1 ≤ (ntosS q k).length :=
          List.length_pos.mpr (natToDigits_ne_nil _)
        have hLval : L = k + 1 := by
          rw [hL, hs2eq, List.length_append, List.length_replicate]
          omega
        have hjval : j = 1 := by omega
        obtain ⟨z, hzeq⟩ : ∃ z, k + 1 - (ntosS q k).length = z + 1 :=
          ⟨k - (ntosS q k).length, by omega⟩
        have hs2cons : s2 = '0' :: (List.replicate z '0' ++ ntosS q k) := by
          rw [hs2eq, hzeq, List.replicate_succ, List.cons_append]
        have hintEq : intDs = ['0'] := by
          rw [hintDs, hjval, hs2cons]
          rfl
        rw [hintEq, List.singleton_append, readIntPart_zero]
        have hnv0 : natVal ['0'] = 0 := by decide
        rw [hnv0]
      · have hs2eq : s2 = ntosS q k := by
          rw [hs2]
          unfold ntosS2
          rw [if_neg hpad]
        obtain ⟨c, s', hcs⟩ : ∃ c s', ntosS q k = c :: s' := by
          match hnn : ntosS q k with
          | [] =>
            exact absurd hnn (by unfold ntosS; exact natToDigits_ne_nil _)
          | c :: s' => exact ⟨c, s', rfl⟩
        have hcsd : natToDigits (q * 10 ^ k).num.natAbs = c :: s' := by
          rw [← hcs]
          rfl
        have hc0 : c ≠ '0' :=
          natToDigits_head_ne_zero (q * 10 ^ k).num.natAbs
            (Int.natAbs_ne_zero.mpr hmne) c s' hcsd
        have hcdig : c.isDigit = true := by
          apply natToDigits_isDigit (q * 10 ^ k).num.natAbs
          rw [hcsd]
          simp
        have hs'dig : ∀ x ∈ s', x.isDigit = true := by
          intro x hx
          apply natToDigits_isDigit (q * 10 ^ k).num.natAbs
          rw [hcsd]
          simp [hx]
        obtain ⟨j', hj'⟩ : ∃ j', j = j' + 1 := ⟨j - 1, by omega⟩
        have hintEq : intDs = c :: s'.take j' := by
          rw [hintDs, hs2eq, hcs, hj']
          exact List.take_succ_cons
        have htdig : ∀ x ∈ s'.take j', x.isDigit = true := fun x hx =>
          hs'dig x (List.take_subset j' s' hx)
        rw [hintEq, List.cons_append,
          readIntPart_run c (s'.take j') hcdig hc0 htdig ('.' :: fracDs)
            (Or.inr ⟨'.', fracDs, rfl, by decide⟩)]
    have htok : ntos q = (if (q * 10 ^ k).num < 0 then ['-'] else []) ++
        (intDs ++ '.' :: fracDs) := by
      rw [ntos_decimal q hden k hk]
    have hcore : ((natVal intDs : ℚ) +
        (natVal fracDs : ℚ) / 10 ^ fracDs.length) =
        ((q * 10 ^ k).num.natAbs : ℚ) / 10 ^ k := by
      have hnv : natVal intDs * 10 ^ k + natVal fracDs =
          (q * 10 ^ k).num.natAbs := by
        rw [← hs2val, ← hsplit, natVal_append, hflen]
      have hcast : ((natVal intDs : ℚ) * 10 ^ k + (natVal fracDs : ℚ)) =
          ((q * 10 ^ k).num.natAbs : ℚ) := by
        exact_mod_cast congrArg (fun n : ℕ => (n : ℚ)) hnv
      rw [hflen]
      field_simp
      linarith [hcast]
    by_cases hmneg : (q * 10 ^ k).num < 0
    · have hsign : signRead (ntos q) = (-1, intDs ++ '.' :: fracDs) := by
        rw [htok, if_pos hmneg, List.singleton_append]
        exact signRead_neg _
      rw [floatRead_parts (ntos q) (-1) intDs fracDs hsign hint hfne hfdig,
        hcore]
      have habs : (((q * 10 ^ k).num.natAbs : ℕ) : ℚ) =
          -(((q * 10 ^ k).num : ℤ) : ℚ) := by
        rw [Int.cast_natAbs, abs_of_neg hmneg]
        push_cast
        ring
      rw [habs, hm1]
      congr 1
      congr 1
      field_simp
    · have hine : intDs ≠ [] := by
        intro h0
        rw [h0] at hilen
        simp at hilen
        omega
      obtain ⟨c0, I', hI⟩ : ∃ c0 I', intDs = c0 :: I' := by
        match hii : intDs, hine with
        | c0 :: I', _ => exact ⟨c0, I', rfl⟩
      have hc0dig : c0.isDigit = true := by
        apply hs2dig
        apply List.take_subset j s2
        rw [← hintDs, hI]
        simp
      have hsign : signRead (ntos q) = (1, intDs ++ '.' :: fracDs) := by
        rw [htok, if_neg hmneg, List.nil_append, hI, List.cons_append,
          signRead_nonsign c0 (I' ++ '.' :: fracDs) (isDigit_ne c0 hc0dig).1
            (isDigit_ne c0 hc0dig).2.1, ← List.cons_append, ← hI]
      rw [floatRead_parts (ntos q) 1 intDs fracDs hsign hint hfne hfdig,
        hcore]
      have habs : (((q * 10 ^ k).num.natAbs : ℕ) : ℚ) =
          (((q * 10 ^ k).num : ℤ) : ℚ) := by
        rw [Int.cast_natAbs, abs_of_nonneg (not_lt.mp hmneg)]
      rw [habs, hm1]
      congr 1
      congr 1
      field_simp

theorem ntos_zero : ntos 0 = ['0'] := by
  simp [ntos, intChars, natToDigits]

theorem ntos_one : ntos 1 = ['1'] := by
  simp [ntos, intChars, natToDigits, digitChar]

theorem boolRead_ntos (v : ℚ) (hv : v = 0 ∨ v = 1) :
    boolRead (ntos v) = some (v, []) := by
  rcases hv with rfl | rfl
  · rw [ntos_zero]
    simp [boolRead]
  · rw [ntos_one]
    simp [boolRead]

theorem readArg_ntos (isArc : Bool) (i : ℕ) (v : ℚ) (hdec : IsDecimal v)
    (hflag : isBoolPos isArc i = true → v = 0 ∨ v = 1) :
    readArg isArc i (ntos v) = some (v, []) := by
  unfold readArg
  split_ifs with hb
  · exact boolRead_ntos v (hflag hb)
  · exact floatRead_ntos v hdec

/-! ### parseArgsGo: step equations, full runs and value extraction -/

theorem parseArgsGo_nil (isArc : Bool) (i : ℕ) (acc : List ℚ) :
    parseArgsGo isArc i [] acc = Except.ok acc.reverse := by
  rw [parseArgsGo.eq_def]

theorem parseArgsGo_cons (isArc : Bool) (i : ℕ) (t : List Char)
    (rest : List (List Char)) (acc : List ℚ) (v : ℚ) (residue : List Char)
    (hr : readArg isArc i t = some (v, residue)) :
    parseArgsGo isArc i (t :: rest) acc =
      if residue = [] then parseArgsGo isArc (i + 1) rest (v :: acc)
      else parseArgsGo isArc (i + 1) (residue :: rest) (v :: acc) := by
  rw [parseArgsGo.eq_def]
  split
  · rename_i heq
    exact absurd heq (by simp)
  · rename_i t2 rest2 heq
    obtain ⟨rfl, rfl⟩ : t = t2 ∧ rest = rest2 := by
      injection heq with h1 h2
      exact ⟨h1, h2⟩
    split
    · rename_i heq2
      rw [hr] at heq2
      cases heq2
    · rename_i v2 r2 heq2
      rw [hr] at heq2
      injection heq2 with heq3
      injection heq3 with h1 h2
      subst h1
      subst h2
      rfl

theorem parseArgsGo_map (isArc : Bool) (vals : List ℚ) :
    ∀ (i : ℕ) (acc : List ℚ),
      (∀ v ∈ vals, IsDecimal v) →
      (∀ j, (hj : j < vals.length) → isBoolPos isArc (i + j) = true →
        vals.get ⟨j, hj⟩ = 0 ∨ vals.get ⟨j, hj⟩ = 1) →
      parseArgsGo isArc i (vals.map ntos) acc =
        Except.ok (acc.reverse ++ vals) := by
  induction vals with
  | nil =>
    intro i acc _ _
    rw [List.map_nil, parseArgsGo_nil]
    simp
  | cons v vs ih =>
    intro i acc hdec hflag
    have h0 : readArg isArc i (ntos v) = some (v, []) := by
      apply readArg_ntos isArc i v (hdec v (by simp))
      intro hb
      have := hflag 0 (by simp) (by simpa using hb)
      simpa using this
    rw [List.map_cons, parseArgsGo_cons isArc i _ _ acc v [] h0, if_pos rfl,
      ih (i + 1) (v :: acc) (fun x hx => hdec x (by simp [hx])) ?_]
    · simp
    · intro j hj hb
      have hsh : i + 1 + j = i + (j + 1) := by omega
      have := hflag (j + 1) (by simpa using Nat.succ_lt_succ hj)
        (by rw [← hsh]; exact hb)
      simpa using this

theorem signRead_val (l : List Char) :
    (signRead l).1 = 1 ∨ (signRead l).1 = -1 := by
  match l with
  | [] => simp [signRead]
  | c :: r =>
    simp only [signRead]
    split_ifs <;> simp

theorem isDecimal_congr (a b : ℚ) (h : a = b) (hb : IsDecimal b) :
    IsDecimal a := h ▸ hb

theorem isDecimal_val (s : ℚ) (hs : s = 1 ∨ s = -1) (a b : ℕ) (fl : ℕ)
    (ev : ℤ) : IsDecimal (s * ((a : ℚ) + (b : ℚ) / 10 ^ fl) * 10 ^ ev) := by
  have h10 : (10 : ℚ) ^ fl ≠ 0 := pow_ne_zero fl (by norm_num)
  obtain ⟨m, hm | hm⟩ := Int.eq_nat_or_neg ev
  · refine ⟨(if s = 1 then 1 else -1) * (a * 10 ^ fl + b) * 10 ^ m, fl, ?_⟩
    rcases hs with rfl | rfl
    · rw [if_pos rfl, hm]
      push_cast [zpow_natCast]
      field_simp
    · rw [if_neg (by norm_num), hm]
      push_cast [zpow_natCast]
      field_simp
  · refine ⟨(if s = 1 then 1 else -1) * (a * 10 ^ fl + b), fl + m, ?_⟩
    have hzp : (10 : ℚ) ^ (-(m : ℤ)) = ((10 : ℚ) ^ m)⁻¹ := by
      rw [zpow_neg, zpow_natCast]
    rcases hs with rfl | rfl
    · rw [if_pos rfl, hm, hzp]
      push_cast
      rw [pow_add]
      field_simp
    · rw [if_neg (by norm_num), hm, hzp]
      push_cast
      rw [pow_add]
      field_simp

theorem floatRead_isDecimal (l : List Char) (v : ℚ) (r : List Char)
    (h : floatRead l = some (v, r)) : IsDecimal v := by
  unfold floatRead at h
  rcases hip : readIntPart (signRead l).2 with _ | ⟨iv, r1⟩
  · simp only [hip] at h
    rcases hsl : (signRead l).2 with _ | ⟨c, r0⟩
    · simp only [hsl] at h
      cases h
    · simp only [hsl] at h
      split_ifs at h with hcond
      · rcases hre : readExpPart (r0.dropWhile Char.isDigit) with ⟨ev, r3⟩
        simp only [hre] at h
        injection h with h
        injection h with h1 h2
        refine isDecimal_congr _ _ h1.symm ?_
        have := isDecimal_val (signRead l).1 (signRead_val l) 0
          (natVal (r0.takeWhile Char.isDigit))
          (r0.takeWhile Char.isDigit).length ev
        refine isDecimal_congr _ _ ?_ this
        push_cast
        ring
  · simp only [hip] at h
    rcases hfp : readFracPart r1 with ⟨fv, fl, r2⟩
    simp only [hfp] at h
    rcases hre : readExpPart r2 with ⟨ev, r3⟩
    simp only [hre] at h
    injection h with h
    injection h with h1 h2
    exact isDecimal_congr _ _ h1.symm
      (isDecimal_val (signRead l).1 (signRead_val l) iv fv fl ev)

theorem boolRead_val (l : List Char) (v : ℚ) (r : List Char)
    (h : boolRead l = some (v, r)) : v = 0 ∨ v = 1 := by
  match l with
  | [] => exact absurd h (by simp [boolRead])
  | c :: r0 =>
    simp only [boolRead] at h
    split_ifs at h <;> cases h <;> simp

theorem isDecimal_zero_one (v : ℚ) (h : v = 0 ∨ v = 1) : IsDecimal v := by
  rcases h with rfl | rfl
  · exact ⟨0, 0, by norm_num⟩
  · exact ⟨1, 0, by norm_num⟩

theorem readArg_val (isArc : Bool) (i : ℕ) (t : List Char) (v : ℚ)
    (r : List Char) (h : readArg isArc i t = some (v, r)) :
    IsDecimal v ∧ (isBoolPos isArc i = true → v = 0 ∨ v = 1) := by
  unfold readArg at h
  split_ifs at h with hb
  · exact ⟨isDecimal_zero_one v (boolRead_val t v r h), fun _ =>
      boolRead_val t v r h⟩
  · exact ⟨floatRead_isDecimal t v r h, fun hb2 => absurd hb2 (by simp [hb])⟩

theorem parseArgsGo_cons_none (isArc : Bool) (i : ℕ) (t : List Char)
    (rest : List (List Char)) (acc : List ℚ)
    (hr : readArg isArc i t = none) :
    parseArgsGo isArc i (t :: rest) acc =
      Except.error "ValueError: invalid argument" := by
  rw [parseArgsGo.eq_def]
  split
  · rename_i heq
    exact absurd heq (by simp)
  · rename_i t2 rest2 heq
    obtain ⟨rfl, rfl⟩ : t = t2 ∧ rest = rest2 := by
      injection heq with h1 h2
      exact ⟨h1, h2⟩
    split
    · rfl
    · rename_i v2 r2 heq2
      rw [hr] at heq2
      cases heq2

theorem parseArgsGo_values (isArc : Bool) (i : ℕ) (toks : List (List Char))
    (acc : List ℚ) :
    ∀ res : List ℚ, parseArgsGo isArc i toks acc = Except.ok res →
      ∃ vals, res = acc.reverse ++ vals ∧
        (∀ v ∈ vals, IsDecimal v) ∧
        (∀ j, (hj : j < vals.length) → isBoolPos isArc (i + j) = true →
          vals.get ⟨j, hj⟩ = 0 ∨ vals.get ⟨j, hj⟩ = 1) := by
  induction i, toks, acc using parseArgsGo.induct isArc with
  | case1 i acc =>
    intro res h
    rw [parseArgsGo_nil] at h
    injection h with h
    exact ⟨[], by simp [h.symm], by simp, by simp⟩
  | case2 i acc t rest hr =>
    intro res h
    rw [parseArgsGo_cons_none isArc i t rest acc hr] at h
    cases h
  | case3 i acc t rest v hr ih =>
    intro res h
    rw [parseArgsGo_cons isArc i t rest acc v [] hr, if_pos rfl] at h
    obtain ⟨vals, hres, hdec, hflag⟩ := ih res h
    refine ⟨v :: vals, ?_, ?_, ?_⟩
    · rw [hres]
      simp
    · intro x hx
      rcases List.mem_cons.mp hx with rfl | hx
      · exact (readArg_val isArc i t x [] hr).1
      · exact hdec x hx
    · intro j hj hb
      match j with
      | 0 =>
        have := (readArg_val isArc i t v [] hr).2 (by simpa using hb)
        simpa using this
      | j' + 1 =>
        have hj' : j' < vals.length := by simpa using hj
        have hb' : isBoolPos isArc (i + 1 + j') = true := by
          have hsh : i + 1 + j' = i + (j' + 1) := by omega
          rw [hsh]
          exact hb
        have := hflag j' hj' hb'
        simpa using this
  | case4 i acc t rest v residue hr hne ih =>
    intro res h
    rw [parseArgsGo_cons isArc i t rest acc v residue hr, if_neg hne] at h
    obtain ⟨vals, hres, hdec, hflag⟩ := ih res h
    refine ⟨v :: vals, ?_, ?_, ?_⟩
    · rw [hres]
      simp
    · intro x hx
      rcases List.mem_cons.mp hx with rfl | hx
      · exact (readArg_val isArc i t x residue hr).1
      · exact hdec x hx
    · intro j hj hb
      match j with
      | 0 =>
        have := (readArg_val isArc i t v residue hr).2 (by simpa using hb)
        simpa using this
      | j' + 1 =>
        have hj' : j' < vals.length := by simpa using hj
        have hb' : isBoolPos isArc (i + 1 + j') = true := by
          have hsh : i + 1 + j' = i + (j' + 1) := by omega
          rw [hsh]
          exact hb
        have := hflag j' hj' hb'
        simpa using this

/-! ### Except plumbing -/

theorem except_ok_bind {α β : Type} (a : α) (f : α → Except String β) :
    (Except.ok a >>= f) = f a := rfl

theorem except_bind_ok {α β : Type} (x : Except String α)
    (f : α → Except String β) (b : β) (h : (x >>= f) = Except.ok b) :
    ∃ a, x = Except.ok a ∧ f a = Except.ok b := by
  match x with
  | Except.ok a => exact ⟨a, rfl, h⟩
  | Except.error e => cases h

theorem except_pure_ok {α : Type} (a b : α)
    (h : (pure a : Except String α) = Except.ok b) : a = b := by
  injection h

theorem mapM_ok_length {α β : Type} (f : α → Except String β) :
    ∀ (l : List α) (out : List β), l.mapM f = Except.ok out →
      out.length = l.length := by
  intro l
  induction l with
  | nil =>
    intro out h
    rw [List.mapM_nil] at h
    rw [← except_pure_ok _ _ h]
    rfl
  | cons a l ih =>
    intro out h
    rw [List.mapM_cons] at h
    obtain ⟨b, _, h2⟩ := except_bind_ok _ _ _ h
    obtain ⟨bs, hbs, h3⟩ := except_bind_ok _ _ _ h2
    rw [← except_pure_ok _ _ h3]
    simp [ih bs hbs]

theorem mapM_ok_mem {α β : Type} (f : α → Except String β) :
    ∀ (l : List α) (out : List β), l.mapM f = Except.ok out →
      ∀ y ∈ out, ∃ x ∈ l, f x = Except.ok y := by
  intro l
  induction l with
  | nil =>
    intro out h y hy
    rw [List.mapM_nil] at h
    rw [← except_pure_ok _ _ h] at hy
    cases hy
  | cons a l ih =>
    intro out h y hy
    rw [List.mapM_cons] at h
    obtain ⟨b, hb, h2⟩ := except_bind_ok _ _ _ h
    obtain ⟨bs, hbs, h3⟩ := except_bind_ok _ _ _ h2
    rw [← except_pure_ok _ _ h3] at hy
    rcases List.mem_cons.mp hy with rfl | hy
    · exact ⟨a, by simp, hb⟩
    · obtain ⟨x, hx, hfx⟩ := ih bs hbs y hy
      exact ⟨x, by simp [hx], hfx⟩

/-! ### check_cmd facts -/

theorem check_cmd_ok (c : Char) (nargs n : ℕ)
    (h : check_cmd c nargs = Except.ok n) :
    num_args c = some n ∧ (n = 0 → nargs = 0) ∧ (n ≠ 0 → nargs % n = 0) := by
  unfold check_cmd at h
  match hna : num_args c with
  | none =>
    rw [hna] at h
    cases h
  | some k =>
    rw [hna] at h
    match k with
    | 0 =>
      split_ifs at h with h0
      injection h with h
      subst h
      exact ⟨rfl, fun _ => h0, fun hn0 => absurd rfl hn0⟩
    | k + 1 =>
      have h' : (if nargs % (k + 1) = 0 then Except.ok (k + 1)
          else Except.error "ValueError: invalid number of args") =
          Except.ok n := h
      split_ifs at h' with h0
      injection h' with h'
      subst h'
      exact ⟨rfl, fun h0' => absurd h0' (Nat.succ_ne_zero k), fun _ => h0⟩

theorem check_cmd_isCmd (c : Char) (nargs n : ℕ)
    (h : check_cmd c nargs = Except.ok n) : isCmdChar c = true := by
  have := (check_cmd_ok c nargs n h).1
  simp [isCmdChar, this]

/-! ### Character content of ntos -/

theorem intChars_atoms (m : ℤ) : ∀ x ∈ intChars m, isAtomChar x = true := by
  intro x hx
  unfold intChars at hx
  split_ifs at hx with hm
  · rcases List.mem_cons.mp hx with rfl | hx
    · decide
    · have := natToDigits_isDigit m.natAbs x hx
      simp [isAtomChar, this]
  · have := natToDigits_isDigit m.natAbs x hx
    simp [isAtomChar, this]

theorem ntos_atoms (q : ℚ) : ∀ x ∈ ntos q, isAtomChar x = true := by
  by_cases hden : q.den = 1
  · unfold ntos
    rw [if_pos hden]
    exact intChars_atoms q.num
  · match hde : decExp q with
    | none =>
      unfold ntos
      rw [if_neg hden, hde]
      intro x hx
      rw [List.mem_singleton.mp hx]
      decide
    | some k =>
      rw [ntos_decimal q hden k hde]
      obtain ⟨hs2dig, _, _⟩ := ntosS2_facts q k
      intro x hx
      rcases List.mem_append.mp hx with hx | hx
      · split_ifs at hx
        · rw [List.mem_singleton.mp hx]
          decide
        · cases hx
      · rcases List.mem_append.mp hx with hx | hx
        · have := hs2dig x (List.take_subset _ _ hx)
          simp [isAtomChar, this]
        · rcases List.mem_cons.mp hx with rfl | hx
          · decide
          · have := hs2dig x (List.drop_subset _ _ hx)
            simp [isAtomChar, this]

theorem ntos_ne_nil (q : ℚ) : ntos q ≠ [] := by
  by_cases hden : q.den = 1
  · unfold ntos
    rw [if_pos hden]
    unfold intChars
    split_ifs
    · simp
    · exact natToDigits_ne_nil _
  · match hde : decExp q with
    | none =>
      unfold ntos
      rw [if_neg hden, hde]
      simp
    | some k =>
      rw [ntos_decimal q hden k hde]
      simp

/-! ### path_segment structure -/

/-- The token list built by `path_segment` for one command. -/
def segTokens (c : Char) (args : List ℚ) (n : ℕ) : List (List Char) :=
  if n = 0 then []
  else (List.range (args.length / n)).flatMap fun g =>
    combineArgs (xyPairs c) 0 (((args.map ntos).drop (g * n)).take n)

theorem path_segment_eval (c : Char) (args : List ℚ) (n : ℕ)
    (hc : check_cmd c args.length = Except.ok n) :
    path_segment c args = Except.ok (c :: joinSp (segTokens c args n)) := by
  unfold path_segment
  rw [hc, except_ok_bind]
  rfl

theorem segTokens_chunk_props (c : Char) (args : List ℚ) (n : ℕ)
    (hn : n ≠ 0) (hmod : args.length % n = 0) :
    ∀ g ∈ List.range (args.length / n),
      (((args.map ntos).drop (g * n)).take n) ≠ [] ∧
      ∀ s ∈ ((args.map ntos).drop (g * n)).take n,
        s ≠ [] ∧ ∀ x ∈ s, isAtomChar x = true := by
  intro g hg
  have hglt : g < args.length / n := List.mem_range.mp hg
  have hlen : (args.map ntos).length = args.length := by simp
  have hchunklen : (((args.map ntos).drop (g * n)).take n).length = n := by
    rw [List.length_take, List.length_drop, hlen]
    have h1 : (g + 1) * n ≤ args.length := by
      have := Nat.succ_le_of_lt hglt
      calc (g + 1) * n ≤ (args.length / n) * n := by
            exact Nat.mul_le_mul_right n this
        _ = args.length := Nat.div_mul_cancel (Nat.dvd_of_mod_eq_zero hmod)
    have : n ≤ args.length - g * n := by
      rw [Nat.add_mul, one_mul] at h1
      omega
    omega
  constructor
  · intro h0
    rw [h0] at hchunklen
    simp at hchunklen
    omega
  · intro s hs
    have hmem : s ∈ args.map ntos :=
      List.drop_subset _ _ (List.take_subset _ _ hs)
    obtain ⟨v, _, rfl⟩ := List.mem_map.mp hmem
    exact ⟨ntos_ne_nil v, ntos_atoms v⟩

theorem segTokens_chars (c : Char) (args : List ℚ) (n : ℕ)
    (hmod : args.length % n = 0) :
    ∀ t ∈ segTokens c args n, ∀ x ∈ t,
      isAtomChar x = true ∨ isSepChar x = true := by
  unfold segTokens
  split_ifs with hn
  · simp
  · intro t ht x hx
    rcases List.mem_flatMap.mp ht with ⟨g, hg, hcomb⟩
    have hprops := segTokens_chunk_props c args n hn hmod g hg
    exact combineArgs_token_chars (xyPairs c) 0 _
      (fun s hs => (hprops.2 s hs).2) t hcomb x hx

/-! ### splitSeps over a whole serialized argument list -/

theorem chunks_splitSeps (xy : List (ℕ × ℕ)) :
    ∀ (chunks : List (List (List Char))),
      (∀ ch ∈ chunks, ch ≠ [] ∧ ∀ s ∈ ch, s ≠ [] ∧
        ∀ x ∈ s, isAtomChar x = true) →
      ∀ Z : List Char, SepSuffix Z →
      splitSeps (joinSp (chunks.flatMap (combineArgs xy 0)) ++ Z) =
        chunks.flatten ++ splitSeps Z := by
  intro chunks
  induction chunks with
  | nil =>
    intro _ Z hZ
    simp only [List.flatMap_nil, List.flatten_nil, List.nil_append]
    rcases hZ with rfl | ⟨z, Z', rfl, hz⟩
    · rfl
    · rfl
  | cons ch chunks ih =>
    intro h Z hZ
    have hch := h ch (by simp)
    by_cases hrest : chunks = []
    · subst hrest
      simp only [List.flatMap_cons, List.flatMap_nil, List.append_nil,
        List.flatten_cons, List.flatten_nil]
      exact combineArgs_splitSeps xy 0 ch Z hch.2 hZ
    · have hA : combineArgs xy 0 ch ≠ [] := combineArgs_ne_nil xy 0 ch hch.1
      have hB : chunks.flatMap (combineArgs xy 0) ≠ [] := by
        match chunks, hrest with
        | ch2 :: chunks', _ =>
          have h2 := combineArgs_ne_nil xy 0 ch2 (h ch2 (by simp)).1
          simp only [List.flatMap_cons]
          intro hcontra
          rcases List.append_eq_nil.mp hcontra with ⟨h3, _⟩
          exact h2 h3
      rw [List.flatMap_cons, joinSp_append _ _ hA hB, List.append_assoc,
        List.cons_append,
        combineArgs_splitSeps xy 0 ch _ hch.2
          (Or.inr ⟨' ', _, rfl, by decide⟩),
        splitSeps_cons_sep ' ' (by decide),
        ih (fun ch2 hch2 => h ch2 (by simp [hch2])) Z hZ,
        List.flatten_cons, List.append_assoc]

/-! ### One command round-trips through its serialized segment body -/

theorem path_segment_reparse (c : Char) (args : List ℚ) (n : ℕ)
    (hc : check_cmd c args.length = Except.ok n)
    (hdec : ∀ v ∈ args, IsDecimal v)
    (hflag : ∀ j, (hj : j < args.length) →
      isBoolPos (c = 'a' ∨ c = 'A') j = true →
      args.get ⟨j, hj⟩ = 0 ∨ args.get ⟨j, hj⟩ = 1)
    (Z : List Char) (hZ : ∀ z ∈ Z, isSepChar z = true) :
    parseArgs c (splitSeps (pyStrip (joinSp (segTokens c args n) ++ Z))) =
      Except.ok args := by
  obtain ⟨hna, hz0, hmodf⟩ := check_cmd_ok c args.length n hc
  have hsplitend : splitSeps (joinSp (segTokens c args n) ++ Z) =
      args.map ntos := by
    by_cases hn : n = 0
    · have hargs : args = [] := List.length_eq_zero.mp (hz0 hn)
      subst hargs
      unfold segTokens
      rw [if_pos hn]
      simp only [joinSp, List.nil_append, List.map_nil]
      exact splitSeps_all_seps Z hZ
    · have hmod : args.length % n = 0 := hmodf hn
      have hZsuf : SepSuffix Z := by
        match Z with
        | [] => exact Or.inl rfl
        | z :: Z' => exact Or.inr ⟨z, Z', rfl, hZ z (by simp)⟩
      unfold segTokens
      rw [if_neg hn]
      have hflat : (List.range (args.length / n)).flatMap
          (fun g => combineArgs (xyPairs c) 0
            (((args.map ntos).drop (g * n)).take n)) =
          ((List.range (args.length / n)).map
            (fun g => ((args.map ntos).drop (g * n)).take n)).flatMap
            (combineArgs (xyPairs c) 0) := by
        rw [List.flatMap_map]
      rw [hflat, chunks_splitSeps (xyPairs c) _ ?hchunks Z hZsuf]
      · have hmaplen : (args.map ntos).length % n = 0 := by simpa using hmod
        have hflatten :
            ((List.range (args.length / n)).map
              (fun g => ((args.map ntos).drop (g * n)).take n)).flatten =
            args.map ntos := by
          rw [← List.flatMap_def]
          have hcf := chunks_flatten n (Nat.pos_of_ne_zero hn)
            (args.map ntos) hmaplen
          simpa using hcf
        rw [hflatten, splitSeps_all_seps Z hZ, List.append_nil]
      case hchunks =>
        intro ch hch
        rcases List.mem_map.mp hch with ⟨g, hg, rfl⟩
        exact segTokens_chunk_props c args n hn hmod g hg
  have hcharclass : ∀ x ∈ joinSp (segTokens c args n) ++ Z,
      isAtomChar x = true ∨ isSepChar x = true := by
    intro x hx
    rcases List.mem_append.mp hx with hx | hx
    · by_cases hn : n = 0
      · unfold segTokens at hx
        rw [if_pos hn] at hx
        cases hx
      · exact joinSp_chars _ _ (segTokens_chars c args n (hmodf hn))
          (Or.inr (by decide)) x hx
    · exact Or.inr (hZ x hx)
  rw [splitSeps_pyStrip _ hcharclass, hsplitend]
  unfold parseArgs
  rw [parseArgsGo_map _ args 0 [] hdec ?_]
  · simp
  · intro j hj hb
    exact hflag j hj (by simpa using hb)

/-! ### The parsed-command well-formedness invariant -/

/-- What the parser guarantees of every emitted command, and all the
serializer needs: a valid argument count for the letter, decimal values,
and 0/1 arc flags. -/
def GoodCmd (cmd : SvgCmd ℚ) : Prop :=
  ∃ n, check_cmd cmd.1 cmd.2.length = Except.ok n ∧
    (∀ v ∈ cmd.2, IsDecimal v) ∧
    (∀ j, (hj : j < cmd.2.length) →
      isBoolPos (cmd.1 = 'a' ∨ cmd.1 = 'A') j = true →
      cmd.2.get ⟨j, hj⟩ = 0 ∨ cmd.2.get ⟨j, hj⟩ = 1)

theorem parseGroup_false_ok (p : Char × List Char)
    (out : List (SvgCmd ℚ)) (h : parseGroup false p = Except.ok out) :
    ∃ args n, parseArgs p.1 (splitSeps (pyStrip p.2)) = Except.ok args ∧
      check_cmd p.1 args.length = Except.ok n ∧ out = [(p.1, args)] := by
  unfold parseGroup at h
  obtain ⟨args, hargs, h2⟩ := except_bind_ok _ _ _ h
  obtain ⟨n, hn, h3⟩ := except_bind_ok _ _ _ h2
  rw [if_pos (Or.inr rfl)] at h3
  exact ⟨args, n, hargs, hn, (except_pure_ok _ _ h3).symm⟩

theorem parse_goodCmds (d : List Char) (cs : List (SvgCmd ℚ))
    (h : parse_svg_path d false = Except.ok cs) :
    ∀ cmd ∈ cs, GoodCmd cmd := by
  unfold parse_svg_path at h
  obtain ⟨groups, hgroups, h2⟩ := except_bind_ok _ _ _ h
  have hcs : cs = groups.flatten := (except_pure_ok _ _ h2).symm
  intro cmd hcmd
  rw [hcs] at hcmd
  rcases List.mem_flatten.mp hcmd with ⟨group, hgmem, hcmem⟩
  obtain ⟨p, _, hp⟩ := mapM_ok_mem _ _ _ hgroups group hgmem
  obtain ⟨args, n, hargs, hn, rfl⟩ := parseGroup_false_ok p group hp
  rcases List.mem_singleton.mp hcmem with rfl
  unfold parseArgs at hargs
  obtain ⟨vals, hres, hdec, hflag⟩ := parseArgsGo_values _ 0 _ [] args hargs
  have hvals : args = vals := by simpa using hres
  subst hvals
  refine ⟨n, hn, hdec, ?_⟩
  intro j hj hb
  have := hflag j hj (by simpa using hb)
  simpa using this

theorem mapM_ok_exists {α β : Type} (f : α → Except String β) :
    ∀ (l : List α), (∀ x ∈ l, ∃ y, f x = Except.ok y) →
      ∃ out, l.mapM f = Except.ok out := by
  intro l
  induction l with
  | nil =>
    intro _
    exact ⟨[], by rw [List.mapM_nil]; rfl⟩
  | cons a l ih =>
    intro h
    obtain ⟨b, hb⟩ := h a (by simp)
    obtain ⟨bs, hbs⟩ := ih fun x hx => h x (by simp [hx])
    refine ⟨b :: bs, ?_⟩
    rw [List.mapM_cons, hb, except_ok_bind, hbs, except_ok_bind]
    rfl

theorem serialize_ok (cs : List (SvgCmd ℚ))
    (hgood : ∀ cmd ∈ cs, GoodCmd cmd) :
    ∃ segs, (cs.mapM fun cmd => path_segment cmd.1 cmd.2) = Except.ok segs ∧
      serializePath cs = Except.ok (joinSp segs) := by
  have hex : ∀ cmd ∈ cs, ∃ seg, path_segment cmd.1 cmd.2 = Except.ok seg := by
    intro cmd hc
    obtain ⟨n, hn, _, _⟩ := hgood cmd hc
    exact ⟨_, path_segment_eval cmd.1 cmd.2 n hn⟩
  obtain ⟨segs, hsegs⟩ := mapM_ok_exists _ cs hex
  refine ⟨segs, hsegs, ?_⟩
  unfold serializePath
  rw [hsegs, except_ok_bind]
  rfl

theorem parseGroup_false_eval (p : Char × List Char) (args : List ℚ) (n : ℕ)
    (hparse : parseArgs p.1 (splitSeps (pyStrip p.2)) = Except.ok args)
    (hc : check_cmd p.1 args.length = Except.ok n) :
    parseGroup false p = Except.ok [(p.1, args)] := by
  unfold parseGroup
  rw [hparse]
  simp only [except_ok_bind]
  rw [hc]
  simp only [except_ok_bind]
  rw [if_pos (Or.inr trivial)]
  rfl

theorem segs_head_cmd (cs : List (SvgCmd ℚ)) (segs : List (List Char))
    (h : (cs.mapM fun cmd => path_segment cmd.1 cmd.2) = Except.ok segs)
    (hgood : ∀ cmd ∈ cs, GoodCmd cmd) (hne : segs ≠ []) :
    ∃ c2 r2, joinSp segs = c2 :: r2 ∧ isCmdChar c2 = true := by
  match cs with
  | [] =>
    rw [List.mapM_nil] at h
    exact absurd (except_pure_ok _ _ h) fun he => hne he.symm
  | cmd :: cs' =>
    rw [List.mapM_cons] at h
    obtain ⟨seg, hseg, h2⟩ := except_bind_ok _ _ _ h
    obtain ⟨segs', hsegs', h3⟩ := except_bind_ok _ _ _ h2
    have hout : seg :: segs' = segs := except_pure_ok _ _ h3
    obtain ⟨n, hn, _, _⟩ := hgood cmd (by simp)
    rw [path_segment_eval cmd.1 cmd.2 n hn] at hseg
    injection hseg with hseg
    have hcmdc : isCmdChar cmd.1 = true := check_cmd_isCmd _ _ _ hn
    rw [← hout]
    by_cases h0 : segs' = []
    · subst h0
      refine ⟨cmd.1, joinSp (segTokens cmd.1 cmd.2 n), ?_, hcmdc⟩
      rw [← hseg]
      rfl
    · rw [joinSp_cons _ _ h0, ← hseg, List.cons_append]
      exact ⟨cmd.1, _, rfl, hcmdc⟩

theorem serialize_reparse_aux :
    ∀ (cs : List (SvgCmd ℚ)) (segs : List (List Char)),
      (cs.mapM fun cmd => path_segment cmd.1 cmd.2) = Except.ok segs →
      (∀ cmd ∈ cs, GoodCmd cmd) →
      (splitCmds (joinSp segs)).mapM (parseGroup false) =
        Except.ok (cs.map fun cmd => [cmd]) := by
  intro cs
  induction cs with
  | nil =>
    intro segs h _
    rw [List.mapM_nil] at h
    have hnil : ([] : List (List Char)) = segs := except_pure_ok _ _ h
    rw [← hnil]
    show (splitCmds []).mapM (parseGroup false) = _
    rw [splitCmds_nil, List.mapM_nil]
    rfl
  | cons cmd cs' ih =>
    intro segs h hgood
    rw [List.mapM_cons] at h
    obtain ⟨seg, hseg, h2⟩ := except_bind_ok _ _ _ h
    obtain ⟨segs', hsegs', h3⟩ := except_bind_ok _ _ _ h2
    have hout : seg :: segs' = segs := except_pure_ok _ _ h3
    obtain ⟨n, hn, hdec, hflag⟩ := hgood cmd (by simp)
    have hsegeq : seg = cmd.1 :: joinSp (segTokens cmd.1 cmd.2 n) := by
      rw [path_segment_eval cmd.1 cmd.2 n hn] at hseg
      injection hseg with hseg
      exact hseg.symm
    have hbodychars : ∀ x ∈ joinSp (segTokens cmd.1 cmd.2 n),
        isAtomChar x = true ∨ isSepChar x = true := by
      by_cases hn0 : n = 0
      · unfold segTokens
        rw [if_pos hn0]
        intro x hx
        cases hx
      · exact joinSp_chars _ _
          (segTokens_chars cmd.1 cmd.2 n ((check_cmd_ok _ _ _ hn).2.2 hn0))
          (Or.inr (by decide))
    have hbodyNoCmd : ∀ x ∈ joinSp (segTokens cmd.1 cmd.2 n),
        isCmdChar x = false := by
      intro x hx
      rcases hbodychars x hx with h1 | h1
      · exact atom_not_cmd x h1
      · exact sep_not_cmd x h1
    have hcmdc : isCmdChar cmd.1 = true := check_cmd_isCmd _ _ _ hn
    rw [← hout]
    by_cases h0 : segs' = []
    · subst h0
      have hcs' : cs' = [] := by
        have hlen := mapM_ok_length _ cs' [] hsegs'
        rw [List.length_nil] at hlen
        exact List.length_eq_zero.mp hlen.symm
      subst hcs'
      have hjoin : joinSp [seg] =
          cmd.1 :: (joinSp (segTokens cmd.1 cmd.2 n) ++ []) := by
        rw [hsegeq]
        simp [joinSp]
      rw [hjoin,
        splitCmds_cons cmd.1 hcmdc _ [] hbodyNoCmd (Or.inl rfl),
        splitCmds_nil, List.mapM_cons,
        parseGroup_false_eval (cmd.1, joinSp (segTokens cmd.1 cmd.2 n))
          cmd.2 n (by
            have hrep := path_segment_reparse cmd.1 cmd.2 n hn hdec hflag []
              (by intro z hz; cases hz)
            simpa using hrep) hn]
      simp only [except_ok_bind]
      rw [List.mapM_nil]
      rfl
    · obtain ⟨c2, r2, hjoin2, hc2⟩ := segs_head_cmd cs' segs' hsegs'
        (fun x hx => hgood x (by simp [hx])) h0
      have hjoin : joinSp (seg :: segs') =
          cmd.1 :: ((joinSp (segTokens cmd.1 cmd.2 n) ++ [' ']) ++
            joinSp segs') := by
        rw [joinSp_cons _ _ h0, hsegeq, List.cons_append]
        simp [List.append_assoc]
      have hNoCmd2 : ∀ x ∈ joinSp (segTokens cmd.1 cmd.2 n) ++ [' '],
          isCmdChar x = false := by
        intro x hx
        rcases List.mem_append.mp hx with hx | hx
        · exact hbodyNoCmd x hx
        · rw [List.mem_singleton.mp hx]
          decide
      rw [hjoin,
        splitCmds_cons cmd.1 hcmdc _ (joinSp segs') hNoCmd2
          (Or.inr ⟨c2, r2, hjoin2, hc2⟩),
        List.mapM_cons,
        parseGroup_false_eval
          (cmd.1, joinSp (segTokens cmd.1 cmd.2 n) ++ [' ']) cmd.2 n
          (path_segment_reparse cmd.1 cmd.2 n hn hdec hflag [' ']
            (by intro z hz; rw [List.mem_singleton.mp hz]; decide)) hn]
      simp only [except_ok_bind]
      rw [ih segs' hsegs' (fun x hx => hgood x (by simp [hx]))]
      simp only [except_ok_bind]
      rfl

theorem flatten_map_singleton {α : Type} (l : List α) :
    (l.map fun x => [x]).flatten = l := by
  induction l with
  | nil => rfl
  | cons a l ih => simp [ih]

/-- C8: for every syntactically valid path-data string `d` (one the parser
accepts, producing commands `cs`), the canonical serialization of `cs`
succeeds and reparsing it yields exactly `cs` again:
`parse(serialize(parse(d))) == parse(d)`. -/
theorem path_round_trip (d : List Char) (cs : List (SvgCmd ℚ))
    (h : parse_svg_path d false = Except.ok cs) :
    ∃ s, serializePath cs = Except.ok s ∧
      parse_svg_path s false = Except.ok cs := by
  have hgood := parse_goodCmds d cs h
  obtain ⟨segs, hsegs, hser⟩ := serialize_ok cs hgood
  refine ⟨joinSp segs, hser, ?_⟩
  unfold parse_svg_path
  rw [serialize_reparse_aux cs segs hsegs hgood]
  simp only [except_ok_bind]
  rw [flatten_map_singleton]
  rfl

/-- C8 witness: the concrete path `M1.5 2` parses, and the round trip
theorem applies to its parse. -/
theorem path_round_trip_witness :
    parse_svg_path ['M', '1', '.', '5', ' ', '2'] false =
        Except.ok [('M', [3/2, 2])] ∧
      ∃ s, serializePath [('M', [(3 : ℚ)/2, 2])] = Except.ok s ∧
        parse_svg_path s false = Except.ok [('M', [3/2, 2])] := by
  have hp : parse_svg_path ['M', '1', '.', '5', ' ', '2'] false =
      Except.ok [('M', [3/2, 2])] := by
    simp [parse_svg_path, parseGroup, parseArgs, parseArgsGo, splitCmds,
      splitSeps, pyStrip, isPySpace, isSepChar, isCmdChar, num_args, readArg,
      isBoolPos, floatRead, signRead, readIntPart, readFracPart, readExpPart,
      readSignedDigits, natVal, check_cmd, boolRead, explodeOneCmd,
      List.mapM, List.mapM.loop, Except.map, Except.pure, Except.bind]
    norm_num [Except.bind, Except.map, Bind.bind, Functor.map]
  exact ⟨hp, path_round_trip _ _ hp⟩

/-! ## arc_to_cubic.py (claims C5 and C6), over ℝ -/

/-- `math.radians(d)`. -/
noncomputable def radians (d : ℝ) : ℝ := d * (Real.pi / 180)

/-- `Affine2D.rotate(a, cx, cy)` (angle in radians). -/
noncomputable def Affine2D.rotate (m : Affine2D ℝ) (a cx cy : ℝ) :
    Affine2D ℝ :=
  ((m.translate cx cy).matrix (Real.cos a) (Real.sin a) (-Real.sin a)
    (Real.cos a) 0 0).translate (-cx) (-cy)

/-- `arc_to_cubic.CenterParametrization`. -/
structure CenterParametrization where
  theta1 : ℝ
  theta_arc : ℝ
  center_point : Point ℝ

/-- `arc_to_cubic.EllipticalArc`.  The source field `rotation` (degrees) is
spelled `rotationDeg` here; the flags are the source's ints. -/
structure EllipticalArc where
  start_point : Point ℝ
  rx : ℝ
  ry : ℝ
  rotationDeg : ℝ
  large : ℤ
  sweep : ℤ
  end_point : Point ℝ

/-- `EllipticalArc.is_straight_line()`: `fabs(rx)` or `fabs(ry)` falsy. -/
def EllipticalArc.is_straight_line (arc : EllipticalArc) : Prop :=
  |arc.rx| = 0 ∨ |arc.ry| = 0

/-- `EllipticalArc.is_zero_length()`: `end_point == start_point`,
componentwise tuple equality. -/
def EllipticalArc.is_zero_length (arc : EllipticalArc) : Prop :=
  arc.end_point.x = arc.start_point.x ∧ arc.end_point.y = arc.start_point.y

noncomputable instance (arc : EllipticalArc) :
    Decidable arc.is_straight_line := by
  unfold EllipticalArc.is_straight_line; infer_instance

noncomputable instance (arc : EllipticalArc) :
    Decidable arc.is_zero_length := by
  unfold EllipticalArc.is_zero_length; infer_instance

/-- The `radii_scale` computed inside
`EllipticalArc.correct_out_of_range_radii()`. -/
noncomputable def EllipticalArc.radiiScale (arc : EllipticalArc) : ℝ :=
  let mid_point_distance :=
    (arc.start_point.subPt arc.end_point).smul (1 / 2)
  let angle := radians arc.rotationDeg
  let point_transform := Affine2D.identity.rotate (-angle) 0 0
  let tm := point_transform.map_vector mid_point_distance
  tm.x * tm.x / (arc.rx * arc.rx) + tm.y * tm.y / (arc.ry * arc.ry)

/-- `EllipticalArc.correct_out_of_range_radii()`. -/
noncomputable def EllipticalArc.correct_out_of_range_radii
    (arc : EllipticalArc) : EllipticalArc :=
  if arc.is_straight_line ∨ arc.is_zero_length then arc
  else if arc.radiiScale > 1 then
    { arc with rx := arc.rx * Real.sqrt arc.radiiScale,
               ry := arc.ry * Real.sqrt arc.radiiScale }
  else arc

/-- `math.atan2(y, x)`: the argument of the complex number `x + i y`. -/
noncomputable def atan2 (y x : ℝ) : ℝ := Complex.arg ⟨x, y⟩

/-- The computation of `EllipticalArc.end_to_center_parametrization()` past
its degeneracy guard. -/
noncomputable def EllipticalArc.endToCenterCore (arc : EllipticalArc) :
    CenterParametrization :=
  let angle := radians arc.rotationDeg
  let point_transform :=
    (Affine2D.identity.scale (1 / arc.rx) (1 / arc.ry)).rotate (-angle) 0 0
  let point1 := point_transform.map_point arc.start_point
  let point2 := point_transform.map_point arc.end_point
  let delta : Vector ℝ := ⟨point2.x - point1.x, point2.y - point1.y⟩
  let d := delta.x * delta.x + delta.y * delta.y
  let scale_factor_squared := max (1 / d - 1 / 4) 0
  let scale_factor0 := Real.sqrt scale_factor_squared
  let scale_factor :=
    if arc.sweep = arc.large then -scale_factor0 else scale_factor0
  let delta2 := delta.smul scale_factor
  let center_point : Point ℝ :=
    ⟨point1.x + (point2.x - point1.x) * (1 / 2) + -delta2.y,
     point1.y + (point2.y - point1.y) * (1 / 2) + delta2.x⟩
  let v1 : Vector ℝ := ⟨point1.x - center_point.x, point1.y - center_point.y⟩
  let v2 : Vector ℝ := ⟨point2.x - center_point.x, point2.y - center_point.y⟩
  let theta1 := atan2 v1.y v1.x
  let theta2 := atan2 v2.y v2.x
  let theta_arc0 := theta2 - theta1
  let theta_arc :=
    if theta_arc0 < 0 ∧ arc.sweep ≠ 0 then theta_arc0 + 2 * Real.pi
    else if theta_arc0 > 0 ∧ arc.sweep = 0 then theta_arc0 - 2 * Real.pi
    else theta_arc0
  ⟨theta1, theta_arc, point_transform.inverse.map_point center_point⟩

/-- `EllipticalArc.end_to_center_parametrization()`: `ValueError` on a
degenerate arc, else the center parametrization. -/
noncomputable def EllipticalArc.end_to_center_parametrization
    (arc : EllipticalArc) : Except String CenterParametrization :=
  if arc.is_straight_line ∨ arc.is_zero_length then
    Except.error "ValueError: cannot compute center parametrization"
  else Except.ok arc.endToCenterCore

/-- One Bezier of `_arc_to_cubic`'s loop: control points and end point for
unit-circle angles `θs` to `θe`, mapped by the final point transform.
(`t` is a finite real for every segment the loop yields — the per-segment
sweep obeys `|θe - θs| ≤ π/2 + 0.001`, keeping `(θe - θs)/4` strictly
inside `(-π/2, π/2)` — so the source's `isfinite` early return is dead.) -/
noncomputable def segPoints (tf : Affine2D ℝ) (θs θe : ℝ) :
    Point ℝ × Point ℝ × Point ℝ :=
  let t := 4 / 3 * Real.tan (1 / 4 * (θe - θs))
  let point1 : Point ℝ :=
    ⟨Real.cos θs - t * Real.sin θs, Real.sin θs + t * Real.cos θs⟩
  let endP : Point ℝ := ⟨Real.cos θe, Real.sin θe⟩
  let point2 : Point ℝ :=
    Point.addVec endP ⟨t * Real.sin θe, -(t * Real.cos θe)⟩
  (tf.map_point point1, tf.map_point point2, tf.map_point endP)

/-- The final point transform of `_arc_to_cubic`. -/
noncomputable def segTransform (arc : EllipticalArc)
    (cp : CenterParametrization) : Affine2D ℝ :=
  ((Affine2D.identity.translate cp.center_point.x cp.center_point.y).rotate
    (radians arc.rotationDeg) 0 0).scale arc.rx arc.ry

/-- `int(ceil(fabs(theta_arc / (pi/2 + 0.001))))`. -/
noncomputable def numSegments (cp : CenterParametrization) : ℕ :=
  (Int.ceil |cp.theta_arc / (Real.pi / 2 + 1 / 1000)|).toNat

/-- `arc_to_cubic._arc_to_cubic(arc)`. -/
noncomputable def arcToCubicSegs (arc : EllipticalArc) :
    Except String (List (Point ℝ × Point ℝ × Point ℝ)) := do
  let arc2 := arc.correct_out_of_range_radii
  let cp ← arc2.end_to_center_parametrization
  let tf := segTransform arc2 cp
  let n := numSegments cp
  pure ((List.range n).map fun i =>
    segPoints tf (cp.theta1 + (i : ℝ) * cp.theta_arc / (n : ℝ))
      (cp.theta1 + ((i : ℝ) + 1) * cp.theta_arc / (n : ℝ)))

/-- `arc_to_cubic.arc_to_cubic(...)`: nothing for a zero-length arc, a
single `(None, None, end_point)` for a straight-line arc, else the cubics
with `some` control points. -/
noncomputable def arc_to_cubic (arc : EllipticalArc) :
    Except String (List (Option (Point ℝ) × Option (Point ℝ) × Point ℝ)) :=
  if arc.is_zero_length then Except.ok []
  else if arc.is_straight_line then Except.ok [(none, none, arc.end_point)]
  else do
    let segs ← arcToCubicSegs arc
    pure (segs.map fun s => (some s.1, some s.2.1, s.2.2))

/-! ### Claim C6: the degenerate-arc dispatch -/

/-- C6, counterexample to the claim as stated: an arc that is both
zero-length and straight-line degenerate (`rx = 0`, `start == end`) yields
nothing — the code checks zero length first — whereas the claim's
unconditional straight-line clause promises a single line-to. -/
theorem arc_line_zero_counterexample :
    ∃ arc : EllipticalArc, (arc.rx = 0 ∨ arc.ry = 0) ∧
      arc_to_cubic arc = Except.ok [] ∧
      arc_to_cubic arc ≠ Except.ok [(none, none, arc.end_point)] := by
  refine ⟨⟨⟨0, 0⟩, 0, 1, 0, 0, 0, ⟨0, 0⟩⟩, Or.inl rfl, ?_, ?_⟩
  · unfold arc_to_cubic
    rw [if_pos ⟨rfl, rfl⟩]
  · unfold arc_to_cubic
    rw [if_pos ⟨rfl, rfl⟩]
    intro h
    injection h with h
    cases h

theorem correct_radii_shape (arc : EllipticalArc) :
    arc.correct_out_of_range_radii = arc ∨
    ∃ s : ℝ, s ≠ 0 ∧ arc.correct_out_of_range_radii =
      { arc with rx := arc.rx * s, ry := arc.ry * s } := by
  unfold EllipticalArc.correct_out_of_range_radii
  split_ifs with h1 h2
  · exact Or.inl rfl
  · refine Or.inr ⟨Real.sqrt arc.radiiScale, ?_, rfl⟩
    intro h0
    have hle := Real.sqrt_eq_zero'.mp h0
    linarith
  · exact Or.inl rfl

theorem correct_radii_preserves (arc : EllipticalArc)
    (hs : ¬ arc.is_straight_line) (hz : ¬ arc.is_zero_length) :
    ¬ arc.correct_out_of_range_radii.is_straight_line ∧
    ¬ arc.correct_out_of_range_radii.is_zero_length := by
  rcases correct_radii_shape arc with heq | ⟨s, hsne, heq⟩
  · rw [heq]
    exact ⟨hs, hz⟩
  · rw [heq]
    constructor
    · intro hstr
      unfold EllipticalArc.is_straight_line at hstr hs
      rcases hstr with h1 | h1
      · rw [abs_eq_zero] at h1
        rcases mul_eq_zero.mp h1 with h2 | h2
        · exact hs (Or.inl (by rw [abs_eq_zero]; exact h2))
        · exact hsne h2
      · rw [abs_eq_zero] at h1
        rcases mul_eq_zero.mp h1 with h2 | h2
        · exact hs (Or.inr (by rw [abs_eq_zero]; exact h2))
        · exact hsne h2
    · intro hzl
      exact hz hzl

/-- C6 (amended): the degenerate dispatch of `arc_to_cubic`, with the
zero-length case taking precedence over the straight-line case: a
zero-length arc yields nothing even when `rx` or `ry` is zero; a
nonzero-length straight-line arc yields the single `(None, None, end)`
line; and the conversion always returns a value (empty, line, or cubics),
never an exception. -/
theorem arc_degenerate_dispatch (arc : EllipticalArc) :
    (arc.is_zero_length → arc_to_cubic arc = Except.ok []) ∧
    (¬ arc.is_zero_length → arc.is_straight_line →
      arc_to_cubic arc = Except.ok [(none, none, arc.end_point)]) ∧
    ∃ out, arc_to_cubic arc = Except.ok out := by
  refine ⟨?_, ?_, ?_⟩
  · intro hz
    unfold arc_to_cubic
    rw [if_pos hz]
  · intro hz hs
    unfold arc_to_cubic
    rw [if_neg hz, if_pos hs]
  · by_cases hz : arc.is_zero_length
    · refine ⟨[], ?_⟩
      unfold arc_to_cubic
      rw [if_pos hz]
    · by_cases hs : arc.is_straight_line
      · refine ⟨[(none, none, arc.end_point)], ?_⟩
        unfold arc_to_cubic
        rw [if_neg hz, if_pos hs]
      · obtain ⟨hps, hpz⟩ := correct_radii_preserves arc hs hz
        have hseg : ∃ segs, arcToCubicSegs arc = Except.ok segs := by
          unfold arcToCubicSegs EllipticalArc.end_to_center_parametrization
          dsimp only
          rw [if_neg (show ¬ (arc.correct_out_of_range_radii.is_straight_line ∨
            arc.correct_out_of_range_radii.is_zero_length) from
            fun h => h.elim hps hpz)]
          exact ⟨_, rfl⟩
        obtain ⟨segs, hsegs⟩ := hseg
        refine ⟨segs.map fun s => (some s.1, some s.2.1, s.2.2), ?_⟩
        unfold arc_to_cubic
        rw [if_neg hz, if_neg hs, hsegs]
        rfl

/-! ## svg_reuse.py (claim C4) -/

/-- `svg_reuse._SIGNIFICANCE_FACTOR = 5`. -/
def significanceFactor : α := 5

/-- The loop of `SVGShape.almost_equals(other, tolerance)` over the two
`zip_longest`-paired exploded command streams: `False` on a command-letter or
argument-count mismatch (including one stream ending first, where the filled
`(None, ())` mismatches anything) or on any coordinate differing by more than
the tolerance. -/
def cmdListAlmostEqB : List (SvgCmd α) → List (SvgCmd α) → α → Bool
  | [], [], _ => true
  | [], _ :: _, _ => false
  | _ :: _, [], _ => false
  | c1 :: r1, c2 :: r2, tolerance =>
    if c1.1 ≠ c2.1 ∨ c1.2.length ≠ c2.2.length then false
    else if (c1.2.zip c2.2).any fun p => decide (|p.1 - p.2| > tolerance) then
      false
    else cmdListAlmostEqB r1 r2 tolerance

/-- `SVGShape.almost_equals(other, tolerance)` on two paths: both sides are
iterated exploded (`as_path()` iteration is `parse_svg_path(d, exploded=True)`,
whose `check_cmd` failures propagate) and compared command by command. -/
def pathsAlmostEqual (s1 s2 : List (SvgCmd α)) (tolerance : α) :
    Except String Bool := do
  let e1 ← explodeCmds s1
  let e2 ← explodeCmds s2
  pure (cmdListAlmostEqB e1 e2 tolerance)

/-- `svg_reuse._affine_friendly(shape)` on a path: relative, explicit lines,
expanded shorthand. -/
def affine_friendly (cmds : List (SvgCmd α)) :
    Except String (List (SvgCmd α)) := do
  let r ← SVGPath.relative cmds
  let e ← SVGPath.explicit_lines r
  SVGPath.expand_shorthand e

/-- `svg_reuse._first_move(path)`: the first exploded command must be a move
(`StopIteration` on an empty path); its argument pair is returned (the
caller's `x, y = _first_move(...)` unpacking fails on any other arity, which
cannot happen for a checked `M`/`m`). -/
def first_move (cmds : List (SvgCmd α)) : Except String (α × α) := do
  let ex ← explodeCmds cmds
  match ex with
  | [] => Except.error "StopIteration"
  | c :: _ =>
    if c.1.toUpper = 'M' then
      match c.2 with
      | [x, y] => Except.ok (x, y)
      | _ => Except.error "ValueError: not an x,y argument pair"
    else Except.error "ValueError: path should start with a move"

/-- One yield of `svg_reuse._vectors(path)`: the zero vector for a `z`, else
the command's last x/y coordinate arguments (`IndexError` when a coordinate
index is missing or out of range, as for Python `[-1]` on an empty list). -/
def vectorOf (cmd : SvgCmd α) : Except String (Vector α) :=
  if cmd.1.toLower = 'z' then Except.ok ⟨0, 0⟩
  else
    match (cmd_coords cmd.1).1.getLast?, (cmd_coords cmd.1).2.getLast? with
    | some xi, some yi =>
      match cmd.2[xi]?, cmd.2[yi]? with
      | some x, some y => Except.ok ⟨x, y⟩
      | _, _ => Except.error "IndexError"
    | _, _ => Except.error "IndexError"

/-- The generator advance of `svg_reuse._nth_vector(path, n)` (`islice`
computes and discards the first `n` vectors, then yields the next;
`StopIteration` past the end). -/
def nthVectorGo : ℕ → List (SvgCmd α) → Except String (Vector α)
  | _, [] => Except.error "StopIteration"
  | 0, c :: _ => vectorOf c
  | n + 1, c :: rest => do
    let _ ← vectorOf c
    nthVectorGo n rest

/-- `svg_reuse._nth_vector(path, n)` over the exploded path. -/
def nth_vector (cmds : List (SvgCmd α)) (n : ℕ) :
    Except String (Vector α) := do
  let ex ← explodeCmds cmds
  nthVectorGo n ex

/-- The scan of `svg_reuse._first_significant(vectors, val_fn, tolerance)`
(the tolerance argument here is already scaled by the significance factor):
index 0 is skipped, the first vector whose value exceeds the scaled tolerance
in magnitude is returned with its index, else `(-1, None)`. -/
def firstSignificantGo (val_fn : Vector α → α) (tol : α) :
    ℕ → List (SvgCmd α) → Except String (ℤ × Option (Vector α))
  | _, [] => Except.ok (-1, none)
  | idx, c :: rest => do
    let vec ← vectorOf c
    if idx ≠ 0 ∧ |val_fn vec| > tol then Except.ok ((idx : ℤ), some vec)
    else firstSignificantGo val_fn tol (idx + 1) rest

/-- `svg_reuse._first_significant(_vectors(path), val_fn, tolerance)`. -/
def first_significant (cmds : List (SvgCmd α)) (val_fn : Vector α → α)
    (tolerance : α) : Except String (ℤ × Option (Vector α)) := do
  let ex ← explodeCmds cmds
  firstSignificantGo val_fn (significanceFactor * tolerance) 0 ex

/-- The scan of `svg_reuse._first_significant_for_both` over the zipped
vector streams of the two paths. -/
def firstSignificantBothGo (val_fn : Vector α → α) (tol : α) :
    ℕ → List (SvgCmd α) → List (SvgCmd α) →
      Except String (ℤ × Option (Vector α) × Option (Vector α))
  | idx, c1 :: r1, c2 :: r2 => do
    let v1 ← vectorOf c1
    let v2 ← vectorOf c2
    if idx ≠ 0 ∧ |val_fn v1| > tol ∧ |val_fn v2| > tol then
      Except.ok ((idx : ℤ), some v1, some v2)
    else firstSignificantBothGo val_fn tol (idx + 1) r1 r2
  | _, _, _ => Except.ok (-1, none, none)

/-- `svg_reuse._first_significant_for_both(s1, s2, val_fn, tolerance)`. -/
def first_significant_for_both (s1 s2 : List (SvgCmd α))
    (val_fn : Vector α → α) (tolerance : α) :
    Except String (ℤ × Option (Vector α) × Option (Vector α)) := do
  let e1 ← explodeCmds s1
  let e2 ← explodeCmds s2
  firstSignificantBothGo val_fn (significanceFactor * tolerance) 0 e1 e2

/-- The zero snap in `svg_reuse._affine_callback`: a mapped coordinate within
the default tolerance of 0 becomes exactly 0. -/
def snapZero (v : α) : α :=
  if almost_equal v 0 (defaultTolerance α) then 0 else v

/-- One coordinate pair of `svg_reuse._affine_callback`'s loop: map the pair
through the affine (`map_point` for an absolute command, `map_vector` for a
relative one), snap near-zero results, and store both (`IndexError` on an
out-of-range coordinate index). -/
def affineCallbackStep (affine : Affine2D α) (c : Char) (args : List α)
    (p : ℕ × ℕ) : Except String (List α) :=
  match args[p.1]?, args[p.2]? with
  | some x, some y =>
    let new : α × α :=
      if c = c.toUpper then
        ((affine.map_point ⟨x, y⟩).x, (affine.map_point ⟨x, y⟩).y)
      else
        ((affine.map_vector ⟨x, y⟩).x, (affine.map_vector ⟨x, y⟩).y)
    Except.ok ((args.set p.1 (snapZero new.1)).set p.2 (snapZero new.2))
  | _, _ => Except.error "IndexError"

/-- The per-command body of `svg_reuse._affine_callback`: assert equally many
x and y coordinate indices, then fold the pair loop over the arguments. -/
def affineCallbackCmd (affine : Affine2D α) (c : Char) (args : List α) :
    Except String (SvgCmd α) :=
  if (cmd_coords c).1.length = (cmd_coords c).2.length then do
    let newArgs ← ((cmd_coords c).1.zip (cmd_coords c).2).foldlM
      (affineCallbackStep affine c) args
    pure (c, newArgs)
  else Except.error "AssertionError"

/-- `svg_reuse._affine_callback(affine, ...)` as a walk callback. -/
def affineCallback (affine : Affine2D α) : WalkCallback α :=
  fun _sp _curr c args _prev => do
    let cmd ← affineCallbackCmd affine c args
    pure [cmd]

/-- `svg_reuse._apply_affine(affine, s)`. -/
def apply_affine (affine : Affine2D α) (s : List (SvgCmd α)) :
    Except String (List (SvgCmd α)) :=
  walk s (affineCallback affine)

/-- `svg_reuse._try_affine(affine, s1, s2, tolerance)`. -/
def try_affine (affine : Affine2D α) (s1 s2 : List (SvgCmd α))
    (tolerance : α) : Except String Bool := do
  let s1_prime ← apply_affine affine s1
  pathsAlmostEqual s1_prime s2 tolerance

/-- `svg_reuse._angle(v)`: `atan2(v.y, v.x)`. -/
noncomputable def angle (v : Vector ℝ) : ℝ := atan2 v.y v.x

/-- `Vector.norm()`: `sqrt(x*x + y*y)`. -/
noncomputable def Vector.norm (v : Vector ℝ) : ℝ :=
  Real.sqrt (v.x * v.x + v.y * v.y)

/-- `svg_reuse._affine_vec2vec(initial, target)`: rotate `initial` onto
`target`'s direction, then scale to its magnitude (scale 0 when the rotated
vector has norm 0). -/
noncomputable def affine_vec2vec (initial target : Vector ℝ) : Affine2D ℝ :=
  let a := angle target - angle initial
  let affine := Affine2D.identity.rotate a 0 0
  let vec := affine.map_vector initial
  let s := if vec.norm ≠ 0 then target.norm / vec.norm else 0
  Affine2D.compose_ltr [affine, Affine2D.identity.scale s s]

/-- Python `round(x, digits)` over the exact reals: round half to even at
`digits` decimal places. -/
noncomputable def pyRound (x : ℝ) (digits : ℕ) : ℝ :=
  let y := x * 10 ^ digits
  let fl := Int.floor y
  let r : ℤ :=
    if y - (fl : ℝ) < 1 / 2 then fl
    else if 1 / 2 < y - (fl : ℝ) then fl + 1
    else if fl % 2 = 0 then fl else fl + 1
  (r : ℝ) / 10 ^ digits

/-- `Affine2D.round(digits)`: every component rounded. -/
noncomputable def Affine2D.round (m : Affine2D ℝ) (digits : ℕ) : Affine2D ℝ :=
  ⟨pyRound m.a digits, pyRound m.b digits, pyRound m.c digits,
   pyRound m.d digits, pyRound m.e digits, pyRound m.f digits⟩

/-- The loop of `svg_reuse._round(affine, s1, s2, tolerance)`: the first
rounding of the affine that still passes `_try_affine`, else the unrounded
affine. -/
noncomputable def roundRetryGo (affine : Affine2D ℝ)
    (s1 s2 : List (SvgCmd ℝ)) (tolerance : ℝ) :
    List ℕ → Except String (Affine2D ℝ)
  | [] => Except.ok affine
  | i :: rest => do
    let rounded := affine.round i
    let passes ← try_affine rounded s1 s2 tolerance
    if passes = true then Except.ok rounded
    else roundRetryGo affine s1 s2 tolerance rest

/-- `svg_reuse._round(affine, s1, s2, tolerance)` over
`_ROUND_RANGE = range(3, 13)`. -/
noncomputable def roundRetry (affine : Affine2D ℝ) (s1 s2 : List (SvgCmd ℝ))
    (tolerance : ℝ) : Except String (Affine2D ℝ) :=
  roundRetryGo affine s1 s2 tolerance (List.range' 3 10)

/-- Unpacking an `Optional` that the source then uses as a value (`TypeError`
if it were `None`). -/
def optGet {β : Type} (o : Option β) : Except String β :=
  match o with
  | some v => Except.ok v
  | none => Except.error "TypeError: unexpected None"

/-- `svg_reuse.affine_between(s1, s2, tolerance)` on two paths: the identity
when the raw shapes already compare almost equal; otherwise the translate /
vector-to-vector / y-rescale candidate chain over the affine-friendly forms,
each accepted candidate rounded by `_round`; `None` when no candidate passes
or no significant x vector exists in `s2`. -/
noncomputable def affine_between (s1 s2 : List (SvgCmd ℝ)) (tolerance : ℝ) :
    Except String (Option (Affine2D ℝ)) := do
  let eq0 ← pathsAlmostEqual s1 s2 tolerance
  if eq0 = true then pure (some Affine2D.identity)
  else do
    let f1 ← affine_friendly s1
    let f2 ← affine_friendly s2
    let m1 ← first_move f1
    let m2 ← first_move f2
    let affine1 := Affine2D.identity.translate (m2.1 - m1.1) (m2.2 - m1.2)
    let t1 ← try_affine affine1 f1 f2 tolerance
    if t1 = true then do
      let r1 ← roundRetry affine1 f1 f2 tolerance
      pure (some r1)
    else do
      let fs ← first_significant f2 (fun v => v.x) tolerance
      if fs.1 = -1 then pure none
      else do
        let s2_vec1x ← optGet fs.2
        let s1_vec1 ← nth_vector f1 fs.1.toNat
        let s1_to_origin := Affine2D.identity.translate (-m1.1) (-m1.2)
        let s2_to_origin := Affine2D.identity.translate (-m2.1) (-m2.2)
        let vec_map := affine_vec2vec s1_vec1 s2_vec1x
        let origin_to_s2 := Affine2D.identity.translate m2.1 m2.2
        let affine2 :=
          Affine2D.compose_ltr [s1_to_origin, vec_map, origin_to_s2]
        let t2 ← try_affine affine2 f1 f2 tolerance
        if t2 = true then do
          let r2 ← roundRetry affine2 f1 f2 tolerance
          pure (some r2)
        else do
          let vec_angle := angle s2_vec1x
          let rot_onto_x := Affine2D.identity.rotate (-vec_angle) 0 0
          let rot_off_x := Affine2D.identity.rotate vec_angle 0 0
          let affine3 :=
            Affine2D.compose_ltr [s1_to_origin, vec_map, rot_onto_x]
          let s1_prime ← apply_affine affine3 f1
          let affine4 := Affine2D.compose_ltr [s2_to_origin, rot_onto_x]
          let s2_prime ← apply_affine affine4 f2
          let fb ← first_significant_for_both s1_prime s2_prime
            (fun v => v.y) tolerance
          if fb.1 ≠ -1 then do
            let s1_vecy ← optGet fb.2.1
            let s2_vecy ← optGet fb.2.2
            let affine5 := Affine2D.compose_ltr [s1_to_origin, vec_map,
              rot_onto_x, Affine2D.identity.scale 1 (s2_vecy.y / s1_vecy.y),
              rot_off_x, origin_to_s2]
            let t5 ← try_affine affine5 f1 f2 tolerance
            if t5 = true then do
              let r5 ← roundRetry affine5 f1 f2 tolerance
              pure (some r5)
            else pure none
          else pure none

/-- Whatever `_round` returns still passes `_try_affine` provided its input
affine did: each rounded candidate is returned only behind a passing
`_try_affine`, and the give-up value is the input affine itself. -/
theorem roundRetryGo_sound (affine : Affine2D ℝ) (s1 s2 : List (SvgCmd ℝ))
    (tolerance : ℝ)
    (hbase : try_affine affine s1 s2 tolerance = Except.ok true) :
    ∀ (l : List ℕ) (r : Affine2D ℝ),
      roundRetryGo affine s1 s2 tolerance l = Except.ok r →
      try_affine r s1 s2 tolerance = Except.ok true := by
  intro l
  induction l with
  | nil =>
    intro r h
    rw [roundRetryGo] at h
    injection h with h
    rw [← h]
    exact hbase
  | cons i rest ih =>
    intro r h
    rw [roundRetryGo] at h
    obtain ⟨b, hb, h2⟩ := except_bind_ok _ _ _ h
    cases b with
    | true =>
      rw [if_pos rfl] at h2
      injection h2 with h2
      rw [← h2]
      exact hb
    | false =>
      rw [if_neg (by simp)] at h2
      exact ih r h2

/-- C4 (amended): whenever `affine_between` returns a matrix `M`, either the
raw fast path fired — `s1` and `s2` already compare almost equal as given and
`M` is the identity — or applying `M` to `s1`'s affine-friendly form and
comparing it command by command to `s2`'s affine-friendly form passes within
the supplied tolerance (every later candidate, rounded or not, is returned
only behind a passing `_try_affine` on the friendly forms). -/
theorem affine_between_sound (s1 s2 : List (SvgCmd ℝ)) (tolerance : ℝ)
    (M : Affine2D ℝ)
    (h : affine_between s1 s2 tolerance = Except.ok (some M)) :
    (M = Affine2D.identity ∧
      pathsAlmostEqual s1 s2 tolerance = Except.ok true) ∨
    (∃ f1 f2, affine_friendly s1 = Except.ok f1 ∧
      affine_friendly s2 = Except.ok f2 ∧
      try_affine M f1 f2 tolerance = Except.ok true) := by
  unfold affine_between at h
  obtain ⟨b0, hb0, h⟩ := except_bind_ok _ _ _ h
  cases b0 with
  | true =>
    rw [if_pos rfl] at h
    have hm := except_pure_ok _ _ h
    injection hm with hm
    exact Or.inl ⟨hm.symm, hb0⟩
  | false =>
    rw [if_neg (by simp)] at h
    obtain ⟨f1, hf1, h⟩ := except_bind_ok _ _ _ h
    obtain ⟨f2, hf2, h⟩ := except_bind_ok _ _ _ h
    obtain ⟨m1, hm1, h⟩ := except_bind_ok _ _ _ h
    obtain ⟨m2, hm2, h⟩ := except_bind_ok _ _ _ h
    refine Or.inr ⟨f1, f2, hf1, hf2, ?_⟩
    dsimp only at h
    obtain ⟨t1, ht1, h⟩ := except_bind_ok _ _ _ h
    cases t1 with
    | true =>
      rw [if_pos rfl] at h
      obtain ⟨r1, hr1, h⟩ := except_bind_ok _ _ _ h
      have hm := except_pure_ok _ _ h
      injection hm with hm
      rw [← hm]
      exact roundRetryGo_sound _ _ _ _ ht1 _ _ hr1
    | false =>
      rw [if_neg (by simp)] at h
      obtain ⟨fs, hfs, h⟩ := except_bind_ok _ _ _ h
      by_cases hfsn : fs.1 = -1
      · rw [if_pos hfsn] at h
        exact absurd (except_pure_ok _ _ h) (by simp)
      · rw [if_neg hfsn] at h
        obtain ⟨v2x, hv2x, h⟩ := except_bind_ok _ _ _ h
        obtain ⟨v1, hv1, h⟩ := except_bind_ok _ _ _ h
        obtain ⟨t2, ht2, h⟩ := except_bind_ok _ _ _ h
        cases t2 with
        | true =>
          rw [if_pos rfl] at h
          obtain ⟨r2, hr2, h⟩ := except_bind_ok _ _ _ h
          have hm := except_pure_ok _ _ h
          injection hm with hm
          rw [← hm]
          exact roundRetryGo_sound _ _ _ _ ht2 _ _ hr2
        | false =>
          rw [if_neg (by simp)] at h
          obtain ⟨s1p, hs1p, h⟩ := except_bind_ok _ _ _ h
          obtain ⟨s2p, hs2p, h⟩ := except_bind_ok _ _ _ h
          obtain ⟨fb, hfb, h⟩ := except_bind_ok _ _ _ h
          by_cases hfbn : fb.1 ≠ -1
          · rw [if_pos hfbn] at h
            obtain ⟨vy1, hvy1, h⟩ := except_bind_ok _ _ _ h
            obtain ⟨vy2, hvy2, h⟩ := except_bind_ok _ _ _ h
            obtain ⟨t5, ht5, h⟩ := except_bind_ok _ _ _ h
            cases t5 with
            | true =>
              rw [if_pos rfl] at h
              obtain ⟨r5, hr5, h⟩ := except_bind_ok _ _ _ h
              have hm := except_pure_ok _ _ h
              injection hm with hm
              rw [← hm]
              exact roundRetryGo_sound _ _ _ _ ht5 _ _ hr5
            | false =>
              rw [if_neg (by simp)] at h
              exact absurd (except_pure_ok _ _ h) (by simp)
          · rw [if_neg hfbn] at h
            exact absurd (except_pure_ok _ _ h) (by simp)

/-- The raw paths of the C4 counterexample: two nearly identical horizontal
strokes, off by 0.0009 at both endpoints in opposite directions. -/
noncomputable def cexS1 : List (SvgCmd ℝ) := [('M', [0, 0]), ('L', [1, 0])]

noncomputable def cexS2 : List (SvgCmd ℝ) :=
  [('M', [9 / 10000, 0]), ('L', [9991 / 10000, 0])]

/-- The affine-friendly forms of the counterexample paths: `relative` lowers
both commands, then the `explicit_lines` walk re-promotes the now-leading `m`
to `M`; the relative line arguments differ by `0.0018`. -/
noncomputable def cexF1 : List (SvgCmd ℝ) := [('M', [0, 0]), ('l', [1, 0])]

noncomputable def cexF2 : List (SvgCmd ℝ) :=
  [('M', [9 / 10000, 0]), ('l', [9982 / 10000, 0])]

theorem cex_relative_s1 :
    SVGPath.relative cexS1 =
      Except.ok [('m', [(0 : ℝ), 0]), ('l', [1, 0])] := by
  simp [cexS1, SVGPath.relative, walk, walkGo, walkStep, WalkState.init,
    rewritePathCallback, absolute_to_relative, rewrite_coords, move_endpoint,
    explicitLinesCore, next_pos, emitStep, Point.almost_equals, almost_equal,
    defaultTolerance, cmd_coords, check_cmd, num_args, explodeCmds,
    explodeOneCmd, implicitRepeatCmd, List.mapM, List.mapM.loop,
    List.range_succ, bind, Except.bind, pure, Except.pure, Point.mk.injEq,
    List.getD]
  try norm_num [abs_of_nonneg]
  try simp [walkGo, walkStep, rewritePathCallback, absolute_to_relative,
    rewrite_coords, move_endpoint, explicitLinesCore, next_pos, emitStep,
    Point.almost_equals, almost_equal, defaultTolerance, cmd_coords,
    check_cmd, num_args, bind, Except.bind, pure, Except.pure,
    Point.mk.injEq, List.getD]
  try norm_num [abs_of_nonneg]
  try simp [emitStep]

theorem cex_explicit_s1 :
    SVGPath.explicit_lines [('m', [(0 : ℝ), 0]), ('l', [1, 0])] =
      Except.ok cexF1 := by
  simp [cexF1, SVGPath.explicit_lines, walk, walkGo, walkStep,
    WalkState.init, explicitLinesCore, next_pos, emitStep, cmd_coords,
    check_cmd, num_args, explodeCmds, explodeOneCmd, implicitRepeatCmd,
    List.mapM, List.mapM.loop, List.range_succ, bind, Except.bind, pure,
    Except.pure, List.getD]
  try norm_num [abs_of_nonneg]
  try simp [emitStep, next_pos, cmd_coords, List.getD]

theorem cex_expand_f1 :
    SVGPath.expand_shorthand cexF1 = Except.ok cexF1 := by
  simp [cexF1, SVGPath.expand_shorthand, walk, walkGo, walkStep,
    WalkState.init, expandShorthandCallback, shortToLong, next_pos, emitStep,
    cmd_coords, check_cmd, num_args, explodeCmds, explodeOneCmd,
    implicitRepeatCmd, List.mapM, List.mapM.loop, List.range_succ, bind,
    Except.bind, pure, Except.pure, List.getD]
  try norm_num [abs_of_nonneg]
  try simp [emitStep, next_pos, cmd_coords, List.getD]

theorem cex_friendly_s1 : affine_friendly cexS1 = Except.ok cexF1 := by
  unfold affine_friendly
  rw [cex_relative_s1, except_ok_bind, cex_explicit_s1, except_ok_bind]
  exact cex_expand_f1

theorem cex_relative_s2 :
    SVGPath.relative cexS2 =
      Except.ok [('m', [(9 : ℝ) / 10000, 0]), ('l', [9982 / 10000, 0])] := by
  simp [cexS2, SVGPath.relative, walk, walkGo, walkStep, WalkState.init,
    rewritePathCallback, absolute_to_relative, rewrite_coords, move_endpoint,
    explicitLinesCore, next_pos, emitStep, Point.almost_equals, almost_equal,
    defaultTolerance, cmd_coords, check_cmd, num_args, explodeCmds,
    explodeOneCmd, implicitRepeatCmd, List.mapM, List.mapM.loop,
    List.range_succ, bind, Except.bind, pure, Except.pure, Point.mk.injEq,
    List.getD]
  try norm_num [abs_of_nonneg]
  try simp [walkGo, walkStep, rewritePathCallback, absolute_to_relative,
    rewrite_coords, move_endpoint, explicitLinesCore, next_pos, emitStep,
    Point.almost_equals, almost_equal, defaultTolerance, cmd_coords,
    check_cmd, num_args, bind, Except.bind, pure, Except.pure,
    Point.mk.injEq, List.getD]
  try norm_num [abs_of_nonneg]
  try simp [emitStep]

theorem cex_explicit_s2 :
    SVGPath.explicit_lines [('m', [(9 : ℝ) / 10000, 0]),
        ('l', [9982 / 10000, 0])] =
      Except.ok cexF2 := by
  simp [cexF2, SVGPath.explicit_lines, walk, walkGo, walkStep,
    WalkState.init, explicitLinesCore, next_pos, emitStep, cmd_coords,
    check_cmd, num_args, explodeCmds, explodeOneCmd, implicitRepeatCmd,
    List.mapM, List.mapM.loop, List.range_succ, bind, Except.bind, pure,
    Except.pure, List.getD]
  try norm_num [abs_of_nonneg]
  try simp [emitStep, next_pos, cmd_coords, List.getD]

theorem cex_expand_f2 :
    SVGPath.expand_shorthand cexF2 = Except.ok cexF2 := by
  simp [cexF2, SVGPath.expand_shorthand, walk, walkGo, walkStep,
    WalkState.init, expandShorthandCallback, shortToLong, next_pos, emitStep,
    cmd_coords, check_cmd, num_args, explodeCmds, explodeOneCmd,
    implicitRepeatCmd, List.mapM, List.mapM.loop, List.range_succ, bind,
    Except.bind, pure, Except.pure, List.getD]
  try norm_num [abs_of_nonneg]
  try simp [emitStep, next_pos, cmd_coords, List.getD]

theorem cex_friendly_s2 : affine_friendly cexS2 = Except.ok cexF2 := by
  unfold affine_friendly
  rw [cex_relative_s2, except_ok_bind, cex_explicit_s2, except_ok_bind]
  exact cex_expand_f2

theorem cex_pathsAlmostEqual_raw :
    pathsAlmostEqual cexS1 cexS2 (1 / 1000) = Except.ok true := by
  simp [cexS1, cexS2, pathsAlmostEqual, cmdListAlmostEqB, explodeCmds,
    explodeOneCmd, check_cmd, num_args, implicitRepeatCmd, List.mapM,
    List.mapM.loop, List.range_succ, bind, Except.bind, pure, Except.pure]
  norm_num [abs_of_nonneg]

theorem cex_affine_between :
    affine_between cexS1 cexS2 (1 / 1000) =
      Except.ok (some Affine2D.identity) := by
  unfold affine_between
  rw [cex_pathsAlmostEqual_raw, except_ok_bind]
  rfl

theorem cex_apply_identity :
    apply_affine Affine2D.identity cexF1 = Except.ok cexF1 := by
  simp [cexF1, apply_affine, walk, walkGo, walkStep, WalkState.init,
    affineCallback, affineCallbackCmd, affineCallbackStep, snapZero,
    almost_equal, defaultTolerance, Affine2D.map_point, Affine2D.map_vector,
    Affine2D.identity, emitStep, next_pos, cmd_coords, check_cmd, num_args,
    explodeCmds, explodeOneCmd, implicitRepeatCmd, List.mapM, List.mapM.loop,
    List.range_succ, List.foldlM, bind, Except.bind, pure, Except.pure,
    List.getD]
  try norm_num [abs_of_nonneg]
  try simp [emitStep, next_pos, cmd_coords, List.getD]

theorem cex_pathsAlmostEqual_friendly :
    pathsAlmostEqual cexF1 cexF2 (1 / 1000) = Except.ok false := by
  simp [cexF1, cexF2, pathsAlmostEqual, cmdListAlmostEqB, explodeCmds,
    explodeOneCmd, check_cmd, num_args, implicitRepeatCmd, List.mapM,
    List.mapM.loop, List.range_succ, bind, Except.bind, pure, Except.pure]
  norm_num [abs_of_nonneg]

theorem cex_try_identity :
    try_affine Affine2D.identity cexF1 cexF2 (1 / 1000) =
      Except.ok false := by
  unfold try_affine
  rw [cex_apply_identity, except_ok_bind]
  exact cex_pathsAlmostEqual_friendly

/-- C4, counterexample to the claim as stated: `affine_between` returns the
identity matrix through its raw fast path (`s1.almost_equals(s2, tolerance)`
on the paths as given, both endpoint coordinates within 0.0009 ≤ 0.001), yet
applying that identity to `s1`'s affine-friendly form and comparing it
command by command to `s2`'s affine-friendly form fails the tolerance: the
relative line arguments `1` and `0.9982` differ by `0.0018 > 0.001`. -/
theorem affine_between_identity_counterexample :
    affine_between cexS1 cexS2 (1 / 1000) =
        Except.ok (some Affine2D.identity) ∧
      affine_friendly cexS1 = Except.ok cexF1 ∧
      affine_friendly cexS2 = Except.ok cexF2 ∧
      try_affine Affine2D.identity cexF1 cexF2 (1 / 1000) =
        Except.ok false :=
  ⟨cex_affine_between, cex_friendly_s1, cex_friendly_s2, cex_try_identity⟩

/-- C4 witness: the amended soundness theorem applied at the concrete
fast-path input, its hypothesis discharged by the evaluated run. -/
theorem affine_between_sound_witness :
    affine_between cexS1 cexS2 (1 / 1000) =
        Except.ok (some Affine2D.identity) ∧
      (((Affine2D.identity : Affine2D ℝ) = Affine2D.identity ∧
          pathsAlmostEqual cexS1 cexS2 (1 / 1000) = Except.ok true) ∨
        ∃ f1 f2, affine_friendly cexS1 = Except.ok f1 ∧
          affine_friendly cexS2 = Except.ok f2 ∧
          try_affine Affine2D.identity f1 f2 (1 / 1000) = Except.ok true) :=
  ⟨cex_affine_between,
   affine_between_sound cexS1 cexS2 (1 / 1000) Affine2D.identity
     cex_affine_between⟩

/-- C6 witness: a nonzero-length arc with `rx = 0` yields exactly the
single line-to, via the amended dispatch theorem. -/
theorem arc_degenerate_dispatch_witness :
    ¬ (⟨⟨0, 0⟩, 0, 1, 0, 0, 0, ⟨1, 0⟩⟩ : EllipticalArc).is_zero_length ∧
    (⟨⟨0, 0⟩, 0, 1, 0, 0, 0, ⟨1, 0⟩⟩ : EllipticalArc).is_straight_line ∧
    arc_to_cubic ⟨⟨0, 0⟩, 0, 1, 0, 0, 0, ⟨1, 0⟩⟩ =
      Except.ok [(none, none, (⟨1, 0⟩ : Point ℝ))] := by
  have hz : ¬ (⟨⟨0, 0⟩, 0, 1, 0, 0, 0, ⟨1, 0⟩⟩ :
      EllipticalArc).is_zero_length := by
    unfold EllipticalArc.is_zero_length
    norm_num
  have hs : (⟨⟨0, 0⟩, 0, 1, 0, 0, 0, ⟨1, 0⟩⟩ :
      EllipticalArc).is_straight_line := Or.inl (by norm_num)
  exact ⟨hz, hs, (arc_degenerate_dispatch _).2.1 hz hs⟩

/-! ### Claim C5: the arc converter at an epsilon-degenerate unit transform -/

/-- The C5 failing arc: both radii `2^26`, no rotation, flags 0, from the
origin to `(1, 0)`.  Its unit-space `point_transform` is the scale by
`2^-26` in both axes, whose determinant `2^-52` equals
`sys.float_info.epsilon` exactly. -/
noncomputable def arcC5 : EllipticalArc :=
  ⟨⟨0, 0⟩, 67108864, 67108864, 0, 0, 0, ⟨1, 0⟩⟩

/-- The common `y` component of the two unit-space radius vectors of
`arcC5`'s center parametrization (`18014398509481983 = 2^54 - 1`). -/
noncomputable def yC5 : ℝ :=
  1 / 67108864 * (Real.sqrt 18014398509481983 / Real.sqrt 4)

/-- `theta1` of `arcC5`'s center parametrization. -/
noncomputable def theta1C5 : ℝ := atan2 yC5 (-(1 / 134217728))

/-- The end angle of `arcC5`'s single segment. -/
noncomputable def theta2C5 : ℝ := atan2 yC5 (1 / 134217728)

/-- Rotation by a zero angle about the origin is the identity rewrite. -/
theorem rotate_zero (m : Affine2D ℝ) : m.rotate 0 0 0 = m := by
  unfold Affine2D.rotate Affine2D.translate Affine2D.matrix Affine2D.product
  norm_num [Real.cos_zero, Real.sin_zero]

theorem arcC5_nondegen :
    ¬ (arcC5.is_straight_line ∨ arcC5.is_zero_length) := by
  unfold EllipticalArc.is_straight_line EllipticalArc.is_zero_length arcC5
  norm_num

/-- `arcC5`'s radii are already in range (`radii_scale = 2^-54 ≤ 1`). -/
theorem arcC5_radii : arcC5.correct_out_of_range_radii = arcC5 := by
  have h2 : ¬ (arcC5.radiiScale > 1) := by
    simp only [EllipticalArc.radiiScale, arcC5, radians, zero_mul, neg_zero,
      rotate_zero, Affine2D.map_vector, Affine2D.identity, Point.subPt,
      Vector.smul]
    norm_num
  unfold EllipticalArc.correct_out_of_range_radii
  rw [if_neg arcC5_nondegen, if_neg h2]

theorem yC5_sq : yC5 ^ 2 = 18014398509481983 / 18014398509481984 := by
  unfold yC5
  rw [mul_pow, div_pow, div_pow,
    Real.sq_sqrt (by norm_num : (0:ℝ) ≤ 18014398509481983),
    Real.sq_sqrt (by norm_num : (0:ℝ) ≤ 4)]
  norm_num

theorem yC5_pos : 0 < yC5 := by
  unfold yC5
  positivity

/-- Both unit-space radius vectors have length exactly 1. -/
theorem absC5_1 : Complex.abs ⟨-(1 / 134217728), yC5⟩ = 1 := by
  rw [Complex.abs_apply, Complex.normSq_mk,
    show (-(1 / 134217728) : ℝ) * (-(1 / 134217728)) + yC5 * yC5 = 1 from by
      rw [show yC5 * yC5 = yC5 ^ 2 from (pow_two yC5).symm, yC5_sq]
      norm_num]
  exact Real.sqrt_one

theorem absC5_2 : Complex.abs ⟨1 / 134217728, yC5⟩ = 1 := by
  rw [Complex.abs_apply, Complex.normSq_mk,
    show (1 / 134217728 : ℝ) * (1 / 134217728) + yC5 * yC5 = 1 from by
      rw [show yC5 * yC5 = yC5 ^ 2 from (pow_two yC5).symm, yC5_sq]
      norm_num]
  exact Real.sqrt_one

theorem neC5_1 : (⟨-(1 / 134217728), yC5⟩ : ℂ) ≠ 0 := by
  intro h
  have him := congrArg Complex.im h
  simp at him
  exact (ne_of_gt yC5_pos) him

theorem neC5_2 : (⟨1 / 134217728, yC5⟩ : ℂ) ≠ 0 := by
  intro h
  have him := congrArg Complex.im h
  simp at him
  exact (ne_of_gt yC5_pos) him

theorem cosC5_1 : Real.cos theta1C5 = -(1 / 134217728) := by
  unfold theta1C5 atan2
  rw [Complex.cos_arg neC5_1, absC5_1]
  simp

theorem sinC5_1 : Real.sin theta1C5 = yC5 := by
  unfold theta1C5 atan2
  rw [Complex.sin_arg, absC5_1]
  simp

theorem cosC5_2 : Real.cos theta2C5 = 1 / 134217728 := by
  unfold theta2C5 atan2
  rw [Complex.cos_arg neC5_2, absC5_2]
  simp

theorem sinC5_2 : Real.sin theta2C5 = yC5 := by
  unfold theta2C5 atan2
  rw [Complex.sin_arg, absC5_2]
  simp

theorem memC5_1 : theta1C5 ∈ Set.Ioc (-Real.pi) Real.pi :=
  Complex.arg_mem_Ioc _

theorem memC5_2 : theta2C5 ∈ Set.Ioc (-Real.pi) Real.pi :=
  Complex.arg_mem_Ioc _

theorem theta1C5_pos : 0 < theta1C5 := by
  by_contra h
  push_neg at h
  have hnp : Real.sin theta1C5 ≤ 0 :=
    Real.sin_nonpos_of_nonnpos_of_neg_pi_le h (le_of_lt memC5_1.1)
  rw [sinC5_1] at hnp
  exact absurd hnp (not_le.mpr yC5_pos)

theorem theta2C5_pos : 0 < theta2C5 := by
  by_contra h
  push_neg at h
  have hnp : Real.sin theta2C5 ≤ 0 :=
    Real.sin_nonpos_of_nonnpos_of_neg_pi_le h (le_of_lt memC5_2.1)
  rw [sinC5_2] at hnp
  exact absurd hnp (not_le.mpr yC5_pos)

theorem theta1C5_lt_pi : theta1C5 < Real.pi := by
  rcases lt_or_eq_of_le memC5_1.2 with h | h
  · exact h
  · exfalso
    have hsin := sinC5_1
    rw [h, Real.sin_pi] at hsin
    exact absurd hsin.symm (ne_of_gt yC5_pos)

/-- `theta1` lies in the second quadrant (its cosine is negative). -/
theorem theta1C5_gt_half : Real.pi / 2 < theta1C5 := by
  by_contra h
  push_neg at h
  have hcos : 0 ≤ Real.cos theta1C5 :=
    Real.cos_nonneg_of_mem_Icc
      ⟨by linarith [theta1C5_pos, Real.pi_pos], h⟩
  rw [cosC5_1] at hcos
  norm_num at hcos

/-- `theta2` lies in the first quadrant (its cosine is positive). -/
theorem theta2C5_lt_half : theta2C5 < Real.pi / 2 := by
  by_contra h
  push_neg at h
  have hcos : Real.cos theta2C5 ≤ 0 :=
    Real.cos_nonpos_of_pi_div_two_le_of_le h
      (by linarith [memC5_2.2, Real.pi_pos])
  rw [cosC5_2] at hcos
  norm_num at hcos

theorem thetaC5_not_lt : ¬ (theta1C5 < theta2C5) := by
  have h1 := theta1C5_gt_half
  have h2 := theta2C5_lt_half
  linarith

theorem thetaC5_diff_pos : 0 < theta1C5 - theta2C5 := by
  have h1 := theta1C5_gt_half
  have h2 := theta2C5_lt_half
  linarith

/-- The arc sweep is below `pi/2`: the cosine of the angle between the two
radius vectors is `1 - 2^-53 > 0`. -/
theorem thetaC5_diff_lt_half : theta1C5 - theta2C5 < Real.pi / 2 := by
  by_contra h
  push_neg at h
  have hub : theta1C5 - theta2C5 ≤ Real.pi + Real.pi / 2 := by
    have := theta1C5_lt_pi
    have := theta2C5_pos
    have := Real.pi_pos
    linarith
  have hcos : Real.cos (theta1C5 - theta2C5) ≤ 0 :=
    Real.cos_nonpos_of_pi_div_two_le_of_le h hub
  rw [Real.cos_sub, cosC5_1, cosC5_2, sinC5_1, sinC5_2] at hcos
  nlinarith [yC5_sq]

/-- The unit-space transform of `arcC5` hits `inverse()`'s silent epsilon
guard: its determinant is exactly `sys.float_info.epsilon`, so the inverse is
the all-zero degenerate matrix. -/
theorem invC5 :
    (⟨1 / 67108864, 0, 0, 1 / 67108864, 0, 0⟩ : Affine2D ℝ).inverse =
      Affine2D.degenerate := by
  have hne : (⟨1 / 67108864, 0, 0, 1 / 67108864, 0, 0⟩ : Affine2D ℝ) ≠
      Affine2D.identity := by
    intro h
    have ha := congrArg Affine2D.a h
    norm_num [Affine2D.identity] at ha
  have hdeg : (⟨1 / 67108864, 0, 0, 1 / 67108864, 0, 0⟩ :
      Affine2D ℝ).is_degenerate := by
    unfold Affine2D.is_degenerate Affine2D.determinant Affine2D.floatEpsilon
    norm_num [abs_of_nonneg]
  unfold Affine2D.inverse
  rw [if_neg hne, if_pos hdeg]

/-- `arcC5`'s center parametrization: the true unit-space center is
`(2^-27, -sqrt(2^52 - 1/4) / 2^26)`, but the zeroed inverse collapses the
mapped center to the origin. -/
theorem arcC5_core :
    arcC5.endToCenterCore = ⟨theta1C5, theta2C5 - theta1C5, ⟨0, 0⟩⟩ := by
  unfold EllipticalArc.endToCenterCore
  simp only [arcC5, radians, zero_mul, neg_zero, rotate_zero,
    Affine2D.scale, Affine2D.matrix, Affine2D.product, Affine2D.identity,
    Affine2D.map_point, Affine2D.map_vector, Point.subPt, Vector.smul,
    mul_zero, mul_one, one_mul, add_zero, zero_add, zero_div, sub_zero,
    zero_sub, if_true, if_false, and_false, and_true, ite_true, ite_false]
  norm_num
  rw [show (1 / 67108864 * (Real.sqrt 18014398509481983 / Real.sqrt 4) : ℝ) =
    yC5 from rfl]
  rw [show atan2 yC5 (-(1 / 134217728)) = theta1C5 from rfl,
    show atan2 yC5 (1 / 134217728) = theta2C5 from rfl]
  rw [if_neg thetaC5_not_lt]
  rw [invC5]
  unfold Affine2D.degenerate
  norm_num

/-- The sweep `|theta2 - theta1| < pi/2` yields a single segment. -/
theorem numC5 :
    numSegments ⟨theta1C5, theta2C5 - theta1C5, ⟨0, 0⟩⟩ = 1 := by
  unfold numSegments
  have hden : (0:ℝ) < Real.pi / 2 + 1 / 1000 := by
    have := Real.pi_pos
    linarith
  have habs : |(theta2C5 - theta1C5) / (Real.pi / 2 + 1 / 1000)| =
      (theta1C5 - theta2C5) / (Real.pi / 2 + 1 / 1000) := by
    rw [abs_div, abs_of_pos hden, abs_sub_comm,
      abs_of_pos thetaC5_diff_pos]
  show (Int.ceil |(theta2C5 - theta1C5) / (Real.pi / 2 + 1 / 1000)|).toNat = 1
  rw [habs, show Int.ceil ((theta1C5 - theta2C5) / (Real.pi / 2 + 1 / 1000)) =
      (1 : ℤ) from by
    rw [Int.ceil_eq_iff]
    constructor
    · push_cast
      norm_num
      exact div_pos thetaC5_diff_pos hden
    · push_cast
      rw [div_le_one hden]
      have := thetaC5_diff_lt_half
      linarith]
  rfl

/-- The final point transform of `arcC5`: the collapsed center contributes no
translation, so it is the bare scale by the radii. -/
theorem tfC5 :
    segTransform arcC5 ⟨theta1C5, theta2C5 - theta1C5, ⟨0, 0⟩⟩ =
      ⟨67108864, 0, 0, 67108864, 0, 0⟩ := by
  unfold segTransform
  simp only [arcC5, radians, zero_mul, neg_zero]
  norm_num [Affine2D.translate, rotate_zero, Affine2D.scale, Affine2D.matrix,
    Affine2D.product, Affine2D.identity]

theorem etsC5 :
    arcC5.end_to_center_parametrization =
      Except.ok ⟨theta1C5, theta2C5 - theta1C5, ⟨0, 0⟩⟩ := by
  unfold EllipticalArc.end_to_center_parametrization
  rw [if_neg arcC5_nondegen, arcC5_core]

theorem segsC5 :
    arcToCubicSegs arcC5 = Except.ok
      [segPoints ⟨67108864, 0, 0, 67108864, 0, 0⟩ theta1C5 theta2C5] := by
  unfold arcToCubicSegs
  rw [arcC5_radii]
  dsimp only
  rw [etsC5, except_ok_bind]
  dsimp only
  rw [numC5, tfC5]
  simp [List.range_succ, List.range_zero]
  rfl

/-- The single segment's end point is `(1/2, sqrt(2^54 - 1)/2)`, i.e.
`(0.5, 67108864.0)` in floats — nowhere near the arc end `(1, 0)`. -/
theorem endC5 :
    (segPoints ⟨67108864, 0, 0, 67108864, 0, 0⟩ theta1C5 theta2C5).2.2 =
      ⟨1 / 2, Real.sqrt 18014398509481983 / 2⟩ := by
  unfold segPoints
  dsimp only
  simp only [Affine2D.map_point]
  rw [cosC5_2, sinC5_2]
  unfold yC5
  rw [show Real.sqrt 4 = 2 from by
    rw [show (4:ℝ) = 2 ^ 2 by norm_num, Real.sqrt_sq (by norm_num : (0:ℝ) ≤ 2)]]
  simp only [Point.mk.injEq]
  constructor
  · norm_num
  · ring

theorem arcC5_missed_end :
    arc_to_cubic arcC5 = Except.ok
      [(some (segPoints ⟨67108864, 0, 0, 67108864, 0, 0⟩ theta1C5 theta2C5).1,
        some (segPoints ⟨67108864, 0, 0, 67108864, 0, 0⟩ theta1C5
          theta2C5).2.1,
        (⟨1 / 2, Real.sqrt 18014398509481983 / 2⟩ : Point ℝ))] := by
  have hz : ¬ arcC5.is_zero_length := fun h => arcC5_nondegen (Or.inr h)
  have hstr : ¬ arcC5.is_straight_line := fun h => arcC5_nondegen (Or.inl h)
  unfold arc_to_cubic
  rw [if_neg hz, if_neg hstr, segsC5, except_ok_bind]
  simp only [List.map_cons, List.map_nil]
  rw [endC5]
  rfl

/-- C5, counterexample (code bug): `arcC5` is neither a straight line nor
zero-length, and `arc_to_cubic` does yield exactly
`ceil(|theta_arc| / (pi/2 + 0.001)) = 1` cubic segment, but the chain does
not end at the arc's end point within tolerance: the yielded segment ends at
`(1/2, sqrt(2^54 - 1)/2)` — off from `(1, 0)` by more than a million —
because the unit-space `point_transform`'s determinant `2^-52` equals
`sys.float_info.epsilon`, so `Affine2D.inverse()` silently returns the
all-zero degenerate matrix and the computed center collapses to the
origin. -/
theorem arc_to_cubic_endpoint_collapse :
    ¬ (arcC5.is_straight_line ∨ arcC5.is_zero_length) ∧
    ∃ p1 p2 : Point ℝ,
      arc_to_cubic arcC5 = Except.ok
        [(some p1, some p2,
          (⟨1 / 2, Real.sqrt 18014398509481983 / 2⟩ : Point ℝ))] ∧
      ¬ (⟨1 / 2, Real.sqrt 18014398509481983 / 2⟩ : Point ℝ).almost_equals
          arcC5.end_point 1000000 := by
  refine ⟨arcC5_nondegen, _, _, arcC5_missed_end, ?_⟩
  unfold Point.almost_equals almost_equal arcC5
  rintro ⟨hx, hy⟩
  have hsq : (2000000 : ℝ) < Real.sqrt 18014398509481983 := by
    rw [Real.lt_sqrt (by norm_num : (0:ℝ) ≤ 2000000)]
    norm_num
  rw [sub_zero, abs_of_pos (by positivity)] at hy
  linarith

end Picosvg
